import Mathlib

/-!
# Rosalina menu engine (Luma3DS): shallow embedding and properties

Embedding of `sysmodules/rosalina/source/menu.c`:

* the overlay thread (`menuThreadMain`, `scanHeldKeys`) and the display lease
  (`menuEnter`, `menuLeave`, `menuRefCount`);
* the menu navigation of `menuShow` (`menuAdvanceCursor`, `menuItemIsHidden`,
  `menuCountItems`, `menuCountItemsWithoutHidden`, the loop body with the
  array read of `menuDraw`, and the back-stack);
* the input polling (`waitInputWithTimeout`, `waitComboWithTimeout`);

and of `sysmodules/rosalina/source/menus/miscellaneous.c`:

* `MiscellaneousMenu_ConvertComboToString` and the buffers it writes to;
* the UTC offset of `MiscellaneousMenu_UpdateTimeDateNtp`.

Conventions.  `u32` values are natural numbers below `2^32`, `s32` values are
integers; conversions between the two are explicit (`toU32`, `toS32`).  Pointers
to menus are addresses (`MenuPtr`) looked up in a memory `MenuPtr → Menu`.  Calls
to collaborators that live outside `menu.c` are recorded in a call log.
-/

namespace Rosalina

/-! ## Machine integers and key masks -/

/-- Conversion of a C integer to `u32`: reduction modulo `2^32`. -/
def toU32 (x : Int) : Nat := (x % 4294967296).toNat

/-- Conversion of a `u32` value to `s32` (two's complement reading). -/
def toS32 (x : Nat) : Int :=
  if x % 4294967296 < 2147483648 then ((x % 4294967296 : Nat) : Int)
  else ((x % 4294967296 : Nat) : Int) - 4294967296

/-- The libctru helper `BIT(n)`. -/
def BIT (n : Nat) : Nat := 1 <<< n

/-- Key bits of libctru (`hid.h`), as used by `menu.c`. -/
def KEY_A : Nat := BIT 0
/-- Key bit of libctru. -/
def KEY_B : Nat := BIT 1
/-- Key bit of libctru. -/
def KEY_DRIGHT : Nat := BIT 4
/-- Key bit of libctru. -/
def KEY_DLEFT : Nat := BIT 5
/-- Key bit of libctru. -/
def KEY_DUP : Nat := BIT 6
/-- Key bit of libctru. -/
def KEY_DDOWN : Nat := BIT 7
/-- Key bit of libctru. -/
def KEY_X : Nat := BIT 10
/-- Key bit of libctru. -/
def KEY_CPAD_RIGHT : Nat := BIT 28
/-- Key bit of libctru. -/
def KEY_CPAD_LEFT : Nat := BIT 29
/-- Key bit of libctru. -/
def KEY_CPAD_UP : Nat := BIT 30
/-- Key bit of libctru. -/
def KEY_CPAD_DOWN : Nat := BIT 31
/-- Generic catch-all direction of libctru: D-pad up or circle-pad up. -/
def KEY_UP : Nat := KEY_DUP ||| KEY_CPAD_UP
/-- Generic catch-all direction of libctru. -/
def KEY_DOWN : Nat := KEY_DDOWN ||| KEY_CPAD_DOWN
/-- Generic catch-all direction of libctru. -/
def KEY_LEFT : Nat := KEY_DLEFT ||| KEY_CPAD_LEFT
/-- Generic catch-all direction of libctru. -/
def KEY_RIGHT : Nat := KEY_DRIGHT ||| KEY_CPAD_RIGHT

/-- The C truth value of `pressed & key`. -/
def keyTest (pressed key : Nat) : Bool := (pressed &&& key) != 0

/-- The function `convertHidKeys` ("Nothing to do yet"). -/
def convertHidKeys (keys : Nat) : Nat := keys

/-! ## Process-wide state, display lease and overlay thread -/

/-- Calls made to collaborators outside `menu.c`, and to `menuShow`, in the
order in which they are recorded in the call log. -/
inductive Call
  | svcKernelSetState
  | Draw_AllocateFramebufferCache (ok : Bool)
  | Draw_SetupFramebuffer
  | Draw_RestoreFramebuffer
  | Draw_FreeFramebufferCache
  | Cheat_ApplyCheats
  | N3DSMenu_UpdateStatus
  | PluginLoader__UpdateMenu
  | menuShow
  deriving DecidableEq, Repr

/-- The globals of `menu.c` read or written by the overlay thread and the
display lease, together with the state of the display that the `Draw_*`
collaborators change: `framebufferCache` (the scratch buffer is allocated) and
`framebufferSetup` (the bottom screen is redirected to the overlay buffer).
`calls` is the call log, oldest call first. -/
structure Globals where
  isN3DS : Bool
  isHidInitialized : Bool
  menuShouldExit : Bool
  menuCombo : Nat
  g_blockMenuOpen : Nat
  menuRefCount : Int
  framebufferCache : Bool
  framebufferSetup : Bool
  calls : List Call
  deriving DecidableEq, Repr

/-- Append a call to the call log. -/
def Globals.record (g : Globals) (c : Call) : Globals :=
  { g with calls := g.calls ++ [c] }

/-- The function `scanHeldKeys`; `hidKeysHeld` is the value the HID driver would
report for this sample. -/
def scanHeldKeys (g : Globals) (hidKeysHeld : Nat) : Nat :=
  if !g.isHidInitialized || g.menuShouldExit then 0
  else convertHidKeys hidKeysHeld

/-- The system call `svcKernelSetState(0x10000, 2 | 1)`, recorded in the call
log. -/
def svcKernelSetState (g : Globals) : Globals := g.record Call.svcKernelSetState

/-- Modelled from the spec: `Draw_AllocateFramebufferCache` of `draw.c`, which
is not among the sources; it allocates the scratch buffer of the overlay or
reports failure.  `ok` is the outcome of the allocation. -/
def Draw_AllocateFramebufferCache (g : Globals) (ok : Bool) : Globals :=
  ({ g with framebufferCache := g.framebufferCache || ok }).record
    (Call.Draw_AllocateFramebufferCache ok)

/-- Modelled from the spec: `Draw_SetupFramebuffer` of `draw.c`, which is not
among the sources; it redirects the bottom screen to the overlay buffer. -/
def Draw_SetupFramebuffer (g : Globals) : Globals :=
  ({ g with framebufferSetup := true }).record Call.Draw_SetupFramebuffer

/-- Modelled from the spec: `Draw_RestoreFramebuffer` of `draw.c`, which is not
among the sources; it restores the prior rendering target. -/
def Draw_RestoreFramebuffer (g : Globals) : Globals :=
  ({ g with framebufferSetup := false }).record Call.Draw_RestoreFramebuffer

/-- Modelled from the spec: `Draw_FreeFramebufferCache` of `draw.c`, which is
not among the sources; it frees the scratch buffer. -/
def Draw_FreeFramebufferCache (g : Globals) : Globals :=
  ({ g with framebufferCache := false }).record Call.Draw_FreeFramebufferCache

/-- The function `menuEnter`; `allocOk` tells whether
`Draw_AllocateFramebufferCache` succeeds when it is called. -/
def menuEnter (g : Globals) (allocOk : Bool) : Globals :=
  if !g.menuShouldExit && g.menuRefCount == 0 then
    let g1 := svcKernelSetState { g with menuRefCount := g.menuRefCount + 1 }
    let g2 := Draw_AllocateFramebufferCache g1 allocOk
    if !allocOk then
      -- Oops
      svcKernelSetState { g2 with menuRefCount := 0 }
    else
      Draw_SetupFramebuffer g2
  else g

/-- The function `menuLeave`. -/
def menuLeave (g : Globals) : Globals :=
  let g1 := { g with menuRefCount := g.menuRefCount - 1 }
  if g1.menuRefCount == 0 then
    svcKernelSetState (Draw_FreeFramebufferCache (Draw_RestoreFramebuffer g1))
  else g1

/-- The call `menuShow(&rosalinaMenu)` as seen by the overlay thread: it is
recorded in the call log; `menuShow` itself never writes `menuRefCount`. -/
def runMenuShow (g : Globals) : Globals := g.record Call.menuShow

/-- One overlay session as run by `menuThreadMain`: `menuEnter`, the status
refreshes, `menuShow`, `menuLeave`. -/
def overlaySession (g : Globals) (allocOk : Bool) : Globals :=
  let g1 := menuEnter g allocOk
  let g2 := if g1.isN3DS then g1.record Call.N3DSMenu_UpdateStatus else g1
  let g3 := g2.record Call.PluginLoader__UpdateMenu
  menuLeave (runMenuShow g3)

/-- One iteration of the polling loop of `menuThreadMain` (after the sleep).
The static `homeBtnPressed` is never set to a non-zero value in `menu.c`, so
its branch is not taken. -/
def menuThreadIteration (g : Globals) (hidKeysHeld : Nat) (allocOk : Bool) : Globals :=
  if g.menuShouldExit then g
  else
    let g1 := g.record Call.Cheat_ApplyCheats
    if (scanHeldKeys g1 hidKeysHeld &&& g1.menuCombo) == g1.menuCombo
        && g1.g_blockMenuOpen == 0 then
      overlaySession g1 allocOk
    else g1

/-- Several iterations of the polling loop, one held-key sample each. -/
def menuThreadRun (g : Globals) (allocOk : Bool) : List Nat → Globals
  | [] => g
  | h :: hs => menuThreadRun (menuThreadIteration g h allocOk) allocOk hs

/-- Number of times `menuShow` has been entered according to the call log. -/
def Globals.overlaysShown (g : Globals) : Nat := g.calls.count Call.menuShow

/-- State of the sysmodule once `menuThreadMain` has initialised HID and before
any overlay was opened. -/
def initialGlobals (combo block : Nat) : Globals :=
  { isN3DS := false, isHidInitialized := true, menuShouldExit := false,
    menuCombo := combo, g_blockMenuOpen := block, menuRefCount := 0,
    framebufferCache := false, framebufferSetup := false, calls := [] }

/-- A run of `n` calls of `menuEnter`, the `i`-th allocation outcome taken from
`allocs` (success when the list is exhausted). -/
def enterTimes (g : Globals) (allocs : List Bool) : Nat → Globals
  | 0 => g
  | n + 1 => enterTimes (menuEnter g (allocs.headD true)) allocs.tail n

/-- A run of `n` calls of `menuLeave`. -/
def leaveTimes (g : Globals) : Nat → Globals
  | 0 => g
  | n + 1 => leaveTimes (menuLeave g) n

/-- A sequence of overlay sessions; each entry gives the shutdown flag at entry
and the allocation outcome of that session. -/
def overlaySessions (g : Globals) : List (Bool × Bool) → Globals
  | [] => g
  | (exitFlag, allocOk) :: rest =>
    overlaySessions (overlaySession { g with menuShouldExit := exitFlag } allocOk) rest

/-! ## Menus -/

/-- A pointer to a `Menu`. -/
abbrev MenuPtr := Nat

/-- Modelled from the spec: the enum `MenuItemAction` of `menu.h`, which is not
among the sources, with the three values `menu.c` tests (`Action`, `Submenu`,
`Terminator` in the spec). -/
inductive MenuItemAction
  | MENU_END
  | METHOD
  | MENU
  deriving DecidableEq, Repr

/-- Modelled from the spec: the struct `MenuItem` of `menu.h`, which is not
among the sources, with the fields `menu.c` reads.  `method` is the callback
pointer (`none` for `NULL`), `menu` the submenu pointer, and `visibility` is
`none` for a `NULL` predicate and `some b` for a predicate whose call currently
returns `b` (predicates are free of side effects). -/
structure MenuItem where
  title : String
  action_type : MenuItemAction
  method : Option Nat
  menu : MenuPtr
  visibility : Option Bool
  deriving DecidableEq, Repr

/-- Modelled from the spec: the struct `Menu` of `menu.h`, which is not among
the sources: a title and the `items` array.  The list is the whole array; an
access beyond it has no defined result. -/
structure Menu where
  title : String
  items : List MenuItem
  deriving DecidableEq, Repr

/-- The function `menuAdvanceCursor`: `(pos + numItems + displ) % numItems` in
`u32` arithmetic; the division by zero for `numItems = 0` has no result. -/
def menuAdvanceCursor (pos numItems : Nat) (displ : Int) : Option Nat :=
  if numItems = 0 then none
  else some (((pos + numItems + toU32 displ) % 4294967296) % numItems)

/-- The function `menuItemIsHidden`. -/
def menuItemIsHidden (item : MenuItem) : Bool :=
  match item.visibility with
  | none => false
  | some visible => !visible

/-- The loop of `menuCountItems` from the items not yet visited and the
counter `n`.  An array in the 32-bit address space has fewer than `2^32` items,
so the `u32` counter does not wrap. -/
def menuCountItemsLoop : List MenuItem → Nat → Option Nat
  | [], _ => none
  | item :: rest, n =>
    if item.action_type = MenuItemAction.MENU_END then some n
    else menuCountItemsLoop rest (n + 1)

/-- The function `menuCountItems`; no result when the array has no
terminator. -/
def menuCountItems (menu : Menu) : Option Nat := menuCountItemsLoop menu.items 0

/-- The loop of `menuCountItemsWithoutHidden` from the items not yet visited
and the counter `m`. -/
def menuCountItemsWithoutHiddenLoop : List MenuItem → Nat → Option Nat
  | [], _ => none
  | item :: rest, m =>
    if item.action_type = MenuItemAction.MENU_END then some m
    else if item.visibility = none ∨ item.visibility = some true then
      menuCountItemsWithoutHiddenLoop rest (m + 1)
    else menuCountItemsWithoutHiddenLoop rest m

/-- The function `menuCountItemsWithoutHidden`. -/
def menuCountItemsWithoutHidden (menu : Menu) : Option Nat :=
  menuCountItemsWithoutHiddenLoop menu.items 0

/-- The array access `menu->items[i]` for an `s32` index. -/
def itemAt (menu : Menu) (i : Int) : Option MenuItem :=
  if i < 0 then none else menu.items[i.toNat]?

/-- The call `menuAdvanceCursor(selectedItem, numItems, displ)` of `menuShow`,
with the conversions of its `s32` arguments to `u32` and of its result back to
the `s32` variable `selectedItem`. -/
def advanceSelected (selectedItem numItems displ : Int) : Option Int :=
  (menuAdvanceCursor (toU32 selectedItem) (toU32 numItems) displ).map toS32

/-- The statement pair that `menuShow` uses for every single step:
`selectedItem = menuAdvanceCursor(selectedItem, numItems, displ);` followed by
`if (menuItemIsHidden(&currentMenu->items[selectedItem])) selectedItem =
menuAdvanceCursor(selectedItem, numItems, displ);`. -/
def moveSkipHidden (menu : Menu) (numItems displ selectedItem : Int) : Option Int :=
  match advanceSelected selectedItem numItems displ with
  | none => none
  | some s1 =>
    match itemAt menu s1 with
    | none => none
    | some item =>
      if menuItemIsHidden item then advanceSelected s1 numItems displ else some s1

/-- A `for` loop running the statement pair `count` times. -/
def moveTimes (menu : Menu) (numItems displ : Int) : Nat → Int → Option Int
  | 0, selectedItem => some selectedItem
  | count + 1, selectedItem =>
    match moveSkipHidden menu numItems displ selectedItem with
    | none => none
    | some s1 => moveTimes menu numItems displ count s1

/-- The `KEY_DOWN` branch of `menuShow`. -/
def keyDown (menu : Menu) (numItems selectedItem : Int) : Option Int :=
  moveSkipHidden menu numItems 1 selectedItem

/-- The `KEY_UP` branch of `menuShow`. -/
def keyUp (menu : Menu) (numItems selectedItem : Int) : Option Int :=
  moveSkipHidden menu numItems (-1) selectedItem

/-- The `KEY_LEFT` branch of `menuShow`; the page size `MAIN_PER_MENU_PAGE` is
a constant of `menu.h`. -/
def keyLeft (MAIN_PER_MENU_PAGE : Nat) (menu : Menu) (numItems selectedItem : Int) :
    Option Int :=
  if selectedItem - MAIN_PER_MENU_PAGE > 0 then
    moveTimes menu numItems (-1) MAIN_PER_MENU_PAGE selectedItem
  else
    match menuCountItemsWithoutHidden menu with
    | none => none
    | some count =>
      let numItemsWithoutHidden : Int := toS32 count
      let nullItem : Int :=
        MAIN_PER_MENU_PAGE - Int.tmod numItemsWithoutHidden MAIN_PER_MENU_PAGE
      if selectedItem ≥ MAIN_PER_MENU_PAGE - nullItem then some 0
      else
        moveTimes menu numItems (-1) (MAIN_PER_MENU_PAGE - nullItem).toNat selectedItem

/-- The `KEY_RIGHT` branch of `menuShow`. -/
def keyRight (MAIN_PER_MENU_PAGE : Nat) (menu : Menu) (numItems selectedItem page : Int) :
    Option Int :=
  match menuCountItemsWithoutHidden menu with
  | none => none
  | some count =>
    let numItemsWithoutHidden : Int := toS32 count
    if selectedItem + MAIN_PER_MENU_PAGE + 1 < numItemsWithoutHidden then
      moveTimes menu numItems 1 MAIN_PER_MENU_PAGE selectedItem
    else if Int.tdiv (selectedItem - 1) MAIN_PER_MENU_PAGE = page then
      if numItems - selectedItem = 1 then some 0 else some (numItems - 1)
    else some (numItems - 1)

/-! ## The loop of `menuShow` -/

/-- The local variables of `menuShow`.  The arrays `previousMenus` and
`previousSelectedItems` have `0x80` entries each. -/
structure ShowState where
  selectedItem : Int
  page : Int
  pagePrev : Int
  currentMenu : MenuPtr
  nbPreviousMenus : Nat
  previousMenus : List MenuPtr
  previousSelectedItems : List Nat
  numItems : Int
  menuComboReleased : Bool
  deriving DecidableEq, Repr

/-- What one iteration of the `do ... while` loop of `menuShow` reads from its
surroundings: the value returned by `waitInputWithTimeout(1000)`, the value
returned by `scanHeldKeys()` in the combo-release test, the values returned by
`scanHeldKeys()` while the `KEY_B` branch waits for the key to be released, and
the value of `menuShouldExit` when the loop condition is evaluated. -/
structure LoopInput where
  pressed : Nat
  heldKeys : Nat
  heldKeysB : List Nat
  menuShouldExit : Bool
  deriving DecidableEq, Repr

/-- Result of running part of the loop of `menuShow`: the loop goes on with the
given locals, the loop was left with the given locals, there is no defined
result (`__builtin_trap`, an access outside an array, a division by zero), or
the wait for the release of `KEY_B` did not end within the given samples. -/
inductive Outcome
  | running (s : ShowState)
  | left (s : ShowState)
  | fault
  | hangs
  deriving DecidableEq, Repr

/-- The loop `while (nbPreviousMenus == 0 && (scanHeldKeys() & KEY_B));` for
`nbPreviousMenus == 0`: `true` when a sample ends the wait. -/
def keyBReleased : List Nat → Bool
  | [] => false
  | held :: rest => if keyTest held KEY_B then keyBReleased rest else true

/-- The `KEY_A` branch of `menuShow`.  A `METHOD` callback runs synchronously
and cannot write the locals of `menuShow`. -/
def keyA (menu : Menu) (s : ShowState) : Outcome :=
  match itemAt menu s.selectedItem with
  | none => Outcome.fault
  | some item =>
    match item.action_type with
    | MenuItemAction.METHOD => Outcome.running s
    | MenuItemAction.MENU =>
      if s.nbPreviousMenus < 0x80 then
        Outcome.running
          { s with
            previousSelectedItems :=
              s.previousSelectedItems.set s.nbPreviousMenus (toU32 s.selectedItem)
            previousMenus := s.previousMenus.set s.nbPreviousMenus s.currentMenu
            nbPreviousMenus := s.nbPreviousMenus + 1
            currentMenu := item.menu
            selectedItem := 0 }
      else Outcome.fault
    | MenuItemAction.MENU_END => Outcome.fault

/-- The `KEY_B` branch of `menuShow`. -/
def keyB (s : ShowState) (heldKeysB : List Nat) : Outcome :=
  if s.nbPreviousMenus = 0 ∧ keyBReleased heldKeysB = false then Outcome.hangs
  else if s.nbPreviousMenus > 0 then
    let nb := s.nbPreviousMenus - 1
    match s.previousMenus[nb]?, s.previousSelectedItems[nb]? with
    | some menu, some selected =>
      Outcome.running
        { s with nbPreviousMenus := nb, currentMenu := menu, selectedItem := toS32 selected }
    | _, _ => Outcome.fault
  else Outcome.left s

/-- The function `menuDraw` as far as `menuShow` depends on it: it reads
`menu->items[selected]` (the hidden test of its first statement) and then only
items below `menuCountItems(menu)`, and it writes to the framebuffer alone.  No
defined result when `selected` is outside the array. -/
def menuDraw (menu : Menu) (selected : Int) : Option Unit :=
  match itemAt menu selected with
  | none => none
  | some _ => some ()

/-- The end of the loop body of `menuShow`: `numItems` is recomputed for the
current menu, `selectedItem` is clamped, `page` is updated, the menu is drawn
(`menuDraw(currentMenu, selectedItem, page)`), and the loop condition
`!menuShouldExit` is evaluated. -/
def finishIteration (MAIN_PER_MENU_PAGE : Nat) (mem : MenuPtr → Option Menu)
    (s : ShowState) (menuShouldExit : Bool) : Outcome :=
  match mem s.currentMenu with
  | none => Outcome.fault
  | some menu =>
    match menuCountItems menu with
    | none => Outcome.fault
    | some count =>
      let numItems : Int := toS32 count
      let selectedItem : Int :=
        if s.selectedItem < 0 then numItems - 1
        else if s.selectedItem ≥ numItems then 0
        else s.selectedItem
      let s1 : ShowState :=
        { s with
          numItems := numItems
          selectedItem := selectedItem
          pagePrev := s.page
          page := Int.tdiv selectedItem MAIN_PER_MENU_PAGE }
      match menuDraw menu selectedItem with
      | none => Outcome.fault
      | some _ => if menuShouldExit then Outcome.left s1 else Outcome.running s1

/-- The key dispatch of the loop body of `menuShow` (the `if ... else if`
chain on `pressed`); `current` is what `currentMenu` points to, read by every
branch but the `KEY_B` one. -/
def dispatchKey (MAIN_PER_MENU_PAGE : Nat) (current : Option Menu) (s : ShowState)
    (input : LoopInput) : Outcome :=
  let select (r : Option Int) : Outcome :=
    match r with
    | none => Outcome.fault
    | some selectedItem => Outcome.running { s with selectedItem := selectedItem }
  let onMenu (branch : Menu → Outcome) : Outcome :=
    match current with
    | none => Outcome.fault
    | some menu => branch menu
  if keyTest input.pressed KEY_A then onMenu fun menu => keyA menu s
  else if keyTest input.pressed KEY_B then keyB s input.heldKeysB
  else if keyTest input.pressed KEY_DOWN then
    onMenu fun menu => select (keyDown menu s.numItems s.selectedItem)
  else if keyTest input.pressed KEY_UP then
    onMenu fun menu => select (keyUp menu s.numItems s.selectedItem)
  else if keyTest input.pressed KEY_LEFT then
    onMenu fun menu => select (keyLeft MAIN_PER_MENU_PAGE menu s.numItems s.selectedItem)
  else if keyTest input.pressed KEY_RIGHT then
    onMenu fun menu =>
      select (keyRight MAIN_PER_MENU_PAGE menu s.numItems s.selectedItem s.page)
  else Outcome.running s

/-- The combo-release test at the top of the loop body of `menuShow`:
`if (!menuComboReleased && (scanHeldKeys() & menuCombo) != menuCombo)
menuComboReleased = true;` (the repeat parameters it sets belong to the HID
driver). -/
def afterComboTest (menuCombo : Nat) (s : ShowState) (input : LoopInput) : ShowState :=
  if !s.menuComboReleased && (input.heldKeys &&& menuCombo) != menuCombo then
    { s with menuComboReleased := true }
  else s

/-- One iteration of the `do ... while` loop of `menuShow`.  The page size
`MAIN_PER_MENU_PAGE` (a constant of `menu.h`) divides, so a page size of zero
has no defined result. -/
def menuShowStep (MAIN_PER_MENU_PAGE : Nat) (mem : MenuPtr → Option Menu) (menuCombo : Nat)
    (s : ShowState) (input : LoopInput) : Outcome :=
  if MAIN_PER_MENU_PAGE = 0 then Outcome.fault
  else
    let s0 : ShowState := afterComboTest menuCombo s input
    match dispatchKey MAIN_PER_MENU_PAGE (mem s0.currentMenu) s0 input with
    | Outcome.running s1 => finishIteration MAIN_PER_MENU_PAGE mem s1 input.menuShouldExit
    | other => other

/-- The prologue of `menuShow(root)`, up to its call of `menuDraw`: the locals
before the first iteration.  The two arrays are not initialised by the code;
only entries written earlier are ever read. -/
def menuShowInit (mem : MenuPtr → Option Menu) (root : MenuPtr) : Option ShowState :=
  match mem root with
  | none => none
  | some menu =>
    match menuCountItems menu, itemAt menu 0 with
    | some count, some first =>
      let numItems : Int := toS32 count
      let selected : Option Int :=
        if menuItemIsHidden first then advanceSelected 0 numItems 1 else some 0
      selected.bind fun selectedItem =>
        (menuDraw menu selectedItem).map fun _ =>
          { selectedItem := selectedItem, page := 0, pagePrev := 0, currentMenu := root,
            nbPreviousMenus := 0, previousMenus := List.replicate 0x80 0,
            previousSelectedItems := List.replicate 0x80 0, numItems := numItems,
            menuComboReleased := false }
    | _, _ => none

/-- The loop of `menuShow` over a list of iterations' inputs. -/
def menuShowLoop (MAIN_PER_MENU_PAGE : Nat) (mem : MenuPtr → Option Menu) (menuCombo : Nat) :
    ShowState → List LoopInput → Outcome
  | s, [] => Outcome.running s
  | s, input :: rest =>
    match menuShowStep MAIN_PER_MENU_PAGE mem menuCombo s input with
    | Outcome.running s1 => menuShowLoop MAIN_PER_MENU_PAGE mem menuCombo s1 rest
    | other => other

/-! ## Sample menus -/

/-- The terminator item `{ .action_type = MENU_END }`. -/
def endItem : MenuItem :=
  { title := "", action_type := MenuItemAction.MENU_END, method := none, menu := 0,
    visibility := none }

/-- A `METHOD` item; it carries a visibility predicate returning `false` when
`hidden` is set and no predicate otherwise. -/
def methodItem (hidden : Bool) : MenuItem :=
  { title := "item", action_type := MenuItemAction.METHOD, method := some 0, menu := 0,
    visibility := if hidden then some false else none }

/-- A terminated menu of `METHOD` items, one per flag; a set flag makes the
item hidden. -/
def sampleMenu (hidden : List Bool) : Menu :=
  { title := "menu", items := hidden.map methodItem ++ [endItem] }

/-- Locals of `menuShow` on the root menu at address `0` with the given
selection, page and item count, no submenu entered. -/
def sampleState (selectedItem page numItems : Int) : ShowState :=
  { selectedItem := selectedItem, page := page, pagePrev := page, currentMenu := 0,
    nbPreviousMenus := 0, previousMenus := List.replicate 0x80 0,
    previousSelectedItems := List.replicate 0x80 0, numItems := numItems,
    menuComboReleased := true }

/-- A memory holding `menu` at address `0` and nothing elsewhere. -/
def sampleMem (menu : Menu) : MenuPtr → Option Menu :=
  fun p => if p = 0 then some menu else none

/-- An iteration in which `pressed` was returned by the input wait and the
shutdown flag is clear. -/
def pressedOnly (pressed : Nat) : LoopInput :=
  { pressed := pressed, heldKeys := 0, heldKeysB := [], menuShouldExit := false }

/-! ## Reading a menu as a list of flags -/

/-- The items of a menu before its first `MENU_END` terminator. -/
def liveItems (menu : Menu) : List MenuItem :=
  menu.items.takeWhile fun item => item.action_type != MenuItemAction.MENU_END

/-- A menu is terminated when its array holds a `MENU_END` item. -/
def Terminated (menu : Menu) : Prop :=
  ∃ item ∈ menu.items, item.action_type = MenuItemAction.MENU_END

/-- Whether the item at index `i` of the array is hidden (`false` outside the
array). -/
def hiddenAt (menu : Menu) (i : Nat) : Bool :=
  match menu.items[i]? with
  | some item => menuItemIsHidden item
  | none => false

/-- The hidden flags of the items before the terminator, in order. -/
def hiddenFlags (menu : Menu) : List Bool := (liveItems menu).map menuItemIsHidden

/-- Circular successor or predecessor of an index among `n`. -/
def cursorNext (n : Nat) (forward : Bool) (k : Nat) : Nat :=
  if forward then (k + 1) % n else (k + n - 1) % n

/-- One circular step that passes over at most one hidden index. -/
def skipStep (hid : Nat → Bool) (n : Nat) (forward : Bool) (k : Nat) : Nat :=
  if hid (cursorNext n forward k) then cursorNext n forward (cursorNext n forward k)
  else cursorNext n forward k

/-- Several steps of `skipStep`. -/
def skipSteps (hid : Nat → Bool) (n : Nat) (forward : Bool) : Nat → Nat → Nat
  | 0, k => k
  | count + 1, k => skipSteps hid n forward count (skipStep hid n forward k)

/-- The locals carried by an outcome; none for a fault or an unfinished wait. -/
def Outcome.locals : Outcome → Option ShowState
  | Outcome.running s => some s
  | Outcome.left s => some s
  | Outcome.fault => none
  | Outcome.hangs => none

/-- Iterating `menuAdvanceCursor` with the same displacement. -/
def advanceTimes (numItems : Nat) (displ : Int) : Nat → Nat → Option Nat
  | 0, pos => some pos
  | count + 1, pos =>
    match menuAdvanceCursor pos numItems displ with
    | none => none
    | some next => advanceTimes numItems displ count next

/-- The flag at index `i` of a list of hidden flags (`false` outside it). -/
def flagAt (flags : List Bool) (i : Nat) : Bool := flags.getD i false

/-- The selection carried by an outcome. -/
def Outcome.selected (o : Outcome) : Option Int := o.locals.map fun s => s.selectedItem

/-! ## Combo names (`menus/miscellaneous.c`) -/

/-- The table `keys` of `MiscellaneousMenu_ConvertComboToString`; entry `i`
names bit `i` of a key mask. -/
def keys : List String :=
  ["A", "B", "Select", "Start", "Right", "Left", "Up", "Down", "R", "L", "X", "Y",
   "?", "?",
   "ZL", "ZR",
   "?", "?", "?", "?",
   "Touch",
   "?", "?", "?",
   "CStick Right", "CStick Left", "CStick Up", "CStick Down",
   "CPad Right", "CPad Left", "CPad Up", "CPad Down"]

/-- The characters of `keys[i]`, without the terminating NUL. -/
def keyName (i : Nat) : List Char := (keys.getD i "").data

/-- The loop `for (s32 i = 31; i >= 0; i--)` of
`MiscellaneousMenu_ConvertComboToString`, with `count = i + 1` iterations left;
`written` holds the characters stored so far between `outOrig` and `out`.  For
a set bit, `strcpy` stores the name, `out` moves past it and `'+'` is stored
over the NUL.  The test `combo & (1 << i)` is the test of bit `i`, also for
`i = 31`. -/
def convertComboLoop (combo : Nat) : Nat → List Char → List Char
  | 0, written => written
  | i + 1, written =>
    if combo &&& (1 <<< i) != 0 then
      convertComboLoop combo i (written ++ keyName i ++ ['+'])
    else convertComboLoop combo i written

/-- The characters stored by the loop of `MiscellaneousMenu_ConvertComboToString`
for `combo`, the trailing `'+'` included. -/
def convertComboWritten (combo : Nat) : List Char := convertComboLoop combo 32 []

/-- The function `MiscellaneousMenu_ConvertComboToString`: the C string left in
`out` (its characters before the NUL).  `out[0] = 0` gives the empty string;
after the loop `out[-1] = 0` replaces the trailing `'+'` when something was
written. -/
def MiscellaneousMenu_ConvertComboToString (combo : Nat) : List Char :=
  if convertComboWritten combo = [] then [] else (convertComboWritten combo).dropLast

/-- The number of bytes of the buffer `out` that
`MiscellaneousMenu_ConvertComboToString` stores to: the NUL of `out[0] = 0`
alone for an empty mask, otherwise the characters written by the loop (the
NUL stored by the last `strcpy` lies under the trailing `'+'`). -/
def convertComboBytes (combo : Nat) : Nat := max 1 (convertComboWritten combo).length

/-- The size of the buffers `comboStrOrig` and `comboStr` of
`MiscellaneousMenu_ChangeMenuCombo`. -/
def comboStrSize : Nat := 128

/-- The mask of the bits whose entry in `keys` is `"?"`. -/
def unnamedKeys : Nat :=
  ((List.range 32).filter fun i => keys.getD i "" == "?").foldl (fun m i => m ||| (1 <<< i)) 0

/-- The bits of a 32-bit mask that are set, in descending order. -/
def setBitsDescending (combo : Nat) : List Nat :=
  (List.range 32).reverse.filter fun i => combo &&& (1 <<< i) != 0

/-- Look a key name up in the table `keys`: the mask of its bit, `0` when the
name is not in the table. -/
def lookupKey (name : List Char) : Nat :=
  match (keys.map String.data).indexOf? name with
  | some i => 1 <<< i
  | none => 0

/-- Decoding of a combo string: split on `'+'`, look each name up in `keys`,
and collect the bits. -/
def decodeComboString (s : List Char) : Nat :=
  ((s.splitOn '+').map lookupKey).foldl (fun m b => m ||| b) 0

/-! ## NTP time offset (`menus/miscellaneous.c`) -/

/-- Conversion of a C integer to `u64`: reduction modulo `2^64`. -/
def toU64 (x : Int) : Nat := (x % 18446744073709551616).toNat

/-- One iteration of the selection loop of `MiscellaneousMenu_UpdateTimeDateNtp`:
the new `utcOffset` and `utcOffsetMinute` for the keys in `input`. -/
def utcOffsetStep (input : Nat) (offset : Int × Int) : Int × Int :=
  let utcOffset1 := if keyTest input KEY_LEFT then Int.tmod (24 + offset.1 - 1) 24 else offset.1
  let utcOffset2 := if keyTest input KEY_RIGHT then Int.tmod (utcOffset1 + 1) 24 else utcOffset1
  let minute1 := if keyTest input KEY_UP then Int.tmod (offset.2 + 1) 60 else offset.2
  let minute2 := if keyTest input KEY_DOWN then Int.tmod (60 + minute1 - 1) 60 else minute1
  (utcOffset2, minute2)

/-- The selection loop of `MiscellaneousMenu_UpdateTimeDateNtp` over the inputs
that precede the confirming one, from `utcOffset = 12`, `utcOffsetMinute = 0`. -/
def utcOffsetSelect (inputs : List Nat) : Int × Int :=
  inputs.foldl (fun offset input => utcOffsetStep input offset) (12, 0)

/-- What the selection screen prints with `"%c%02d%02d"`: the sign character,
`absOffset` and `utcOffsetMinute`. -/
def shownUtcOffset (utcOffset utcOffsetMinute : Int) : Char × Int × Int :=
  let absOffset : Int := utcOffset - 12
  let absOffset : Int := if absOffset < 0 then -absOffset else absOffset
  (if utcOffset < 12 then '-' else '+', absOffset, utcOffsetMinute)

/-- The statement `msSince1900 += 1000 * (3600 * utcOffset + 60 * utcOffsetMinute);`
that follows `utcOffset -= 12;`: the `int` product (which stays within 32
bits for the selectable offsets) is converted to `u64` and added modulo `2^64`.
The arguments are the values chosen in the selection loop. -/
def ntpAdjustedTime (msSince1900 : Nat) (utcOffset utcOffsetMinute : Int) : Nat :=
  let utcOffset : Int := utcOffset - 12
  (msSince1900 + toU64 (1000 * (3600 * utcOffset + 60 * utcOffsetMinute))) % 18446744073709551616

/-- The offset in milliseconds that a printed sign, hour count and minute
count stand for. -/
def shownOffsetMs (shown : Char × Int × Int) : Int :=
  (if shown.1 = '-' then -1 else 1) * (shown.2.1 * 3600 + shown.2.2 * 60) * 1000

/-! ## Input polling (`waitInputWithTimeout`, `waitComboWithTimeout`) -/

/-- The function `scanHeldKeys` as a function of the two flags it reads. -/
def scanHeldKeysWith (isHidInitialized menuShouldExit : Bool) (hidKeysHeld : Nat) : Nat :=
  if !isHidInitialized || menuShouldExit then 0
  else convertHidKeys hidKeysHeld

/-- What one iteration of `waitInputWithTimeout` reads: the shutdown flag
during the iteration and the values `hidKeysDown()` and `hidKeysDownRepeat()`
would report after `hidScanInput()`. -/
structure InputSample where
  menuShouldExit : Bool
  keysDown : Nat
  keysDownRepeat : Nat
  deriving DecidableEq, Repr

/-- The value `convertHidKeys(hidKeysDown()) | (convertHidKeys(hidKeysDownRepeat())
& DIRECTIONAL_KEYS)`; the mask `DIRECTIONAL_KEYS` is a constant of `menu.h`. -/
def inputValue (DIRECTIONAL_KEYS : Nat) (s : InputSample) : Nat :=
  convertHidKeys s.keysDown ||| (convertHidKeys s.keysDownRepeat &&& DIRECTIONAL_KEYS)

/-- The `do ... while` loop of `waitInputWithTimeout` with the counter `n`, one
sample per iteration; no result when the samples run out while the loop still
waits.  With `msec < 0` the counter is never compared. -/
def waitInputLoop (DIRECTIONAL_KEYS : Nat) (isHidInitialized : Bool) (msec : Int) :
    Int → List InputSample → Option Nat
  | _, [] => if !isHidInitialized then some 0 else none
  | n, s :: rest =>
    if !isHidInitialized || s.menuShouldExit then some 0
    else
      let n1 := n + 1
      let keys := inputValue DIRECTIONAL_KEYS s
      if keys == 0 && !s.menuShouldExit && isHidInitialized
          && (decide (msec < 0) || decide (n1 < msec)) then
        waitInputLoop DIRECTIONAL_KEYS isHidInitialized msec n1 rest
      else some keys

/-- The function `waitInputWithTimeout`. -/
def waitInputWithTimeout (DIRECTIONAL_KEYS : Nat) (isHidInitialized : Bool) (msec : Int)
    (samples : List InputSample) : Option Nat :=
  waitInputLoop DIRECTIONAL_KEYS isHidInitialized msec 0 samples

/-- The first non-empty key mask of a list. -/
def firstNonEmpty (values : List Nat) : Option Nat := values.find? fun keys => keys != 0

/-- What one call of `scanHeldKeys` inside `waitComboWithTimeout` reads: the
shutdown flag at that moment and the value `hidKeysHeld()` would report.  A
read of `menuShouldExit` between two calls sees the flag of the latest call. -/
structure HeldSample where
  menuShouldExit : Bool
  hidKeysHeld : Nat
  deriving DecidableEq, Repr

/-- The value `scanHeldKeys()` returns for a sample. -/
def scanSample (isHidInitialized : Bool) (s : HeldSample) : Nat :=
  scanHeldKeysWith isHidInitialized s.menuShouldExit s.hidKeysHeld

/-- The first loop of `waitComboWithTimeout` ("Wait for nothing to be
pressed") with the counter `n`: the counter, the shutdown flag as last read and
the samples left when the loop ends; no result when the samples run out. -/
def releaseWait (isHidInitialized : Bool) (msec : Int) :
    Int → List HeldSample → Option (Int × Bool × List HeldSample)
  | _, [] => none
  | n, s :: rest =>
    if scanSample isHidInitialized s != 0 && !s.menuShouldExit && isHidInitialized
        && (decide (msec < 0) || decide (n < msec)) then
      releaseWait isHidInitialized msec (n + 1) rest
    else some (n, s.menuShouldExit, rest)

/-- The loop `for (u32 i = 0x10000; i > 0; i--)` of `waitComboWithTimeout` with
`i` iterations left: the variable `keys`, the shutdown flag as last read and the
samples left when the loop ends. -/
def stableFor (isHidInitialized : Bool) (tempKeys : Nat) :
    Nat → Nat → Bool → List HeldSample → Option (Nat × Bool × List HeldSample)
  | 0, keys, exit, samples => some (keys, exit, samples)
  | _ + 1, _, _, [] => none
  | i + 1, keys, _, s :: rest =>
    if tempKeys != scanSample isHidInitialized s then some (keys, s.menuShouldExit, rest)
    else
      stableFor isHidInitialized tempKeys i (if i + 1 = 1 then tempKeys else keys)
        s.menuShouldExit rest

/-- The `do ... while` loop of `waitComboWithTimeout` with the counter `n` and
the variable `keys`; `fuel` bounds the number of iterations (each takes at least
one sample). -/
def captureLoop (isHidInitialized : Bool) (msec : Int) :
    Nat → Int → Nat → List HeldSample → Option Nat
  | 0, _, _, _ => none
  | _ + 1, _, _, [] => none
  | fuel + 1, n, keys, s :: rest =>
    let n1 := n + 1
    let tempKeys := scanSample isHidInitialized s
    match stableFor isHidInitialized tempKeys 0x10000 keys s.menuShouldExit rest with
    | none => none
    | some (keys1, exit1, rest1) =>
      if keys1 = 0 then
        if !exit1 && isHidInitialized && (decide (msec < 0) || decide (n1 < msec)) then
          captureLoop isHidInitialized msec fuel n1 keys1 rest1
        else some keys1
      else
        match rest1 with
        | [] => none
        | s2 :: rest2 =>
          if scanSample isHidInitialized s2 != 0 && !s2.menuShouldExit && isHidInitialized
              && (decide (msec < 0) || decide (n1 < msec)) then
            captureLoop isHidInitialized msec fuel n1 keys1 rest2
          else some keys1

/-- The function `waitComboWithTimeout` over the samples its calls of
`scanHeldKeys` read; no result when the samples run out before it returns. -/
def waitComboWithTimeout (isHidInitialized : Bool) (msec : Int) (samples : List HeldSample) :
    Option Nat :=
  match releaseWait isHidInitialized msec 0 samples with
  | none => none
  | some (n, exit, rest) =>
    if exit || !isHidInitialized || !(decide (msec < 0) || decide (n < msec)) then some 0
    else captureLoop isHidInitialized msec (rest.length + 1) n 0 rest

/-- A value `v` is stable in a list of samples when some sample reads `v` and the
`0x10000` samples that follow it read `v` as well. -/
def StableIn (isHidInitialized : Bool) (v : Nat) (samples : List HeldSample) : Prop :=
  ∃ (before : List HeldSample) (first : HeldSample) (window after : List HeldSample),
    samples = before ++ first :: (window ++ after) ∧ window.length = 0x10000 ∧
    scanSample isHidInitialized first = v ∧
    ∀ s ∈ window, scanSample isHidInitialized s = v

/-- A sample with the shutdown flag clear and the given keys held. -/
def heldSample (keys : Nat) : HeldSample := { menuShouldExit := false, hidKeysHeld := keys }

/-! ## Runs of the capture loop of `waitComboWithTimeout` -/

/-- The samples one iteration of the capture loop of `waitComboWithTimeout`
reads from `scanHeldKeys()`: the candidate `tempKeys`, the read-backs of the
`for` loop, and the sample of the test `scanHeldKeys() != 0` in the loop
condition, which is evaluated only when `keys` is not `0`. -/
structure CaptureIteration where
  candidate : HeldSample
  readBacks : List HeldSample
  check : Option HeldSample

/-- The samples of an iteration in the order they are read. -/
def CaptureIteration.samples (it : CaptureIteration) : List HeldSample :=
  it.candidate :: (it.readBacks ++ it.check.toList)

/-- The candidate of an iteration is accepted: there are `0x10000` read-backs
and each returns the candidate, so the iteration with `i == 1` assigns
`keys = tempKeys`. -/
def CaptureIteration.accepted (it : CaptureIteration) : Bool :=
  it.readBacks.length == 0x10000 &&
    it.readBacks.all fun s => scanSample true s == scanSample true it.candidate

/-- The candidate of an iteration is rejected: the last read-back, not later
than the `0x10000`th, differs from the candidate (the `break`), and the
read-backs before it return the candidate. -/
def CaptureIteration.Rejected (it : CaptureIteration) : Prop :=
  ∃ (same : List HeldSample) (bad : HeldSample), it.readBacks = same ++ [bad] ∧
    same.length < 0x10000 ∧
    (∀ s ∈ same, scanSample true s = scanSample true it.candidate) ∧
    scanSample true bad ≠ scanSample true it.candidate

/-- The variable `keys` after an iteration that started with the value `keys`:
the candidate when it was accepted, the old value otherwise. -/
def CaptureIteration.keysAfter (it : CaptureIteration) (keys : Nat) : Nat :=
  if it.accepted then scanSample true it.candidate else keys

/-- The flag `menuShouldExit` as the loop condition reads it after an
iteration: the flag at the latest call of `scanHeldKeys`. -/
def CaptureIteration.shutdown (it : CaptureIteration) : Bool :=
  match it.check, it.readBacks.getLast? with
  | some held, _ => held.menuShouldExit
  | none, some last => last.menuShouldExit
  | none, none => it.candidate.menuShouldExit

/-- The loop condition `(keys == 0 || scanHeldKeys() != 0) && !menuShouldExit &&
isHidInitialized && (msec < 0 || n < msec)` after an iteration that left the
counter at `n`, with HID initialised; `check` is absent exactly when
`keys == 0`. -/
def CaptureIteration.continues (it : CaptureIteration) (msec n : Int) : Bool :=
  (match it.check with
    | none => true
    | some held => scanSample true held != 0) &&
  !it.shutdown && (decide (msec < 0) || decide (n < msec))

/-- The capture loop, entered with the counter `n` and the variable `keys`,
runs exactly the given iterations: each candidate is accepted or rejected, the
loop condition reads a sample exactly when `keys` is not `0`, it holds after
every iteration but the last and fails after the last. -/
def CaptureRun (msec : Int) : Int → Nat → List CaptureIteration → Prop
  | _, _, [] => False
  | n, keys, [it] =>
    (it.accepted = true ∨ it.Rejected) ∧ it.check.isSome = (it.keysAfter keys != 0) ∧
    it.continues msec (n + 1) = false
  | n, keys, it :: next :: more =>
    (it.accepted = true ∨ it.Rejected) ∧ it.check.isSome = (it.keysAfter keys != 0) ∧
    it.continues msec (n + 1) = true ∧
    CaptureRun msec (n + 1) (it.keysAfter keys) (next :: more)

/-- The candidate of the last accepted iteration, `0` when no iteration
accepted its candidate. -/
def lastAccepted (its : List CaptureIteration) : Nat :=
  (((its.filter fun it => it.accepted).getLast?).map fun it =>
    scanSample true it.candidate).getD 0

/-- The samples of a call of `waitComboWithTimeout` that enters the capture
loop: the samples with keys held that the wait for release passes, the sample
with no key held that ends it, the iterations of the capture loop, and the
samples left unread. -/
structure ComboCall where
  held : List HeldSample
  free : HeldSample
  iterations : List CaptureIteration
  unread : List HeldSample

/-- All samples of a call in the order they are read. -/
def ComboCall.samples (c : ComboCall) : List HeldSample :=
  c.held ++ c.free :: (c.iterations.flatMap CaptureIteration.samples ++ c.unread)

/-- The samples describe a call with timeout `msec` while HID is initialised:
the wait for release sees keys held, then none, with the shutdown flag clear
and the budget not exhausted, and the capture loop runs the iterations. -/
def ComboCall.Valid (c : ComboCall) (msec : Int) : Prop :=
  (∀ s ∈ c.held, scanSample true s ≠ 0) ∧ scanSample true c.free = 0 ∧
  c.free.menuShouldExit = false ∧ (msec < 0 ∨ (c.held.length : Int) < msec) ∧
  CaptureRun msec c.held.length 0 c.iterations

/-- A call of `waitComboWithTimeout(2)`: `KEY_A` is still held at the first
sample and released at the second; the candidate `A | B` is read and read back
unchanged `0x10000` times, and the keys are still held when the loop condition
is evaluated with the budget of two iterations exhausted. -/
def timeoutCall : ComboCall :=
  { held := [heldSample 1]
    free := heldSample 0
    iterations :=
      [{ candidate := heldSample 3
         readBacks := List.replicate 0x10000 (heldSample 3)
         check := some (heldSample 3) }]
    unread := [] }

/-! ## The back-stack of `menuShow` -/

/-- A `MENU` item that refers to the menu at address `target`. -/
def submenuItem (target : MenuPtr) : MenuItem :=
  { title := "submenu", action_type := MenuItemAction.MENU, method := none, menu := target,
    visibility := none }

/-- A memory holding the given menus at the addresses `0`, `1`, `2`, ... -/
def menusMem (menus : List Menu) : MenuPtr → Option Menu := fun p => menus[p]?

/-- The live part of the arrays `previousMenus` and `previousSelectedItems` as
a list of pairs `(menu, selectedItem)`, the root level first. -/
def backStack (s : ShowState) : List (MenuPtr × Int) :=
  (List.range s.nbPreviousMenus).map fun i =>
    (s.previousMenus.getD i 0, toS32 (s.previousSelectedItems.getD i 0))

/-- Whether the selected item of the current menu is a submenu item. -/
def selectedIsSubmenu (mem : MenuPtr → Option Menu) (s : ShowState) : Bool :=
  match mem s.currentMenu with
  | none => false
  | some menu =>
    match itemAt menu s.selectedItem with
    | none => false
    | some item => item.action_type = MenuItemAction.MENU

/-- The levels left so far, as the navigation events define them: an Activate
on a submenu item adds the pair (current menu, selected index) of the level
that is left, a Back removes the latest pair, every other event keeps the
list. -/
def levelsAfter (mem : MenuPtr → Option Menu) (s : ShowState) (input : LoopInput)
    (levels : List (MenuPtr × Int)) : List (MenuPtr × Int) :=
  if keyTest input.pressed KEY_A then
    if selectedIsSubmenu mem s then levels ++ [(s.currentMenu, s.selectedItem)] else levels
  else if keyTest input.pressed KEY_B then levels.dropLast
  else levels

/-- The levels left and not yet returned to after the loop of `menuShow` has
run over the given inputs. -/
def levelsLeft (MAIN_PER_MENU_PAGE : Nat) (mem : MenuPtr → Option Menu) (menuCombo : Nat) :
    ShowState → List LoopInput → List (MenuPtr × Int) → List (MenuPtr × Int)
  | _, [], levels => levels
  | s, input :: rest, levels =>
    match menuShowStep MAIN_PER_MENU_PAGE mem menuCombo s input with
    | Outcome.running s1 =>
      levelsLeft MAIN_PER_MENU_PAGE mem menuCombo s1 rest (levelsAfter mem s input levels)
    | _ => levels

/-- The pairs (current menu, selected index) after each iteration of a run of
the loop of `menuShow`. -/
def menuShowTrace (MAIN_PER_MENU_PAGE : Nat) (mem : MenuPtr → Option Menu) (menuCombo : Nat) :
    ShowState → List LoopInput → List (MenuPtr × Int)
  | _, [] => []
  | s, input :: rest =>
    match menuShowStep MAIN_PER_MENU_PAGE mem menuCombo s input with
    | Outcome.running s1 =>
      (s1.currentMenu, s1.selectedItem) ::
        menuShowTrace MAIN_PER_MENU_PAGE mem menuCombo s1 rest
    | _ => []

/-- A Back event: `KEY_B` pressed without `KEY_A`, the shutdown flag clear. -/
def IsBack (input : LoopInput) : Prop :=
  keyTest input.pressed KEY_A = false ∧ keyTest input.pressed KEY_B = true ∧
    input.menuShouldExit = false

instance (input : LoopInput) : Decidable (IsBack input) := by
  unfold IsBack; infer_instance

/-- The invariant of the loop of `menuShow` on its back-stack: the arrays have
`0x80` entries of which at most `0x80` are live, `numItems` is the item count of
the current menu and the selection lies within it, every live entry holds a
menu and a selection within that menu, and the bottom of the stack (the
current menu when the stack is empty) is the root menu. -/
structure BackStackInv (mem : MenuPtr → Option Menu) (root : MenuPtr) (s : ShowState) :
    Prop where
  menusLength : s.previousMenus.length = 0x80
  selectedLength : s.previousSelectedItems.length = 0x80
  depth : s.nbPreviousMenus ≤ 0x80
  current : ∃ menu n, mem s.currentMenu = some menu ∧ menuCountItems menu = some n ∧
    s.numItems = (n : Int) ∧
    ((0 ≤ s.selectedItem ∧ s.selectedItem < (n : Int)) ∨
      (n = 0 ∧ (s.selectedItem = 0 ∨ s.selectedItem = -1)))
  entries : ∀ i, i < s.nbPreviousMenus → ∃ menu n, mem (s.previousMenus.getD i 0) = some menu ∧
    menuCountItems menu = some n ∧ s.previousSelectedItems.getD i 0 < n
  bottom : (if s.nbPreviousMenus = 0 then s.currentMenu else s.previousMenus.getD 0 0) = root

/-- The locals after a `MENU` item was activated, before the end of the loop
body. -/
def pushed (s : ShowState) (target : MenuPtr) : ShowState :=
  { s with
    previousSelectedItems :=
      s.previousSelectedItems.set s.nbPreviousMenus (toU32 s.selectedItem)
    previousMenus := s.previousMenus.set s.nbPreviousMenus s.currentMenu
    nbPreviousMenus := s.nbPreviousMenus + 1
    currentMenu := target
    selectedItem := 0 }


/-- A root menu whose item 1 leads to the submenu `S1` at address `1`. -/
def chainRoot : Menu :=
  { title := "root", items := [methodItem false, submenuItem 1, endItem] }

/-- The submenu `S1`, whose item 2 leads to `S2` at address `2`. -/
def chainS1 : Menu :=
  { title := "S1", items := [methodItem false, methodItem false, submenuItem 2, endItem] }

/-- The submenu `S2`, whose item 0 leads to `S3` at address `3`. -/
def chainS2 : Menu := { title := "S2", items := [submenuItem 3, endItem] }

/-- The submenu `S3`, with two `METHOD` items. -/
def chainS3 : Menu := sampleMenu [false, false]

/-- The memory holding the root menu and `S1`, `S2`, `S3`. -/
def chainMem : MenuPtr → Option Menu := menusMem [chainRoot, chainS1, chainS2, chainS3]

/-- The inputs that descend root → `S1` → `S2` → `S3`, moving the selection at
each level first, and then move the selection inside `S3`. -/
def chainInputs : List LoopInput :=
  [pressedOnly KEY_DOWN, pressedOnly KEY_A, pressedOnly KEY_DOWN, pressedOnly KEY_DOWN,
   pressedOnly KEY_A, pressedOnly KEY_A, pressedOnly KEY_DOWN]

/-- The locals of `menuShow(root)` after its prologue on `chainMem`. -/
def chainStart : ShowState := (menuShowInit chainMem 0).getD (sampleState 0 0 0)

/-- The locals of `menuShow` after the inputs `chainInputs`. -/
def chainDescended : ShowState :=
  ((menuShowLoop 5 chainMem 0 chainStart chainInputs).locals).getD chainStart

/-- A Back input whose key is sampled as released at once. -/
def backInput : LoopInput :=
  { pressed := KEY_B, heldKeys := 0, heldKeysB := [0], menuShouldExit := false }

/-- A root menu whose only item leads to the submenu at address `1`. -/
def hiddenFirstRoot : Menu := { title := "root", items := [submenuItem 1, endItem] }

/-- A submenu whose first item is hidden and whose second item is not. -/
def hiddenFirstSub : Menu := sampleMenu [true, false]

/-- The memory holding `hiddenFirstRoot` and `hiddenFirstSub`. -/
def hiddenFirstMem : MenuPtr → Option Menu := menusMem [hiddenFirstRoot, hiddenFirstSub]

/-! # Properties -/

/-! ## Call-log lemmas -/

theorem record_overlaysShown (g : Globals) (c : Call) :
    (g.record c).overlaysShown = g.overlaysShown + (if c = Call.menuShow then 1 else 0) := by
  unfold Globals.record Globals.overlaysShown
  by_cases h : c = Call.menuShow
  · subst h; simp
  · have h2 : ¬ (Call.menuShow = c) := fun e => h e.symm
    simp [h, h2, List.count_cons]

theorem menuEnter_overlaysShown (g : Globals) (a : Bool) :
    (menuEnter g a).overlaysShown = g.overlaysShown := by
  unfold menuEnter
  cases a <;> by_cases h : (!g.menuShouldExit && g.menuRefCount == 0) = true <;>
    simp [h, Globals.record, Globals.overlaysShown, List.count_cons, svcKernelSetState,
      Draw_AllocateFramebufferCache, Draw_SetupFramebuffer]

theorem menuLeave_overlaysShown (g : Globals) :
    (menuLeave g).overlaysShown = g.overlaysShown := by
  unfold menuLeave
  by_cases h : (g.menuRefCount - 1 == 0) = true <;>
    simp [h, Globals.record, Globals.overlaysShown, List.count_cons, svcKernelSetState,
      Draw_RestoreFramebuffer, Draw_FreeFramebufferCache]

theorem overlaySession_overlaysShown (g : Globals) (a : Bool) :
    (overlaySession g a).overlaysShown = g.overlaysShown + 1 := by
  unfold overlaySession runMenuShow
  simp only [menuLeave_overlaysShown, record_overlaysShown]
  split <;> simp [record_overlaysShown, menuEnter_overlaysShown]

/-! ## Menus as lists -/

theorem menuCountItemsLoop_eq (items : List MenuItem) (k : Nat)
    (h : ∃ item ∈ items, item.action_type = MenuItemAction.MENU_END) :
    menuCountItemsLoop items k = some (k + (items.takeWhile fun item =>
      item.action_type != MenuItemAction.MENU_END).length) := by
  induction items generalizing k with
  | nil => obtain ⟨_, hmem, _⟩ := h; cases hmem
  | cons a rest ih =>
    unfold menuCountItemsLoop
    by_cases ha : a.action_type = MenuItemAction.MENU_END
    · simp [ha, List.takeWhile]
    · have hrest : ∃ item ∈ rest, item.action_type = MenuItemAction.MENU_END := by
        obtain ⟨x, hmem, hx⟩ := h
        rcases List.mem_cons.mp hmem with rfl | hm
        · exact absurd hx ha
        · exact ⟨x, hm, hx⟩
      have htw : (List.takeWhile (fun item : MenuItem =>
          item.action_type != MenuItemAction.MENU_END) (a :: rest)) =
          a :: List.takeWhile (fun item => item.action_type != MenuItemAction.MENU_END) rest := by
        rw [List.takeWhile_cons]; simp [ha]
      simp only [ha, if_false]
      rw [ih (k + 1) hrest, htw, List.length_cons]
      congr 1; omega

theorem menuCountItemsLoop_some (items : List MenuItem) (k n : Nat)
    (h : menuCountItemsLoop items k = some n) :
    ∃ item ∈ items, item.action_type = MenuItemAction.MENU_END := by
  induction items generalizing k with
  | nil => simp [menuCountItemsLoop] at h
  | cons a rest ih =>
    unfold menuCountItemsLoop at h
    by_cases ha : a.action_type = MenuItemAction.MENU_END
    · exact ⟨a, List.mem_cons_self _ _, ha⟩
    · simp only [ha, if_false] at h
      obtain ⟨x, hm, hx⟩ := ih (k + 1) h
      exact ⟨x, List.mem_cons_of_mem _ hm, hx⟩

theorem menuCountItems_eq (menu : Menu) (h : Terminated menu) :
    menuCountItems menu = some (liveItems menu).length := by
  unfold menuCountItems liveItems
  rw [menuCountItemsLoop_eq menu.items 0 h]; simp

theorem terminated_of_menuCountItems (menu : Menu) (n : Nat)
    (h : menuCountItems menu = some n) : Terminated menu :=
  menuCountItemsLoop_some menu.items 0 n h

theorem length_of_menuCountItems (menu : Menu) (n : Nat)
    (h : menuCountItems menu = some n) : (liveItems menu).length = n := by
  have := menuCountItems_eq menu (terminated_of_menuCountItems menu n h)
  rw [h] at this; exact (Option.some.inj this).symm

theorem menuCountItemsWithoutHiddenLoop_eq (items : List MenuItem) (m : Nat)
    (h : ∃ item ∈ items, item.action_type = MenuItemAction.MENU_END) :
    menuCountItemsWithoutHiddenLoop items m = some (m + ((items.takeWhile fun item =>
      item.action_type != MenuItemAction.MENU_END).filter fun item =>
        !menuItemIsHidden item).length) := by
  induction items generalizing m with
  | nil => obtain ⟨_, hmem, _⟩ := h; cases hmem
  | cons a rest ih =>
    unfold menuCountItemsWithoutHiddenLoop
    by_cases ha : a.action_type = MenuItemAction.MENU_END
    · simp [ha, List.takeWhile]
    · have hrest : ∃ item ∈ rest, item.action_type = MenuItemAction.MENU_END := by
        obtain ⟨x, hmem, hx⟩ := h
        rcases List.mem_cons.mp hmem with rfl | hm
        · exact absurd hx ha
        · exact ⟨x, hm, hx⟩
      have htw : (List.takeWhile (fun item : MenuItem =>
          item.action_type != MenuItemAction.MENU_END) (a :: rest)) =
          a :: List.takeWhile (fun item => item.action_type != MenuItemAction.MENU_END) rest := by
        rw [List.takeWhile_cons]; simp [ha]
      simp only [ha, if_false]
      rw [htw, List.filter_cons]
      rcases hv : a.visibility with _ | b
      · have hh : menuItemIsHidden a = false := by simp [menuItemIsHidden, hv]
        simp only [true_or, if_true, hh, Bool.not_false, List.length_cons]
        rw [ih _ hrest]; congr 1; omega
      · cases b
        · have hh : menuItemIsHidden a = true := by simp [menuItemIsHidden, hv]
          simp [hh, ih _ hrest]
        · have hh : menuItemIsHidden a = false := by simp [menuItemIsHidden, hv]
          simp only [or_true, if_true, hh, Bool.not_false, List.length_cons]
          rw [ih _ hrest]; congr 1; omega

theorem liveItems_getElem? (menu : Menu) (i : Nat) (h : i < (liveItems menu).length) :
    menu.items[i]? = (liveItems menu)[i]? := by
  unfold liveItems at *
  generalize menu.items = items at *
  induction items generalizing i with
  | nil => simp at h
  | cons a rest ih =>
    by_cases ha : (a.action_type != MenuItemAction.MENU_END) = true
    · simp only [List.takeWhile_cons, ha, if_true] at h ⊢
      cases i with
      | zero => simp
      | succ j =>
        simp only [List.getElem?_cons_succ]
        exact ih j (by simpa using h)
    · simp [List.takeWhile_cons, ha] at h

theorem menuCountItemsLoop_bounds (items : List MenuItem) :
    ∀ (k n : Nat), menuCountItemsLoop items k = some n → k ≤ n ∧ n < k + items.length := by
  induction items with
  | nil => intro k n h; simp [menuCountItemsLoop] at h
  | cons a rest ih =>
    intro k n h
    unfold menuCountItemsLoop at h
    by_cases ha : a.action_type = MenuItemAction.MENU_END
    · rw [if_pos ha] at h
      have := Option.some.inj h
      simp only [List.length_cons]; omega
    · rw [if_neg ha] at h
      have := ih (k + 1) n h
      simp only [List.length_cons]; omega

theorem menuCountItems_lt_length (menu : Menu) (n : Nat) (h : menuCountItems menu = some n) :
    n < menu.items.length := by
  have := (menuCountItemsLoop_bounds menu.items 0 n h).2
  omega

theorem menuDraw_defined (menu : Menu) (n : Nat) (sel : Int)
    (h : menuCountItems menu = some n) (h0 : 0 ≤ sel) (h1 : sel ≤ n) :
    menuDraw menu sel = some () := by
  have hlen := menuCountItems_lt_length menu n h
  unfold menuDraw itemAt
  rw [if_neg (by omega)]
  have hlt : sel.toNat < menu.items.length := by omega
  rw [List.getElem?_eq_getElem hlt]

/-! ## Cursor arithmetic -/

theorem toU32_one : toU32 1 = 1 := by decide
theorem toU32_neg_one : toU32 (-1) = 4294967295 := by decide
theorem toU32_natCast (k : Nat) (h : k < 4294967296) : toU32 (k : Int) = k := by
  unfold toU32; omega
theorem toS32_small (k : Nat) (h : k < 2147483648) : toS32 k = (k : Int) := by
  unfold toS32
  have : k % 4294967296 = k := Nat.mod_eq_of_lt (by omega)
  rw [this, if_pos h]

theorem menuAdvanceCursor_forward (pos n : Nat) (hn : 0 < n) (hle : n ≤ 2147483648)
    (hpos : pos < n) : menuAdvanceCursor pos n 1 = some ((pos + 1) % n) := by
  unfold menuAdvanceCursor
  rw [toU32_one, if_neg (by omega)]
  by_cases hfull : pos + n + 1 = 4294967296
  · have hn' : n = 2147483648 := by omega
    have hp : pos + 1 = n := by omega
    rw [hfull, hp]; simp
  · rw [Nat.mod_eq_of_lt (by omega : pos + n + 1 < 4294967296)]
    rw [show pos + n + 1 = pos + 1 + n by omega, Nat.add_mod_right]

theorem menuAdvanceCursor_backward (pos n : Nat) (hn : 0 < n) (hle : n ≤ 2147483648)
    (hpos : pos < n) : menuAdvanceCursor pos n (-1) = some ((pos + n - 1) % n) := by
  unfold menuAdvanceCursor
  rw [toU32_neg_one, if_neg (by omega)]
  have : (pos + n + 4294967295) % 4294967296 = pos + n - 1 := by omega
  rw [this]

theorem cursorNext_lt (n : Nat) (forward : Bool) (k : Nat) (hn : 0 < n) :
    cursorNext n forward k < n := by
  unfold cursorNext; split <;> exact Nat.mod_lt _ hn

theorem advanceSelected_eq (n k : Nat) (forward : Bool) (hn : 0 < n) (hlt : n < 2147483648)
    (hk : k < n) :
    advanceSelected (k : Int) (n : Int) (if forward then 1 else -1) =
      some ((cursorNext n forward k : Nat) : Int) := by
  unfold advanceSelected
  rw [toU32_natCast k (by omega), toU32_natCast n (by omega)]
  have hlt' := cursorNext_lt n forward k hn
  cases forward
  · simp only [Bool.false_eq_true, if_false]
    rw [menuAdvanceCursor_backward k n hn (by omega) hk]
    simp only [Option.map_some']
    rw [toS32_small _ (by unfold cursorNext at hlt'; simp at hlt'; omega)]
    simp [cursorNext]
  · simp only [if_true]
    rw [menuAdvanceCursor_forward k n hn (by omega) hk]
    simp only [Option.map_some']
    rw [toS32_small _ (by unfold cursorNext at hlt'; simp at hlt'; omega)]
    simp [cursorNext]

theorem itemAt_natCast (menu : Menu) (k : Nat) : itemAt menu (k : Int) = menu.items[k]? := by
  unfold itemAt; simp

theorem items_isSome_of_count (menu : Menu) (n i : Nat) (hc : menuCountItems menu = some n)
    (hi : i < n) : ∃ item, menu.items[i]? = some item := by
  have hlen := length_of_menuCountItems menu n hc
  have h1 := liveItems_getElem? menu i (by omega)
  rw [h1]
  exact ⟨(liveItems menu)[i], by rw [List.getElem?_eq_getElem]⟩

theorem moveSkipHidden_eq (menu : Menu) (n k : Nat) (forward : Bool)
    (hc : menuCountItems menu = some n) (hlt : n < 2147483648) (hk : k < n) :
    moveSkipHidden menu (n : Int) (if forward then 1 else -1) (k : Int) =
      some ((skipStep (hiddenAt menu) n forward k : Nat) : Int) := by
  have hn : 0 < n := by omega
  unfold moveSkipHidden
  rw [advanceSelected_eq n k forward hn hlt hk]
  simp only
  have h1 := cursorNext_lt n forward k hn
  obtain ⟨item, hitem⟩ := items_isSome_of_count menu n _ hc h1
  rw [itemAt_natCast, hitem]
  simp only
  unfold skipStep hiddenAt
  rw [hitem]
  by_cases hh : menuItemIsHidden item = true
  · simp only [hh, if_true]
    exact advanceSelected_eq n _ forward hn hlt h1
  · simp [hh]

theorem skipStep_lt (hid : Nat → Bool) (n : Nat) (forward : Bool) (k : Nat) (hn : 0 < n) :
    skipStep hid n forward k < n := by
  unfold skipStep; split <;> exact cursorNext_lt _ _ _ hn

theorem skipSteps_lt (hid : Nat → Bool) (n : Nat) (forward : Bool) (count k : Nat)
    (hk : k < n) : skipSteps hid n forward count k < n := by
  induction count generalizing k with
  | zero => exact hk
  | succ c ih => exact ih _ (skipStep_lt hid n forward k (by omega))

theorem moveTimes_eq (menu : Menu) (n : Nat) (forward : Bool) (count k : Nat)
    (hc : menuCountItems menu = some n) (hlt : n < 2147483648) (hk : k < n) :
    moveTimes menu (n : Int) (if forward then 1 else -1) count (k : Int) =
      some ((skipSteps (hiddenAt menu) n forward count k : Nat) : Int) := by
  induction count generalizing k with
  | zero => rfl
  | succ c ih =>
    unfold moveTimes
    rw [moveSkipHidden_eq menu n k forward hc hlt hk]
    simp only
    rw [ih _ (skipStep_lt _ n forward k (by omega))]
    rfl

/-! ## The loop body -/

theorem finishIteration_locals (P : Nat) (mem : MenuPtr → Option Menu) (s1 : ShowState)
    (exit : Bool) (menu : Menu) (n j : Nat) (hmem : mem s1.currentMenu = some menu)
    (hcount : menuCountItems menu = some n) (hn : n < 2147483648)
    (hsel : s1.selectedItem = (j : Int)) (hj : j < n) :
    (finishIteration P mem s1 exit).locals =
      some { s1 with numItems := (n : Int), selectedItem := (j : Int), pagePrev := s1.page,
                     page := Int.tdiv (j : Int) P } := by
  unfold finishIteration
  rw [hmem]; simp only [hcount]
  rw [toS32_small n hn, hsel]
  have h1 : ¬ ((j : Int) < 0) := by omega
  have h2 : ¬ ((j : Int) ≥ (n : Int)) := by omega
  simp only [h1, h2, if_false]
  rw [menuDraw_defined menu n j hcount (by omega) (by omega)]
  cases exit <;> rfl

theorem afterComboTest_fields (menuCombo : Nat) (s : ShowState) (input : LoopInput) :
    (afterComboTest menuCombo s input).currentMenu = s.currentMenu ∧
    (afterComboTest menuCombo s input).selectedItem = s.selectedItem ∧
    (afterComboTest menuCombo s input).numItems = s.numItems ∧
    (afterComboTest menuCombo s input).page = s.page ∧
    (afterComboTest menuCombo s input).nbPreviousMenus = s.nbPreviousMenus ∧
    (afterComboTest menuCombo s input).previousMenus = s.previousMenus ∧
    (afterComboTest menuCombo s input).previousSelectedItems = s.previousSelectedItems := by
  unfold afterComboTest; split <;> simp

theorem menuShowStep_eq (P : Nat) (mem : MenuPtr → Option Menu) (menuCombo : Nat)
    (s : ShowState) (input : LoopInput) (hP : 0 < P) :
    menuShowStep P mem menuCombo s input =
      match dispatchKey P (mem s.currentMenu) (afterComboTest menuCombo s input) input with
      | Outcome.running s1 => finishIteration P mem s1 input.menuShouldExit
      | other => other := by
  unfold menuShowStep
  rw [if_neg (by omega)]
  simp only
  rw [(afterComboTest_fields menuCombo s input).1]

/-- The selection computed by a navigation branch, as a step of the loop. -/
theorem menuShowStep_select (P : Nat) (mem : MenuPtr → Option Menu) (menuCombo : Nat)
    (s : ShowState) (input : LoopInput) (menu : Menu) (n j : Nat) (hP : 0 < P)
    (hmem : mem s.currentMenu = some menu) (hcount : menuCountItems menu = some n)
    (hn : n < 2147483648) (hj : j < n)
    (hd : dispatchKey P (some menu) (afterComboTest menuCombo s input) input =
      Outcome.running { afterComboTest menuCombo s input with selectedItem := (j : Int) }) :
    ∃ s', (menuShowStep P mem menuCombo s input).locals = some s' ∧
      s'.selectedItem = (j : Int) ∧ s'.page = Int.tdiv (j : Int) P ∧
      s'.currentMenu = s.currentMenu ∧ s'.numItems = (n : Int) ∧
      s'.nbPreviousMenus = s.nbPreviousMenus := by
  rw [menuShowStep_eq P mem menuCombo s input hP, hmem, hd]
  simp only
  obtain ⟨h1, _, _, _, h5, _, _⟩ := afterComboTest_fields menuCombo s input
  rw [finishIteration_locals P mem _ input.menuShouldExit menu n j (by simpa [h1] using hmem)
    hcount hn rfl hj]
  exact ⟨_, rfl, rfl, rfl, by simp [h1], rfl, by simp [h5]⟩

theorem cursorNext_back_forth (n k : Nat) (hk : k < n) :
    (cursorNext n false k + 1) % n = k := by
  unfold cursorNext
  simp only [Bool.false_eq_true, if_false]
  by_cases h0 : k = 0
  · subst h0
    rw [Nat.zero_add, Nat.mod_eq_of_lt (by omega : n - 1 < n)]
    rw [show n - 1 + 1 = n by omega, Nat.mod_self]
  · rw [show k + n - 1 = (k - 1) + n by omega, Nat.add_mod_right,
      Nat.mod_eq_of_lt (by omega : k - 1 < n), show k - 1 + 1 = k by omega,
      Nat.mod_eq_of_lt hk]

theorem skipStep_visible (hid : Nat → Bool) (n k : Nat) (forward : Bool) (hn : 0 < n)
    (hadj : ∀ i, i < n → hid i = true → hid ((i + 1) % n) = false) :
    hid (skipStep hid n forward k) = false := by
  unfold skipStep
  have h1 := cursorNext_lt n forward k hn
  by_cases hh : hid (cursorNext n forward k) = true
  · rw [if_pos hh]
    cases forward
    · have h2 := cursorNext_lt n false (cursorNext n false k) hn
      by_contra hc
      have hc' : hid (cursorNext n false (cursorNext n false k)) = true := by
        simpa using hc
      have := hadj _ h2 hc'
      rw [cursorNext_back_forth n _ h1] at this
      rw [this] at hh; cases hh
    · have := hadj _ h1 hh
      simpa [cursorNext] using this
  · rw [if_neg hh]; simpa using hh

theorem dispatchKey_down (P : Nat) (menu : Menu) (s : ShowState) (input : LoopInput)
    (hA : keyTest input.pressed KEY_A = false) (hB : keyTest input.pressed KEY_B = false)
    (hD : keyTest input.pressed KEY_DOWN = true) (j : Int)
    (hr : keyDown menu s.numItems s.selectedItem = some j) :
    dispatchKey P (some menu) s input = Outcome.running { s with selectedItem := j } := by
  unfold dispatchKey
  simp [hA, hB, hD, hr]

theorem dispatchKey_up (P : Nat) (menu : Menu) (s : ShowState) (input : LoopInput)
    (hA : keyTest input.pressed KEY_A = false) (hB : keyTest input.pressed KEY_B = false)
    (hD : keyTest input.pressed KEY_DOWN = false)
    (hU : keyTest input.pressed KEY_UP = true) (j : Int)
    (hr : keyUp menu s.numItems s.selectedItem = some j) :
    dispatchKey P (some menu) s input = Outcome.running { s with selectedItem := j } := by
  unfold dispatchKey
  simp [hA, hB, hD, hU, hr]

theorem dispatchKey_right (P : Nat) (menu : Menu) (s : ShowState) (input : LoopInput)
    (hA : keyTest input.pressed KEY_A = false) (hB : keyTest input.pressed KEY_B = false)
    (hD : keyTest input.pressed KEY_DOWN = false)
    (hU : keyTest input.pressed KEY_UP = false)
    (hL : keyTest input.pressed KEY_LEFT = false)
    (hR : keyTest input.pressed KEY_RIGHT = true) (j : Int)
    (hr : keyRight P menu s.numItems s.selectedItem s.page = some j) :
    dispatchKey P (some menu) s input = Outcome.running { s with selectedItem := j } := by
  unfold dispatchKey
  simp [hA, hB, hD, hU, hL, hR, hr]

theorem advanceTimes_forward (n count pos : Nat) (hn : 0 < n) (hle : n ≤ 2147483648)
    (hpos : pos < n) : advanceTimes n 1 count pos = some ((pos + count) % n) := by
  induction count generalizing pos with
  | zero => simp [advanceTimes, Nat.mod_eq_of_lt hpos]
  | succ c ih =>
    unfold advanceTimes
    rw [menuAdvanceCursor_forward pos n hn hle hpos]
    simp only
    rw [ih _ (Nat.mod_lt _ hn), Nat.mod_add_mod]
    rw [show pos + 1 + c = pos + (c + 1) by omega]

theorem advanceTimes_backward (n count pos : Nat) (hn : 0 < n) (hle : n ≤ 2147483648)
    (hpos : pos < n) :
    advanceTimes n (-1) count pos = some ((pos + count * (n - 1)) % n) := by
  induction count generalizing pos with
  | zero => simp [advanceTimes, Nat.mod_eq_of_lt hpos]
  | succ c ih =>
    unfold advanceTimes
    rw [menuAdvanceCursor_backward pos n hn hle hpos]
    simp only
    rw [ih _ (Nat.mod_lt _ hn), Nat.mod_add_mod]
    rw [show pos + n - 1 + c * (n - 1) = pos + (c + 1) * (n - 1) by
      rw [Nat.add_mul, Nat.one_mul]; omega]

theorem visible_iff_not_hidden (item : MenuItem) :
    decide (item.visibility = none ∨ item.visibility = some true) = !menuItemIsHidden item := by
  unfold menuItemIsHidden
  rcases item.visibility with _ | b
  · simp
  · cases b <;> simp

theorem menuCountItemsWithoutHidden_eq_filter (menu : Menu) (h : Terminated menu) :
    menuCountItemsWithoutHidden menu =
      some ((liveItems menu).filter fun item => !menuItemIsHidden item).length := by
  unfold menuCountItemsWithoutHidden liveItems
  rw [menuCountItemsWithoutHiddenLoop_eq menu.items 0 h]; simp

set_option maxRecDepth 100000 in
theorem pageForward_flags : ∀ b1 b2 b3 b4 b5 b6 b7 b8 b9 : Bool,
    [false, b1, b2, b3, b4, b5, b6, b7, b8, b9].count true = 2 →
    5 ≤ skipSteps (flagAt [false, b1, b2, b3, b4, b5, b6, b7, b8, b9]) 10 true 5 0 ∧
    skipSteps (flagAt [false, b1, b2, b3, b4, b5, b6, b7, b8, b9]) 10 true 5 0 ≤ 7 ∧
    (flagAt [false, b1, b2, b3, b4, b5, b6, b7, b8, b9]
        (skipSteps (flagAt [false, b1, b2, b3, b4, b5, b6, b7, b8, b9]) 10 true 5 0) = true ↔
      (b5 = true ∧ b6 = true)) ∧
    (b1 = false → b2 = false → b3 = false → b4 = false → ¬ (b5 = true ∧ b6 = true) →
      ∀ i, i < skipSteps (flagAt [false, b1, b2, b3, b4, b5, b6, b7, b8, b9]) 10 true 5 0 →
        5 ≤ i → flagAt [false, b1, b2, b3, b4, b5, b6, b7, b8, b9] i = true) := by
  decide

theorem hiddenFlags_length (menu : Menu) (n : Nat) (hcount : menuCountItems menu = some n) :
    (hiddenFlags menu).length = n := by
  unfold hiddenFlags
  rw [List.length_map]; exact length_of_menuCountItems menu n hcount

theorem hiddenAt_eq_flagAt (menu : Menu) (n i : Nat) (hcount : menuCountItems menu = some n)
    (hi : i < n) : hiddenAt menu i = flagAt (hiddenFlags menu) i := by
  have hlen := length_of_menuCountItems menu n hcount
  have h1 := liveItems_getElem? menu i (by omega)
  unfold hiddenAt flagAt hiddenFlags
  rw [h1, List.getElem?_eq_getElem (by omega), List.getD_eq_getElem?_getD,
    List.getElem?_map, List.getElem?_eq_getElem (by omega)]
  rfl

theorem skipStep_congr (hid hid' : Nat → Bool) (n k : Nat) (forward : Bool) (hn : 0 < n)
    (h : ∀ i, i < n → hid i = hid' i) :
    skipStep hid n forward k = skipStep hid' n forward k := by
  unfold skipStep
  rw [h _ (cursorNext_lt n forward k hn)]

theorem skipSteps_congr (hid hid' : Nat → Bool) (n count k : Nat) (forward : Bool)
    (hn : 0 < n) (h : ∀ i, i < n → hid i = hid' i) :
    skipSteps hid n forward count k = skipSteps hid' n forward count k := by
  induction count generalizing k with
  | zero => rfl
  | succ c ih =>
    unfold skipSteps
    rw [skipStep_congr hid hid' n k forward hn h, ih]

theorem visibleCount_eq (menu : Menu) (n : Nat) (hcount : menuCountItems menu = some n) :
    menuCountItemsWithoutHidden menu = some (n - (hiddenFlags menu).count true) := by
  have hterm := terminated_of_menuCountItems menu n hcount
  have hlen := length_of_menuCountItems menu n hcount
  have hsplit := List.length_eq_length_filter_add (l := liveItems menu) menuItemIsHidden
  have hc : (hiddenFlags menu).count true = ((liveItems menu).filter menuItemIsHidden).length := by
    unfold hiddenFlags
    rw [List.count, List.countP_map, List.countP_eq_length_filter]
    congr 1
    apply List.filter_congr
    intro x _
    simp
  rw [menuCountItemsWithoutHidden_eq_filter menu hterm, hc]
  congr 1; omega

theorem list_of_length_ten (l : List Bool) (h : l.length = 10) :
    ∃ b0 b1 b2 b3 b4 b5 b6 b7 b8 b9, l = [b0, b1, b2, b3, b4, b5, b6, b7, b8, b9] := by
  match l, h with
  | [b0, b1, b2, b3, b4, b5, b6, b7, b8, b9], _ =>
    exact ⟨b0, b1, b2, b3, b4, b5, b6, b7, b8, b9, rfl⟩

set_option maxRecDepth 100000 in
theorem pageForward_flags_exact : ∀ b1 b2 b3 b4 b5 b6 b7 b8 b9 : Bool,
    [false, b1, b2, b3, b4, b5, b6, b7, b8, b9].count true = 2 →
    skipSteps (flagAt [false, b1, b2, b3, b4, b5, b6, b7, b8, b9]) 10 true 5 0 =
      Nat.iterate (fun p => if flagAt [false, b1, b2, b3, b4, b5, b6, b7, b8, b9] (p + 1) = true
        then p + 2 else p + 1) 5 0 ∧
    ((∀ i, i < 9 → ¬ (flagAt [false, b1, b2, b3, b4, b5, b6, b7, b8, b9] i = true ∧
        flagAt [false, b1, b2, b3, b4, b5, b6, b7, b8, b9] (i + 1) = true)) →
      ((List.range 10).filter fun i => !flagAt [false, b1, b2, b3, b4, b5, b6, b7, b8, b9] i)[5]? =
        some (skipSteps (flagAt [false, b1, b2, b3, b4, b5, b6, b7, b8, b9]) 10 true 5 0)) ∧
    (∀ h, h < 9 → flagAt [false, b1, b2, b3, b4, b5, b6, b7, b8, b9] h = true →
      flagAt [false, b1, b2, b3, b4, b5, b6, b7, b8, b9] (h + 1) = true →
      skipSteps (flagAt [false, b1, b2, b3, b4, b5, b6, b7, b8, b9]) 10 true 5 0 =
        if h ≤ 5 then 6 else 5) := by
  decide

theorem skipForward_congr (h h' : Nat → Bool) (n : Nat) (hh : ∀ i, i < n → h i = h' i) :
    ∀ count k, k + 2 * count ≤ n →
      Nat.iterate (fun p => if h (p + 1) = true then p + 2 else p + 1) count k =
        Nat.iterate (fun p => if h' (p + 1) = true then p + 2 else p + 1) count k := by
  intro count
  induction count with
  | zero => intro k _; rfl
  | succ c ih =>
    intro k hk
    rw [Function.iterate_succ_apply, Function.iterate_succ_apply, hh (k + 1) (by omega)]
    apply ih
    split <;> omega

/-! ## Combo strings -/

theorem bitSet_eq_testBit (c i : Nat) : (c &&& (1 <<< i) != 0) = c.testBit i := by
  rw [Nat.one_shiftLeft, Nat.and_two_pow]
  cases c.testBit i
  · simp
  · have : 2 ^ i ≠ 0 := by positivity
    simp [this]

theorem range_reverse_succ (k : Nat) :
    (List.range (k + 1)).reverse = k :: (List.range k).reverse := by
  rw [List.range_succ, List.reverse_append]; rfl

theorem convertComboLoop_eq (c k : Nat) (w : List Char) :
    convertComboLoop c k w =
      w ++ ((List.range k).reverse.filter fun i => c &&& (1 <<< i) != 0).flatMap
        fun i => keyName i ++ ['+'] := by
  induction k generalizing w with
  | zero => simp [convertComboLoop]
  | succ k ih =>
    unfold convertComboLoop
    rw [range_reverse_succ, List.filter_cons]
    by_cases hb : (c &&& (1 <<< k) != 0) = true
    · rw [if_pos hb, if_pos hb, ih, List.flatMap_cons]
      simp [List.append_assoc]
    · rw [if_neg hb, if_neg hb, ih]

theorem convertComboWritten_eq (c : Nat) :
    convertComboWritten c = (setBitsDescending c).flatMap fun i => keyName i ++ ['+'] := by
  unfold convertComboWritten setBitsDescending
  rw [convertComboLoop_eq]; rfl

theorem dropLast_flatMap_sep {α β : Type} (f : α → List β) (sep : β) (l : List α)
    (hl : l ≠ []) :
    (l.flatMap fun i => f i ++ [sep]).dropLast = [sep].intercalate (l.map f) := by
  induction l with
  | nil => exact absurd rfl hl
  | cons a t ih =>
    cases t with
    | nil => simp [List.intercalate, List.intersperse, List.flatMap]
    | cons b t' =>
      have hne : ((b :: t').flatMap fun i => f i ++ [sep]) ≠ [] := by
        simp [List.flatMap_cons]
      rw [List.flatMap_cons, List.dropLast_append_of_ne_nil _ hne, ih (by simp)]
      simp [List.intercalate, List.intersperse, List.append_assoc]

theorem convertCombo_eq_intercalate (c : Nat) :
    MiscellaneousMenu_ConvertComboToString c =
      ['+'].intercalate ((setBitsDescending c).map keyName) := by
  unfold MiscellaneousMenu_ConvertComboToString
  rw [convertComboWritten_eq]
  by_cases h : setBitsDescending c = []
  · rw [h]; rfl
  · have hne : ((setBitsDescending c).flatMap fun i => keyName i ++ ['+']) ≠ [] := by
      cases hs : setBitsDescending c with
      | nil => exact absurd hs h
      | cons a t => simp [List.flatMap_cons]
    rw [if_neg hne, dropLast_flatMap_sep keyName '+' _ h]

theorem keyName_no_plus : ∀ i, i < 32 → '+' ∉ keyName i := by decide

theorem lookupKey_keyName :
    ∀ i, i < 32 → unnamedKeys.testBit i = false → lookupKey (keyName i) = 1 <<< i := by
  decide

theorem foldl_or_init (l : List Nat) (a : Nat) :
    l.foldl (fun m b => m ||| b) a = a ||| l.foldl (fun m b => m ||| b) 0 := by
  induction l generalizing a with
  | nil => simp
  | cons x t ih =>
    simp only [List.foldl_cons]
    rw [ih (a ||| x), ih (0 ||| x), Nat.zero_or, Nat.lor_assoc]

theorem foldl_or_bits (c k : Nat) :
    ((((List.range k).reverse.filter fun i => c &&& (1 <<< i) != 0).map fun i => 1 <<< i).foldl
      (fun m b => m ||| b) 0) = c % 2 ^ k := by
  induction k with
  | zero => simp [Nat.mod_one]
  | succ k ih =>
    rw [range_reverse_succ, List.filter_cons]
    apply Nat.eq_of_testBit_eq
    intro j
    rw [Nat.testBit_mod_two_pow]
    by_cases hb : (c &&& (1 <<< k) != 0) = true
    · rw [if_pos hb, List.map_cons, List.foldl_cons, foldl_or_init, ih, Nat.zero_or,
        Nat.testBit_or, Nat.one_shiftLeft, Nat.testBit_two_pow, Nat.testBit_mod_two_pow]
      rw [bitSet_eq_testBit] at hb
      by_cases hjk : k = j
      · subst hjk; simp [hb]
      · have : (j < k + 1) ↔ (j < k) := by omega
        simp [hjk, this]
    · rw [if_neg hb, ih, Nat.testBit_mod_two_pow]
      rw [bitSet_eq_testBit] at hb
      by_cases hjk : k = j
      · subst hjk; simp at hb; simp [hb]
      · have : (j < k + 1) ↔ (j < k) := by omega
        simp [this]

theorem mem_setBitsDescending (c i : Nat) :
    i ∈ setBitsDescending c ↔ i < 32 ∧ c.testBit i = true := by
  unfold setBitsDescending
  rw [List.mem_filter, List.mem_reverse, List.mem_range, bitSet_eq_testBit]

/-! ## Input polling -/

theorem scanHeldKeys_eq_with (g : Globals) (h : Nat) :
    scanHeldKeys g h = scanHeldKeysWith g.isHidInitialized g.menuShouldExit h := rfl

theorem waitInputLoop_bounded (D : Nat) (msec : Int) (samples : List InputSample) (n : Int)
    (hclear : ∀ s ∈ samples, s.menuShouldExit = false) (hn : n < msec) (h0 : 0 ≤ msec)
    (hlen : (msec - n).toNat ≤ samples.length) :
    waitInputLoop D true msec n samples =
      some ((firstNonEmpty ((samples.take (msec - n).toNat).map (inputValue D))).getD 0) := by
  induction samples generalizing n with
  | nil => simp at hlen; omega
  | cons s rest ih =>
    have hs : s.menuShouldExit = false := hclear s (List.mem_cons_self _ _)
    have hrest : ∀ t ∈ rest, t.menuShouldExit = false :=
      fun t ht => hclear t (List.mem_cons_of_mem _ ht)
    obtain ⟨b, hb⟩ : ∃ b, (msec - n).toNat = b + 1 := ⟨(msec - n).toNat - 1, by omega⟩
    unfold waitInputLoop
    simp only [hs, Bool.not_true, Bool.or_false, Bool.false_eq_true, if_false, Bool.not_false,
      Bool.and_true]
    rw [hb, List.take_succ_cons, List.map_cons]
    unfold firstNonEmpty
    rw [List.find?_cons]
    by_cases hk : inputValue D s = 0
    · have hneg : ¬ (msec < 0) := by omega
      simp only [hk, beq_self_eq_true, Bool.true_and, bne_self_eq_false, hneg, decide_False,
        Bool.false_or, decide_eq_true_eq]
      by_cases hnext : n + 1 < msec
      · rw [if_pos hnext]
        have hb' : (msec - (n + 1)).toNat = b := by omega
        have := ih (n + 1) hrest hnext (by simp at hlen; omega)
        rw [hb'] at this
        exact this
      · rw [if_neg hnext]
        have : b = 0 := by omega
        subst this
        simp
    · have hne : (inputValue D s != 0) = true := by simpa using hk
      have hbeq : (inputValue D s == 0) = false := by simpa using hk
      simp [hne, hbeq]

theorem waitInputLoop_unbounded (D : Nat) (msec : Int) (samples : List InputSample) (n : Int)
    (hclear : ∀ s ∈ samples, s.menuShouldExit = false) (hneg : msec < 0) :
    waitInputLoop D true msec n samples = firstNonEmpty (samples.map (inputValue D)) := by
  induction samples generalizing n with
  | nil => simp [waitInputLoop, firstNonEmpty]
  | cons s rest ih =>
    have hs : s.menuShouldExit = false := hclear s (List.mem_cons_self _ _)
    have hrest : ∀ t ∈ rest, t.menuShouldExit = false :=
      fun t ht => hclear t (List.mem_cons_of_mem _ ht)
    unfold waitInputLoop
    simp only [hs, Bool.not_true, Bool.or_false, Bool.false_eq_true, if_false, Bool.not_false,
      Bool.and_true, hneg, decide_True, Bool.true_or]
    rw [List.map_cons]
    unfold firstNonEmpty
    rw [List.find?_cons]
    by_cases hk : inputValue D s = 0
    · simp only [hk, beq_self_eq_true, if_true, bne_self_eq_false]
      exact ih (n + 1) hrest
    · have hne : (inputValue D s != 0) = true := by simpa using hk
      have hbeq : (inputValue D s == 0) = false := by simpa using hk
      simp [hne, hbeq]

theorem inputValue_eq (D : Nat) :
    inputValue D = fun s => s.keysDown ||| (s.keysDownRepeat &&& D) := rfl

theorem waitInputLoop_found (D : Nat) (msec : Int) (samples : List InputSample) (n : Int)
    (hclear : ∀ s ∈ samples, s.menuShouldExit = false) (hn : n < msec) (h0 : 0 ≤ msec)
    (v : Nat) (hv : firstNonEmpty ((samples.take (msec - n).toNat).map (inputValue D)) = some v) :
    waitInputLoop D true msec n samples = some v := by
  induction samples generalizing n with
  | nil => simp [firstNonEmpty] at hv
  | cons s rest ih =>
    have hs : s.menuShouldExit = false := hclear s (List.mem_cons_self _ _)
    have hrest : ∀ t ∈ rest, t.menuShouldExit = false :=
      fun t ht => hclear t (List.mem_cons_of_mem _ ht)
    obtain ⟨b, hb⟩ : ∃ b, (msec - n).toNat = b + 1 := ⟨(msec - n).toNat - 1, by omega⟩
    unfold waitInputLoop
    simp only [hs, Bool.not_true, Bool.or_false, Bool.false_eq_true, if_false, Bool.not_false,
      Bool.and_true]
    rw [hb, List.take_succ_cons, List.map_cons] at hv
    unfold firstNonEmpty at hv
    rw [List.find?_cons] at hv
    by_cases hk : inputValue D s = 0
    · have hneg : ¬ (msec < 0) := by omega
      simp only [hk, bne_self_eq_false] at hv
      simp only [hk, beq_self_eq_true, Bool.true_and, hneg, decide_False,
        Bool.false_or, decide_eq_true_eq]
      by_cases hnext : n + 1 < msec
      · rw [if_pos hnext]
        have hb' : (msec - (n + 1)).toNat = b := by omega
        apply ih (n + 1) hrest hnext
        rw [hb']
        exact hv
      · have : b = 0 := by omega
        subst this
        simp at hv
    · have hne : (inputValue D s != 0) = true := by simpa using hk
      have hbeq : (inputValue D s == 0) = false := by simpa using hk
      simp only [hne] at hv
      simp only [hbeq, Bool.false_and, Bool.false_eq_true, if_false]
      exact hv

theorem waitInputLoop_shutdown (D : Nat) (msec : Int) (before : List InputSample)
    (s : InputSample) (rest : List InputSample) (n : Int)
    (hbefore : ∀ t ∈ before, t.menuShouldExit = false ∧ inputValue D t = 0)
    (htime : msec < 0 ∨ n + before.length < msec) (hs : s.menuShouldExit = true) :
    waitInputLoop D true msec n (before ++ s :: rest) = some 0 := by
  induction before generalizing n with
  | nil => simp [waitInputLoop, hs]
  | cons t more ih =>
    obtain ⟨ht, hv⟩ := hbefore t (List.mem_cons_self _ _)
    have hmore : ∀ u ∈ more, u.menuShouldExit = false ∧ inputValue D u = 0 :=
      fun u hu => hbefore u (List.mem_cons_of_mem _ hu)
    rw [List.cons_append]
    unfold waitInputLoop
    simp only [ht, Bool.not_true, Bool.or_false, Bool.false_eq_true, if_false, Bool.not_false,
      Bool.and_true, hv, beq_self_eq_true, Bool.true_and]
    have hcont : (decide (msec < 0) || decide (n + 1 < msec)) = true := by
      simp only [List.length_cons, Nat.cast_add, Nat.cast_one] at htime
      rcases htime with h | h
      · simp [h]
      · have : n + 1 < msec := by omega
        simp [this]
    rw [if_pos hcont]
    apply ih (n + 1) hmore
    simp only [List.length_cons, Nat.cast_add, Nat.cast_one] at htime
    rcases htime with h | h
    · exact Or.inl h
    · exact Or.inr (by omega)

theorem stableFor_spec (hid : Bool) (temp : Nat) (i : Nat) :
    ∀ (keys : Nat) (exit : Bool) (samples : List HeldSample) (keys1 : Nat) (exit1 : Bool)
      (rest1 : List HeldSample),
      stableFor hid temp i keys exit samples = some (keys1, exit1, rest1) →
      ∃ consumed, samples = consumed ++ rest1 ∧
        (keys1 = keys ∨ (keys1 = temp ∧ consumed.length = i ∧
          ∀ s ∈ consumed, scanSample hid s = temp)) := by
  induction i with
  | zero =>
    intro keys exit samples keys1 exit1 rest1 h
    simp only [stableFor, Option.some.injEq, Prod.mk.injEq] at h
    exact ⟨[], by simp [h.2.2], Or.inl h.1.symm⟩
  | succ i ih =>
    intro keys exit samples keys1 exit1 rest1 h
    cases samples with
    | nil => simp [stableFor] at h
    | cons s rest =>
      unfold stableFor at h
      by_cases hne : (temp != scanSample hid s) = true
      · rw [if_pos hne] at h
        simp only [Option.some.injEq, Prod.mk.injEq] at h
        exact ⟨[s], by simp [h.2.2], Or.inl h.1.symm⟩
      · rw [if_neg hne] at h
        have heq : scanSample hid s = temp := by
          have : temp = scanSample hid s := by simpa using hne
          exact this.symm
        obtain ⟨consumed, hc, hk⟩ := ih _ _ _ _ _ _ h
        refine ⟨s :: consumed, by simp [hc], ?_⟩
        rcases hk with hk | ⟨hk1, hk2, hk3⟩
        · by_cases hi : i + 1 = 1
          · rw [if_pos hi] at hk
            have hi0 : i = 0 := by omega
            subst hi0
            simp only [stableFor, Option.some.injEq, Prod.mk.injEq] at h
            have hcons : consumed = [] := by
              have := hc
              rw [h.2.2] at this
              have hl := congrArg List.length this
              simp at hl
              exact hl
            subst hcons
            exact Or.inr ⟨hk, by simp, by simp [heq]⟩
          · rw [if_neg hi] at hk
            exact Or.inl hk
        · refine Or.inr ⟨hk1, by simp [hk2], ?_⟩
          intro t ht
          rcases List.mem_cons.mp ht with rfl | ht'
          · exact heq
          · exact hk3 t ht'

theorem stableIn_append_left (hid : Bool) (v : Nat) (front samples : List HeldSample)
    (h : StableIn hid v samples) : StableIn hid v (front ++ samples) := by
  obtain ⟨before, first, window, after, h1, h2, h3, h4⟩ := h
  exact ⟨front ++ before, first, window, after, by simp [h1], h2, h3, h4⟩

theorem captureLoop_spec (hid : Bool) (msec : Int) (fuel : Nat) :
    ∀ (n : Int) (keys : Nat) (samples : List HeldSample) (v : Nat),
      captureLoop hid msec fuel n keys samples = some v →
      v = keys ∨ StableIn hid v samples := by
  induction fuel with
  | zero => intro n keys samples v h; simp [captureLoop] at h
  | succ fuel ih =>
    intro n keys samples v h
    cases samples with
    | nil => simp [captureLoop] at h
    | cons s rest =>
      unfold captureLoop at h
      simp only at h
      cases hst : stableFor hid (scanSample hid s) 0x10000 keys s.menuShouldExit rest with
      | none => rw [hst] at h; simp at h
      | some r =>
        obtain ⟨keys1, exit1, rest1⟩ := r
        rw [hst] at h
        simp only at h
        obtain ⟨consumed, hc, hk⟩ := stableFor_spec hid _ _ _ _ _ _ _ _ hst
        have hkeys1 : keys1 = keys ∨ StableIn hid keys1 (s :: rest) := by
          rcases hk with hk | ⟨hk1, hk2, hk3⟩
          · exact Or.inl hk
          · exact Or.inr ⟨[], s, consumed, rest1, by simp [hc], hk2, hk1.symm,
              fun t ht => by rw [hk3 t ht, hk1]⟩
        have hvia : ∀ tail : List HeldSample, (∃ mid, rest1 = mid ++ tail) →
            (v = keys1 ∨ StableIn hid v tail) → v = keys ∨ StableIn hid v (s :: rest) := by
          intro tail ⟨mid, hmid⟩ hv
          rcases hv with hv | hv
          · rcases hkeys1 with hk' | hk'
            · exact Or.inl (hv.trans hk')
            · exact Or.inr (hv ▸ hk')
          · refine Or.inr ?_
            have := stableIn_append_left hid v (s :: consumed ++ mid) tail hv
            rw [hc, hmid]
            simpa [List.append_assoc] using this
        by_cases hz : keys1 = 0
        · rw [if_pos hz] at h
          split at h
          · exact hvia rest1 ⟨[], rfl⟩ (ih _ _ _ _ h)
          · exact hvia rest1 ⟨[], rfl⟩ (Or.inl (Option.some.inj h).symm)
        · rw [if_neg hz] at h
          cases rest1 with
          | nil => simp at h
          | cons s2 rest2 =>
            simp only at h
            split at h
            · exact hvia rest2 ⟨[s2], rfl⟩ (ih _ _ _ _ h)
            · exact hvia rest2 ⟨[s2], rfl⟩ (Or.inl (Option.some.inj h).symm)

theorem releaseWait_suffix (hid : Bool) (msec : Int) (samples : List HeldSample) :
    ∀ (n : Int) (n1 : Int) (exit : Bool) (rest : List HeldSample),
      releaseWait hid msec n samples = some (n1, exit, rest) →
      ∃ front, samples = front ++ rest := by
  induction samples with
  | nil => intro n n1 exit rest h; simp [releaseWait] at h
  | cons s tail ih =>
    intro n n1 exit rest h
    unfold releaseWait at h
    split at h
    · obtain ⟨front, hf⟩ := ih _ _ _ _ h
      exact ⟨s :: front, by simp [hf]⟩
    · simp only [Option.some.injEq, Prod.mk.injEq] at h
      exact ⟨[s], by simp [h.2.2]⟩

theorem waitComboWithTimeout_stable (hid : Bool) (msec : Int) (samples : List HeldSample)
    (v : Nat) (h : waitComboWithTimeout hid msec samples = some v) (hv : v ≠ 0) :
    StableIn hid v samples := by
  unfold waitComboWithTimeout at h
  cases hr : releaseWait hid msec 0 samples with
  | none => rw [hr] at h; simp at h
  | some r =>
    obtain ⟨n, exit, rest⟩ := r
    rw [hr] at h
    simp only at h
    obtain ⟨front, hf⟩ := releaseWait_suffix hid msec samples _ _ _ _ hr
    split at h
    · exact absurd (Option.some.inj h).symm hv
    · rcases captureLoop_spec hid msec _ _ _ _ _ h with h0 | hs
      · exact absurd h0 hv
      · rw [hf]; exact stableIn_append_left hid v front rest hs

theorem stableFor_accept (hid : Bool) (temp : Nat) (s : HeldSample)
    (hs : scanSample hid s = temp) (i : Nat) :
    ∀ (keys : Nat) (exit : Bool) (rest : List HeldSample),
      stableFor hid temp (i + 1) keys exit (List.replicate (i + 1) s ++ rest) =
        some (temp, s.menuShouldExit, rest) := by
  induction i with
  | zero =>
    intro keys exit rest
    simp [stableFor, hs]
  | succ i ih =>
    intro keys exit rest
    rw [List.replicate_succ, List.cons_append]
    unfold stableFor
    have : (temp != scanSample hid s) = false := by simp [hs]
    rw [this]
    simp only [Bool.false_eq_true, if_false]
    exact ih _ _ _

theorem stableFor_reject (hid : Bool) (temp : Nat) (window : List HeldSample) :
    ∀ (keys : Nat) (exit : Bool) (rest : List HeldSample),
      (∃ s ∈ window, scanSample hid s ≠ temp) →
      ∃ exit1 rest1, stableFor hid temp window.length keys exit (window ++ rest) =
        some (keys, exit1, rest1) := by
  induction window with
  | nil => intro keys exit rest ⟨s, hs, _⟩; cases hs
  | cons a w ih =>
    intro keys exit rest ⟨s, hs, hne⟩
    rw [List.length_cons, List.cons_append]
    unfold stableFor
    by_cases ha : (temp != scanSample hid a) = true
    · rw [if_pos ha]; exact ⟨_, _, rfl⟩
    · rw [if_neg ha]
      have haeq : scanSample hid a = temp := by
        have : temp = scanSample hid a := by simpa using ha
        exact this.symm
      have hsw : s ∈ w := by
        rcases List.mem_cons.mp hs with rfl | h
        · exact absurd haeq hne
        · exact h
      have hlen : w.length + 1 ≠ 1 := by
        have := List.length_pos_of_mem hsw
        omega
      rw [if_neg hlen]
      exact ih keys a.menuShouldExit rest ⟨s, hsw, hne⟩

theorem stableFor_accept_pos (hid : Bool) (temp : Nat) (s : HeldSample)
    (hs : scanSample hid s = temp) (i : Nat) (hi : 0 < i) (keys : Nat) (exit : Bool)
    (rest : List HeldSample) :
    stableFor hid temp i keys exit (List.replicate i s ++ rest) =
      some (temp, s.menuShouldExit, rest) := by
  obtain ⟨j, rfl⟩ : ∃ j, i = j + 1 := ⟨i - 1, by omega⟩
  exact stableFor_accept hid temp s hs j keys exit rest

/-- The run of `waitComboWithTimeout(1)` on a released sample, a sample of the
keys `A | B`, a window accepted by the read-back loop and a last sample. -/
theorem waitComboWithTimeout_after_window (w : List HeldSample) (last : HeldSample)
    (hst : stableFor true 3 0x10000 0 false (w ++ [last]) = some (3, false, [last])) :
    waitComboWithTimeout true 1 (heldSample 0 :: heldSample 3 :: (w ++ [last])) = some 3 := by
  have h0 : scanSample true (heldSample 0) = 0 := by decide
  have h3 : scanSample true (heldSample 3) = 3 := by decide
  have hr : releaseWait true 1 0 (heldSample 0 :: heldSample 3 :: (w ++ [last])) =
      some (0, false, heldSample 3 :: (w ++ [last])) := by
    unfold releaseWait
    rw [h0]; rfl
  unfold waitComboWithTimeout
  rw [hr]
  have hcond : (false || !true || !(decide ((1 : Int) < 0) || decide ((0 : Int) < 1))) = false := by
    decide
  simp only [hcond, Bool.false_eq_true, if_false, List.length_cons]
  unfold captureLoop
  simp only [h3]
  have hexit : (heldSample 3).menuShouldExit = false := rfl
  rw [hexit, hst]
  have hbudget : (decide ((1 : Int) < 0) || decide ((0 : Int) + 1 < 1)) = false := by decide
  simp [hbudget]

/-! ## Runs of the capture loop -/

theorem stableFor_all_equal (hid : Bool) (temp : Nat) :
    ∀ (window : List HeldSample) (keys : Nat) (exit : Bool) (rest : List HeldSample),
      (∀ s ∈ window, scanSample hid s = temp) →
      stableFor hid temp window.length keys exit (window ++ rest) =
        some (if window = [] then keys else temp,
          ((window.getLast?).map fun s => s.menuShouldExit).getD exit, rest) := by
  intro window
  induction window with
  | nil => intro keys exit rest _; simp [stableFor]
  | cons a w ih =>
    intro keys exit rest hall
    have ha : scanSample hid a = temp := hall a (List.mem_cons_self _ _)
    have hw : ∀ s ∈ w, scanSample hid s = temp := fun s hs => hall s (List.mem_cons_of_mem _ hs)
    rw [List.length_cons, List.cons_append]
    unfold stableFor
    have hc : (temp != scanSample hid a) = false := by simp [ha]
    rw [hc]
    simp only [Bool.false_eq_true, if_false]
    rw [ih _ _ _ hw]
    cases w with
    | nil => simp
    | cons b w2 =>
      obtain ⟨last, hl⟩ : ∃ last, (b :: w2).getLast? = some last :=
        ⟨_, List.getLast?_eq_getLast _ (by simp)⟩
      rw [List.getLast?_cons_cons, hl]
      simp

theorem stableFor_differs (hid : Bool) (temp : Nat) :
    ∀ (same : List HeldSample) (bad : HeldSample) (i keys : Nat) (exit : Bool)
      (rest : List HeldSample),
      same.length < i → (∀ s ∈ same, scanSample hid s = temp) → scanSample hid bad ≠ temp →
      stableFor hid temp i keys exit (same ++ bad :: rest) =
        some (keys, bad.menuShouldExit, rest) := by
  intro same
  induction same with
  | nil =>
    intro bad i keys exit rest hi _ hbad
    obtain ⟨j, rfl⟩ : ∃ j, i = j + 1 := ⟨i - 1, by simp at hi; omega⟩
    rw [List.nil_append]
    unfold stableFor
    have hc : (temp != scanSample hid bad) = true := by
      simp only [bne_iff_ne, ne_eq]
      exact fun h => hbad h.symm
    rw [if_pos hc]
  | cons a w ih =>
    intro bad i keys exit rest hi hall hbad
    have ha : scanSample hid a = temp := hall a (List.mem_cons_self _ _)
    have hw : ∀ s ∈ w, scanSample hid s = temp := fun s hs => hall s (List.mem_cons_of_mem _ hs)
    simp only [List.length_cons] at hi
    obtain ⟨j, rfl⟩ : ∃ j, i = j + 1 := ⟨i - 1, by omega⟩
    rw [List.cons_append]
    unfold stableFor
    have hc : (temp != scanSample hid a) = false := by simp [ha]
    rw [hc]
    simp only [Bool.false_eq_true, if_false]
    rw [if_neg (by omega)]
    exact ih bad j keys _ rest (by omega) hw hbad

theorem stableFor_cases (hid : Bool) (temp : Nat) :
    ∀ (i keys : Nat) (exit : Bool) (samples : List HeldSample) (keys1 : Nat) (exit1 : Bool)
      (rest1 : List HeldSample),
      stableFor hid temp i keys exit samples = some (keys1, exit1, rest1) →
      (∃ window, samples = window ++ rest1 ∧ window.length = i ∧
        (∀ s ∈ window, scanSample hid s = temp) ∧
        keys1 = (if window = [] then keys else temp) ∧
        exit1 = ((window.getLast?).map fun s => s.menuShouldExit).getD exit) ∨
      (∃ same bad, samples = same ++ bad :: rest1 ∧ same.length < i ∧
        (∀ s ∈ same, scanSample hid s = temp) ∧ scanSample hid bad ≠ temp ∧
        keys1 = keys ∧ exit1 = bad.menuShouldExit) := by
  intro i
  induction i with
  | zero =>
    intro keys exit samples keys1 exit1 rest1 h
    simp only [stableFor, Option.some.injEq, Prod.mk.injEq] at h
    obtain ⟨h1, h2, h3⟩ := h
    exact Or.inl ⟨[], by simp [h3], rfl, by simp, by simp [h1], by simp [h2]⟩
  | succ i ih =>
    intro keys exit samples keys1 exit1 rest1 h
    cases samples with
    | nil => simp [stableFor] at h
    | cons s rest =>
      unfold stableFor at h
      by_cases hne : (temp != scanSample hid s) = true
      · rw [if_pos hne] at h
        simp only [Option.some.injEq, Prod.mk.injEq] at h
        obtain ⟨h1, h2, h3⟩ := h
        refine Or.inr ⟨[], s, by simp [h3], by simp, by simp, ?_, h1.symm, h2.symm⟩
        simp only [bne_iff_ne, ne_eq] at hne
        exact fun e => hne e.symm
      · rw [if_neg hne] at h
        have heq : scanSample hid s = temp := by
          have : temp = scanSample hid s := by simpa using hne
          exact this.symm
        rcases ih _ _ _ _ _ _ h with ⟨w, hw1, hw2, hw3, hw4, hw5⟩ | ⟨same, bad, hs1, hs2, hs3, hs4, hs5, hs6⟩
        · refine Or.inl ⟨s :: w, by simp [hw1], by simp [hw2], ?_, ?_, ?_⟩
          · intro t ht
            rcases List.mem_cons.mp ht with rfl | ht2
            · exact heq
            · exact hw3 t ht2
          · rw [hw4]
            cases w with
            | nil =>
              have : i = 0 := by simpa using hw2.symm
              subst this
              simp
            | cons b w2 => simp
          · rw [hw5]
            cases w with
            | nil => simp
            | cons b w2 =>
              obtain ⟨last, hl⟩ : ∃ last, (b :: w2).getLast? = some last :=
                ⟨_, List.getLast?_eq_getLast _ (by simp)⟩
              rw [List.getLast?_cons_cons, hl]
              simp
        · refine Or.inr ⟨s :: same, bad, by simp [hs1], by simp; omega, ?_, hs4, ?_, hs6⟩
          · intro t ht
            rcases List.mem_cons.mp ht with rfl | ht2
            · exact heq
            · exact hs3 t ht2
          · rw [hs5, if_neg (by omega)]

theorem accepted_iff (it : CaptureIteration) :
    it.accepted = true ↔ it.readBacks.length = 0x10000 ∧
      ∀ s ∈ it.readBacks, scanSample true s = scanSample true it.candidate := by
  unfold CaptureIteration.accepted
  rw [Bool.and_eq_true, beq_iff_eq, List.all_eq_true]
  constructor
  · intro ⟨h1, h2⟩
    exact ⟨h1, fun s hs => by simpa using h2 s hs⟩
  · intro ⟨h1, h2⟩
    exact ⟨h1, fun s hs => by simpa using h2 s hs⟩

theorem rejected_not_accepted (it : CaptureIteration) (h : it.Rejected) :
    it.accepted = false := by
  obtain ⟨same, bad, h1, _, _, h4⟩ := h
  cases hacc : it.accepted with
  | false => rfl
  | true =>
    obtain ⟨_, hall⟩ := (accepted_iff it).mp hacc
    exact absurd (hall bad (by rw [h1]; simp)) h4

theorem stableFor_iteration (it : CaptureIteration) (keys : Nat) (tail : List HeldSample)
    (hwf : it.accepted = true ∨ it.Rejected) :
    stableFor true (scanSample true it.candidate) 0x10000 keys it.candidate.menuShouldExit
        (it.readBacks ++ tail) =
      some (it.keysAfter keys,
        ((it.readBacks.getLast?).map fun s => s.menuShouldExit).getD
          it.candidate.menuShouldExit, tail) := by
  rcases hwf with hacc | hrej
  · obtain ⟨hlen, hall⟩ := (accepted_iff it).mp hacc
    have h := stableFor_all_equal true (scanSample true it.candidate) it.readBacks keys
      it.candidate.menuShouldExit tail hall
    have hne : it.readBacks ≠ [] := by
      intro hnil
      rw [hnil] at hlen
      exact absurd hlen (by decide)
    rw [hlen, if_neg hne] at h
    rw [h]
    unfold CaptureIteration.keysAfter
    rw [if_pos hacc]
  · have hacc := rejected_not_accepted it hrej
    obtain ⟨same, bad, h1, h2, h3, h4⟩ := hrej
    have h := stableFor_differs true (scanSample true it.candidate) same bad 0x10000 keys
      it.candidate.menuShouldExit tail h2 h3 h4
    rw [h1, List.append_assoc, List.singleton_append, h]
    unfold CaptureIteration.keysAfter
    rw [hacc]
    simp

/-- One iteration of the capture loop on the samples of a described
iteration. -/
theorem captureLoop_iteration (msec : Int) (it : CaptureIteration) (fuel : Nat) (n : Int)
    (keys : Nat) (tail : List HeldSample) (hwf : it.accepted = true ∨ it.Rejected)
    (hcheck : it.check.isSome = (it.keysAfter keys != 0)) :
    captureLoop true msec (fuel + 1) n keys (it.samples ++ tail) =
      if it.continues msec (n + 1) = true then
        captureLoop true msec fuel (n + 1) (it.keysAfter keys) tail
      else some (it.keysAfter keys) := by
  unfold CaptureIteration.samples
  rw [List.cons_append, List.append_assoc]
  conv_lhs => unfold captureLoop
  simp only
  rw [stableFor_iteration it keys _ hwf]
  simp only
  cases hc : it.check with
  | none =>
    rw [hc] at hcheck
    have hz : it.keysAfter keys = 0 := by simpa using hcheck.symm
    rw [if_pos hz]
    simp only [Option.toList_none, List.nil_append]
    unfold CaptureIteration.continues CaptureIteration.shutdown
    rw [hc]
    simp only [Bool.true_and, Bool.and_true]
    cases it.readBacks.getLast? <;> simp [hz]
  | some held =>
    rw [hc] at hcheck
    have hz : it.keysAfter keys ≠ 0 := by simpa using hcheck.symm
    rw [if_neg hz]
    simp only [Option.toList_some, List.singleton_append]
    unfold CaptureIteration.continues CaptureIteration.shutdown
    rw [hc]
    simp only [Bool.and_true, Bool.and_assoc]

theorem captureRun_ne_nil (msec : Int) (n : Int) (keys : Nat) (its : List CaptureIteration)
    (h : CaptureRun msec n keys its) : its ≠ [] := by
  intro hnil
  subst hnil
  exact h

theorem captureLoop_run (msec : Int) :
    ∀ (its : List CaptureIteration) (fuel : Nat) (n : Int) (keys : Nat) (rest : List HeldSample),
      CaptureRun msec n keys its → its.length ≤ fuel →
      captureLoop true msec fuel n keys (its.flatMap CaptureIteration.samples ++ rest) =
        some (its.foldl (fun k it => it.keysAfter k) keys) := by
  intro its
  induction its with
  | nil => intro fuel n keys rest h _; exact absurd h (by simp [CaptureRun])
  | cons it more ih =>
    intro fuel n keys rest h hfuel
    obtain ⟨f, rfl⟩ : ∃ f, fuel = f + 1 := ⟨fuel - 1, by simp at hfuel; omega⟩
    rw [List.flatMap_cons, List.append_assoc, List.foldl_cons]
    cases more with
    | nil =>
      obtain ⟨hwf, hcheck, hstop⟩ := h
      rw [captureLoop_iteration msec it f n keys _ hwf hcheck, hstop]
      simp
    | cons next more2 =>
      obtain ⟨hwf, hcheck, hcont, hrun⟩ := h
      rw [captureLoop_iteration msec it f n keys _ hwf hcheck, if_pos hcont]
      exact ih f (n + 1) _ rest hrun (by simp at hfuel ⊢; omega)

theorem foldl_keysAfter (its : List CaptureIteration) :
    ∀ keys : Nat, its.foldl (fun k it => it.keysAfter k) keys =
      (((its.filter fun it => it.accepted).getLast?).map fun it =>
        scanSample true it.candidate).getD keys := by
  induction its with
  | nil => intro keys; simp
  | cons it more ih =>
    intro keys
    rw [List.foldl_cons, ih, List.filter_cons]
    unfold CaptureIteration.keysAfter
    cases hacc : it.accepted with
    | false => simp
    | true =>
      simp only [if_true]
      cases hl : (more.filter fun it => it.accepted) with
      | nil => simp
      | cons b l2 =>
        obtain ⟨last, hlast⟩ : ∃ last, (b :: l2).getLast? = some last :=
          ⟨_, List.getLast?_eq_getLast _ (by simp)⟩
        rw [List.getLast?_cons_cons, hlast]
        simp

theorem lastAccepted_eq_foldl (its : List CaptureIteration) :
    lastAccepted its = its.foldl (fun k it => it.keysAfter k) 0 := by
  rw [foldl_keysAfter]; rfl

theorem scanSample_ne_zero (s : HeldSample) (h : scanSample true s ≠ 0) :
    s.menuShouldExit = false := by
  cases hs : s.menuShouldExit with
  | false => rfl
  | true =>
    exfalso
    apply h
    simp [scanSample, scanHeldKeysWith, hs]

theorem releaseWait_held (msec : Int) :
    ∀ (held : List HeldSample) (stop : HeldSample) (rest : List HeldSample) (n : Int),
      (∀ s ∈ held, scanSample true s ≠ 0) → (msec < 0 ∨ n + held.length ≤ msec) →
      (scanSample true stop = 0 ∨ ¬ (msec < 0 ∨ n + held.length < msec)) →
      releaseWait true msec n (held ++ stop :: rest) =
        some (n + held.length, stop.menuShouldExit, rest) := by
  intro held
  induction held with
  | nil =>
    intro stop rest n _ _ hstop
    rw [List.nil_append]
    unfold releaseWait
    have hc : (scanSample true stop != 0 && !stop.menuShouldExit && true
        && (decide (msec < 0) || decide (n < msec))) = false := by
      rcases hstop with h | h
      · simp [h]
      · simp only [List.length_nil, Nat.cast_zero, add_zero] at h
        have h1 : ¬ (msec < 0) := fun h' => h (Or.inl h')
        have h2 : ¬ (n < msec) := fun h' => h (Or.inr h')
        simp [h1, h2]
    rw [hc]
    simp
  | cons a w ih =>
    intro stop rest n hheld htime hstop
    have ha := hheld a (List.mem_cons_self _ _)
    have hw : ∀ s ∈ w, scanSample true s ≠ 0 := fun s hs => hheld s (List.mem_cons_of_mem _ hs)
    have haexit := scanSample_ne_zero a ha
    simp only [List.length_cons, Nat.cast_add, Nat.cast_one] at htime hstop
    rw [List.cons_append]
    unfold releaseWait
    have hc : (scanSample true a != 0 && !a.menuShouldExit && true
        && (decide (msec < 0) || decide (n < msec))) = true := by
      have h1 : (scanSample true a != 0) = true := by simpa using ha
      rw [h1, haexit]
      rcases htime with h | h
      · simp [h]
      · have : n < msec := by omega
        simp [this]
    rw [if_pos hc]
    have := ih stop rest (n + 1) hw
      (by rcases htime with h | h
          · exact Or.inl h
          · exact Or.inr (by omega))
      (by rcases hstop with h | h
          · exact Or.inl h
          · refine Or.inr ?_
            intro h'
            apply h
            rcases h' with h' | h'
            · exact Or.inl h'
            · exact Or.inr (by omega))
    rw [this]
    simp only [List.length_cons, Nat.cast_add, Nat.cast_one]
    congr 2
    omega

theorem releaseWait_cases (msec : Int) :
    ∀ (samples : List HeldSample) (n n1 : Int) (exit : Bool) (rest : List HeldSample),
      releaseWait true msec n samples = some (n1, exit, rest) →
      ∃ held stop, samples = held ++ stop :: rest ∧ n1 = n + held.length ∧
        exit = stop.menuShouldExit ∧ (∀ s ∈ held, scanSample true s ≠ 0) ∧
        (scanSample true stop = 0 ∨ ¬ (msec < 0 ∨ n1 < msec)) := by
  intro samples
  induction samples with
  | nil => intro n n1 exit rest h; simp [releaseWait] at h
  | cons s tail ih =>
    intro n n1 exit rest h
    unfold releaseWait at h
    by_cases hc : (scanSample true s != 0 && !s.menuShouldExit && true
        && (decide (msec < 0) || decide (n < msec))) = true
    · rw [if_pos hc] at h
      obtain ⟨held, stop, h1, h2, h3, h4, h5⟩ := ih _ _ _ _ h
      refine ⟨s :: held, stop, by simp [h1], by simp [h2]; omega, h3, ?_, h5⟩
      intro t ht
      rcases List.mem_cons.mp ht with rfl | ht2
      · simp only [Bool.and_true, Bool.and_eq_true, bne_iff_ne, ne_eq] at hc
        exact hc.1.1
      · exact h4 t ht2
    · rw [if_neg hc] at h
      simp only [Option.some.injEq, Prod.mk.injEq] at h
      obtain ⟨h1, h2, h3⟩ := h
      refine ⟨[], s, by simp [h3], by simp [h1], h2.symm, by simp, ?_⟩
      subst h1
      by_cases hz : scanSample true s = 0
      · exact Or.inl hz
      · right
        have hsexit := scanSample_ne_zero s hz
        intro htime
        apply hc
        have h1 : (scanSample true s != 0) = true := by simpa using hz
        rw [h1, hsexit]
        rcases htime with h | h
        · simp [h]
        · simp [h]

theorem captureLoop_cases (msec : Int) :
    ∀ (fuel : Nat) (n : Int) (keys : Nat) (samples : List HeldSample) (v : Nat),
      captureLoop true msec fuel n keys samples = some v →
      ∃ its rest, samples = its.flatMap CaptureIteration.samples ++ rest ∧
        CaptureRun msec n keys its ∧ v = its.foldl (fun k it => it.keysAfter k) keys := by
  intro fuel
  induction fuel with
  | zero => intro n keys samples v h; simp [captureLoop] at h
  | succ fuel ih =>
    intro n keys samples v h
    cases samples with
    | nil => simp [captureLoop] at h
    | cons s rest =>
      have hfind : ∃ (it : CaptureIteration) (tail : List HeldSample),
          s :: rest = it.samples ++ tail ∧ (it.accepted = true ∨ it.Rejected) ∧
          it.check.isSome = (it.keysAfter keys != 0) := by
        have h' := h
        unfold captureLoop at h'
        simp only at h'
        cases hst : stableFor true (scanSample true s) 0x10000 keys s.menuShouldExit rest with
        | none => rw [hst] at h'; simp at h'
        | some r =>
          obtain ⟨keys1, exit1, rest1⟩ := r
          rw [hst] at h'
          simp only at h'
          have hshape : ∃ readBacks : List HeldSample, rest = readBacks ++ rest1 ∧
              ∀ held : Option HeldSample,
                ((CaptureIteration.mk s readBacks held).accepted = true ∨
                  (CaptureIteration.mk s readBacks held).Rejected) ∧
                (CaptureIteration.mk s readBacks held).keysAfter keys = keys1 := by
            rcases stableFor_cases true _ _ _ _ _ _ _ _ hst with
              ⟨w, hw1, hw2, hw3, hw4, _⟩ | ⟨same, bad, hs1, hs2, hs3, hs4, hs5, _⟩
            · refine ⟨w, hw1, fun held => ?_⟩
              have hacc : (CaptureIteration.mk s w held).accepted = true :=
                (accepted_iff _).mpr ⟨hw2, hw3⟩
              have hne : w ≠ [] := by
                intro hnil
                rw [hnil] at hw2
                exact absurd hw2 (by decide)
              refine ⟨Or.inl hacc, ?_⟩
              unfold CaptureIteration.keysAfter
              rw [if_pos hacc, hw4, if_neg hne]
            · refine ⟨same ++ [bad], by simp [hs1], fun held => ?_⟩
              have hrej : (CaptureIteration.mk s (same ++ [bad]) held).Rejected :=
                ⟨same, bad, rfl, hs2, hs3, hs4⟩
              refine ⟨Or.inr hrej, ?_⟩
              unfold CaptureIteration.keysAfter
              rw [rejected_not_accepted _ hrej, hs5]
              simp
          obtain ⟨readBacks, hrb, hit⟩ := hshape
          by_cases hz : keys1 = 0
          · refine ⟨CaptureIteration.mk s readBacks none, rest1, ?_, (hit none).1, ?_⟩
            · simp [CaptureIteration.samples, hrb]
            · rw [(hit none).2]; simp [hz]
          · rw [if_neg hz] at h'
            cases rest1 with
            | nil => simp at h'
            | cons s2 rest2 =>
              refine ⟨CaptureIteration.mk s readBacks (some s2), rest2, ?_, (hit (some s2)).1, ?_⟩
              · simp [CaptureIteration.samples, hrb]
              · rw [(hit (some s2)).2]; simp [hz]
      obtain ⟨it, tail, hsplit, hwf, hcheck⟩ := hfind
      rw [hsplit, captureLoop_iteration msec it fuel n keys tail hwf hcheck] at h
      by_cases hcont : it.continues msec (n + 1) = true
      · rw [if_pos hcont] at h
        obtain ⟨its, rest2, h1, h2, h3⟩ := ih _ _ _ _ h
        cases its with
        | nil => exact absurd h2 (by simp [CaptureRun])
        | cons next more =>
          refine ⟨it :: next :: more, rest2, ?_, ⟨hwf, hcheck, hcont, h2⟩, ?_⟩
          · rw [hsplit, h1]
            simp only [List.flatMap_cons, List.append_assoc]
          · rw [List.foldl_cons]; exact h3
      · rw [if_neg hcont] at h
        refine ⟨[it], tail, ?_, ⟨hwf, hcheck, by simpa using hcont⟩, ?_⟩
        · rw [hsplit]; simp
        · simp only [List.foldl_cons, List.foldl_nil]
          exact (Option.some.inj h).symm

/-- The function `waitComboWithTimeout` on the samples of a described call. -/
theorem waitComboWithTimeout_call (msec : Int) (c : ComboCall) (h : c.Valid msec) :
    waitComboWithTimeout true msec c.samples = some (lastAccepted c.iterations) := by
  obtain ⟨hheld, hfree, hexit, htime, hrun⟩ := h
  unfold waitComboWithTimeout ComboCall.samples
  have hr := releaseWait_held msec c.held c.free
    (c.iterations.flatMap CaptureIteration.samples ++ c.unread) 0 hheld
    (by rcases htime with h | h
        · exact Or.inl h
        · exact Or.inr (by omega))
    (Or.inl hfree)
  rw [hr]
  simp only [zero_add]
  have hgate : (c.free.menuShouldExit || !true ||
      !(decide (msec < 0) || decide ((c.held.length : Int) < msec))) = false := by
    rw [hexit]
    rcases htime with h | h
    · simp [h]
    · simp [h]
  rw [hgate]
  simp only [Bool.false_eq_true, if_false]
  rw [lastAccepted_eq_foldl]
  apply captureLoop_run msec c.iterations _ _ 0 c.unread hrun
  rw [List.length_append]
  have hlen : ∀ its : List CaptureIteration,
      its.length ≤ (its.flatMap CaptureIteration.samples).length := by
    intro its
    induction its with
    | nil => simp
    | cons it more ih =>
      rw [List.flatMap_cons, List.length_append, List.length_cons]
      simp only [CaptureIteration.samples, List.length_cons]
      omega
  have := hlen c.iterations
  omega

/-- Every result of `waitComboWithTimeout` arises in the wait for release or
from a described call. -/
theorem waitComboWithTimeout_cases (msec : Int) (samples : List HeldSample) (v : Nat)
    (h : waitComboWithTimeout true msec samples = some v) :
    (v = 0 ∧ ∃ (held : List HeldSample) (stop : HeldSample) (rest : List HeldSample),
      samples = held ++ stop :: rest ∧ (∀ s ∈ held, scanSample true s ≠ 0) ∧
      (stop.menuShouldExit = true ∨ ¬ (msec < 0 ∨ (held.length : Int) < msec))) ∨
    (∃ c : ComboCall, c.samples = samples ∧ c.Valid msec ∧ v = lastAccepted c.iterations) := by
  unfold waitComboWithTimeout at h
  cases hr : releaseWait true msec 0 samples with
  | none => rw [hr] at h; simp at h
  | some r =>
    obtain ⟨n, exit, rest⟩ := r
    rw [hr] at h
    simp only at h
    obtain ⟨held, stop, h1, h2, h3, h4, h5⟩ := releaseWait_cases msec samples 0 n exit rest hr
    simp only [zero_add] at h2
    subst h2 h3
    by_cases hgate : (stop.menuShouldExit || !true ||
        !(decide (msec < 0) || decide ((held.length : Int) < msec))) = true
    · rw [if_pos hgate] at h
      left
      refine ⟨(Option.some.inj h).symm, held, stop, rest, h1, h4, ?_⟩
      simp only [Bool.not_true, Bool.or_false, Bool.or_eq_true, Bool.not_eq_true',
        decide_eq_false_iff_not, not_lt, Bool.or_eq_false_iff, decide_eq_true_eq] at hgate
      rcases hgate with hg | hg
      · exact Or.inl hg
      · right
        intro ht
        rcases ht with ht | ht <;> omega
    · rw [if_neg hgate] at h
      right
      simp only [Bool.not_true, Bool.or_false, Bool.or_eq_true, Bool.not_eq_true',
        decide_eq_false_iff_not, not_lt, Bool.or_eq_false_iff, decide_eq_true_eq, not_or,
        Bool.not_eq_true, not_and, not_le] at hgate
      obtain ⟨hexit, htime⟩ := hgate
      have htime' : msec < 0 ∨ (held.length : Int) < msec := by
        by_cases hneg : msec < 0
        · exact Or.inl hneg
        · exact Or.inr (htime (by omega))
      have hfree : scanSample true stop = 0 := by
        rcases h5 with h5 | h5
        · exact h5
        · exact absurd htime' h5
      obtain ⟨its, rest2, e1, e2, e3⟩ := captureLoop_cases msec _ _ _ _ _ h
      refine ⟨ComboCall.mk held stop its rest2, ?_, ⟨h4, hfree, hexit, htime', e2⟩, ?_⟩
      · simp only [ComboCall.samples]
        rw [h1, e1]
      · rw [lastAccepted_eq_foldl]; exact e3

theorem accepted_replicate (s : HeldSample) (held : Option HeldSample) :
    (CaptureIteration.mk s (List.replicate 0x10000 s) held).accepted = true := by
  rw [accepted_iff]
  refine ⟨List.length_replicate _ _, ?_⟩
  intro t ht
  rw [List.eq_of_mem_replicate ht]

theorem timeoutCall_valid : timeoutCall.Valid 2 := by
  have hacc := accepted_replicate (heldSample 3) (some (heldSample 3))
  refine ⟨by decide, by decide, rfl, by decide, Or.inl hacc, ?_, by decide⟩
  unfold CaptureIteration.keysAfter
  rw [if_pos hacc]
  decide

theorem lastAccepted_of_last (its : List CaptureIteration) (it : CaptureIteration)
    (hlast : its.getLast? = some it) (hacc : it.accepted = true) :
    lastAccepted its = scanSample true it.candidate := by
  obtain ⟨front, rfl⟩ := List.getLast?_eq_some_iff.mp hlast
  unfold lastAccepted
  rw [List.filter_append]
  simp [List.filter_cons, hacc]

theorem lastAccepted_of_none (its : List CaptureIteration)
    (h : ∀ it ∈ its, it.accepted = true → scanSample true it.candidate = 0) :
    lastAccepted its = 0 := by
  unfold lastAccepted
  cases hl : (its.filter fun it => it.accepted).getLast? with
  | none => rfl
  | some it =>
    have hmem : it ∈ its.filter fun it => it.accepted := List.mem_of_getLast?_eq_some hl
    obtain ⟨h1, h2⟩ := List.mem_filter.mp hmem
    simp only [Option.map_some', Option.getD_some]
    exact h it h1 h2

/-! ## Back-stack lemmas -/

theorem first_item_of_empty_menu (menu : Menu) (item : MenuItem)
    (h : menuCountItems menu = some 0) (hitem : menu.items[0]? = some item) :
    item.action_type = MenuItemAction.MENU_END := by
  unfold menuCountItems at h
  cases hitems : menu.items with
  | nil => rw [hitems] at hitem; simp at hitem
  | cons a rest =>
    rw [hitems] at h hitem
    simp only [List.getElem?_cons_zero, Option.some.injEq] at hitem
    subst hitem
    unfold menuCountItemsLoop at h
    by_contra hne
    rw [if_neg hne] at h
    have := (menuCountItemsLoop_bounds rest 1 0 h).1
    omega

/-- The clamp of `selectedItem` at the end of the loop body. -/
theorem clamp_in_range (sel : Int) (n : Nat) :
    let clamped : Int := if sel < 0 then (n : Int) - 1 else if sel ≥ (n : Int) then 0 else sel
    (0 ≤ clamped ∧ clamped < (n : Int)) ∨ (n = 0 ∧ (clamped = 0 ∨ clamped = -1)) := by
  intro clamped
  show (0 ≤ (if sel < 0 then (n : Int) - 1 else if sel ≥ (n : Int) then 0 else sel) ∧
    (if sel < 0 then (n : Int) - 1 else if sel ≥ (n : Int) then 0 else sel) < (n : Int)) ∨
    (n = 0 ∧ ((if sel < 0 then (n : Int) - 1 else if sel ≥ (n : Int) then 0 else sel) = 0 ∨
      (if sel < 0 then (n : Int) - 1 else if sel ≥ (n : Int) then 0 else sel) = -1))
  by_cases hn : n = 0
  · subst hn
    right
    refine ⟨rfl, ?_⟩
    split
    · right; simp
    · split
      · left; rfl
      · omega
  · left
    split
    · omega
    · split <;> omega

theorem finishIteration_running (P : Nat) (mem : MenuPtr → Option Menu) (t s1 : ShowState)
    (exit : Bool) (h : finishIteration P mem t exit = Outcome.running s1) :
    ∃ menu n, mem t.currentMenu = some menu ∧ menuCountItems menu = some n ∧ exit = false ∧
      s1.currentMenu = t.currentMenu ∧ s1.nbPreviousMenus = t.nbPreviousMenus ∧
      s1.previousMenus = t.previousMenus ∧
      s1.previousSelectedItems = t.previousSelectedItems ∧
      s1.numItems = toS32 n ∧
      s1.selectedItem = (if t.selectedItem < 0 then toS32 n - 1
        else if t.selectedItem ≥ toS32 n then 0 else t.selectedItem) := by
  unfold finishIteration at h
  cases hm : mem t.currentMenu with
  | none => rw [hm] at h; simp at h
  | some menu =>
    rw [hm] at h
    simp only at h
    cases hc : menuCountItems menu with
    | none => rw [hc] at h; simp at h
    | some n =>
      rw [hc] at h
      simp only at h
      cases hdraw : menuDraw menu (if t.selectedItem < 0 then toS32 n - 1
          else if t.selectedItem ≥ toS32 n then 0 else t.selectedItem) with
      | none => rw [hdraw] at h; simp at h
      | some u =>
        rw [hdraw] at h
        cases exit with
        | true => simp at h
        | false =>
          simp only [Bool.false_eq_true, if_false, Outcome.running.injEq] at h
          subst h
          exact ⟨menu, n, rfl, hc, rfl, rfl, rfl, rfl, rfl, rfl, rfl⟩

theorem finishIteration_runs (P : Nat) (mem : MenuPtr → Option Menu) (t : ShowState)
    (menu : Menu) (n : Nat) (hm : mem t.currentMenu = some menu)
    (hc : menuCountItems menu = some n) (hn : n < 2147483648) (hsel : 0 ≤ t.selectedItem) :
    ∃ s1, finishIteration P mem t false = Outcome.running s1 := by
  unfold finishIteration
  rw [hm]; simp only [hc]
  rw [toS32_small n hn, if_neg (by omega)]
  have hd : menuDraw menu (if t.selectedItem ≥ (n : Int) then 0 else t.selectedItem) =
      some () := by
    apply menuDraw_defined menu n _ hc
    · split <;> omega
    · split <;> omega
  rw [hd]
  exact ⟨_, rfl⟩

set_option maxRecDepth 100000 in
/-- On an empty menu `KEY_RIGHT` leaves `selectedItem = -1`, and `menuDraw`
reads `items[-1]`. -/
theorem menuShowStep_right_on_empty_menu :
    menuShowStep 5 (sampleMem (sampleMenu [])) 0 (sampleState 0 0 0) (pressedOnly KEY_RIGHT) =
      Outcome.fault := by
  decide

theorem backStack_congr (s t : ShowState) (h1 : t.nbPreviousMenus = s.nbPreviousMenus)
    (h2 : t.previousMenus = s.previousMenus)
    (h3 : t.previousSelectedItems = s.previousSelectedItems) : backStack t = backStack s := by
  unfold backStack; rw [h1, h2, h3]

theorem toS32_toU32 (sel : Int) (h0 : 0 ≤ sel) (h1 : sel < 2147483648) :
    toS32 (toU32 sel) = sel := by
  unfold toU32
  have h : (sel % 4294967296).toNat = sel.toNat := by omega
  rw [h, toS32_small _ (by omega)]
  omega
theorem menuShowStep_running (P : Nat) (mem : MenuPtr → Option Menu) (menuCombo : Nat)
    (s s1 : ShowState) (input : LoopInput) (hP : 0 < P)
    (h : menuShowStep P mem menuCombo s input = Outcome.running s1) :
    ∃ t, dispatchKey P (mem s.currentMenu) (afterComboTest menuCombo s input) input =
        Outcome.running t ∧
      finishIteration P mem t input.menuShouldExit = Outcome.running s1 := by
  rw [menuShowStep_eq P mem menuCombo s input hP] at h
  cases hd : dispatchKey P (mem s.currentMenu) (afterComboTest menuCombo s input) input with
  | running t => rw [hd] at h; exact ⟨t, rfl, h⟩
  | left t => rw [hd] at h; simp at h
  | fault => rw [hd] at h; simp at h
  | hangs => rw [hd] at h; simp at h

theorem keyA_running (menu : Menu) (s t : ShowState) (h : keyA menu s = Outcome.running t) :
    ∃ item, itemAt menu s.selectedItem = some item ∧
      ((item.action_type = MenuItemAction.METHOD ∧ t = s) ∨
        (item.action_type = MenuItemAction.MENU ∧ s.nbPreviousMenus < 0x80 ∧
          t = pushed s item.menu)) := by
  unfold keyA at h
  cases hi : itemAt menu s.selectedItem with
  | none => rw [hi] at h; simp at h
  | some item =>
    rw [hi] at h
    simp only at h
    refine ⟨item, rfl, ?_⟩
    cases ht : item.action_type with
    | MENU_END => rw [ht] at h; simp at h
    | METHOD =>
      rw [ht] at h
      simp only [Outcome.running.injEq] at h
      exact Or.inl ⟨rfl, h.symm⟩
    | MENU =>
      rw [ht] at h
      simp only at h
      by_cases hnb : s.nbPreviousMenus < 0x80
      · rw [if_pos hnb] at h
        simp only [Outcome.running.injEq] at h
        exact Or.inr ⟨rfl, hnb, h.symm⟩
      · rw [if_neg hnb] at h; simp at h

theorem keyB_running (s t : ShowState) (heldB : List Nat)
    (h : keyB s heldB = Outcome.running t) :
    0 < s.nbPreviousMenus ∧ ∃ m k, s.previousMenus[s.nbPreviousMenus - 1]? = some m ∧
      s.previousSelectedItems[s.nbPreviousMenus - 1]? = some k ∧
      t = { s with nbPreviousMenus := s.nbPreviousMenus - 1, currentMenu := m,
                   selectedItem := toS32 k } := by
  unfold keyB at h
  split at h
  · simp at h
  · split at h
    · rename_i hpos
      simp only at h
      cases hm : s.previousMenus[s.nbPreviousMenus - 1]? with
      | none => rw [hm] at h; simp at h
      | some m =>
        cases hk : s.previousSelectedItems[s.nbPreviousMenus - 1]? with
        | none => rw [hm, hk] at h; simp at h
        | some k =>
          rw [hm, hk] at h
          simp only [Outcome.running.injEq] at h
          exact ⟨hpos, m, k, rfl, rfl, h.symm⟩
    · simp at h

theorem dispatchKey_other_running (P : Nat) (menu? : Option Menu) (s t : ShowState)
    (input : LoopInput) (hA : keyTest input.pressed KEY_A = false)
    (hB : keyTest input.pressed KEY_B = false)
    (h : dispatchKey P menu? s input = Outcome.running t) :
    t.currentMenu = s.currentMenu ∧ t.nbPreviousMenus = s.nbPreviousMenus ∧
      t.previousMenus = s.previousMenus ∧ t.previousSelectedItems = s.previousSelectedItems := by
  unfold dispatchKey at h
  simp only [hA, hB, Bool.false_eq_true, if_false] at h
  have key : ∀ r : Option Int,
      (match r with
        | none => Outcome.fault
        | some selectedItem => Outcome.running { s with selectedItem := selectedItem }) =
        Outcome.running t →
      t.currentMenu = s.currentMenu ∧ t.nbPreviousMenus = s.nbPreviousMenus ∧
        t.previousMenus = s.previousMenus ∧
        t.previousSelectedItems = s.previousSelectedItems := by
    intro r hr
    cases r with
    | none => simp at hr
    | some j =>
      simp only [Outcome.running.injEq] at hr
      subst hr
      exact ⟨rfl, rfl, rfl, rfl⟩
  cases menu? with
  | none =>
    simp only at h
    split at h
    · simp at h
    · split at h
      · simp at h
      · split at h
        · simp at h
        · split at h
          · simp at h
          · simp only [Outcome.running.injEq] at h
            subst h
            exact ⟨rfl, rfl, rfl, rfl⟩
  | some menu =>
    simp only at h
    split at h
    · exact key _ h
    · split at h
      · exact key _ h
      · split at h
        · exact key _ h
        · split at h
          · exact key _ h
          · simp only [Outcome.running.injEq] at h
            subst h
            exact ⟨rfl, rfl, rfl, rfl⟩
theorem getD_set_ne {α : Type} (l : List α) (i j : Nat) (a d : α) (h : i ≠ j) :
    (l.set i a).getD j d = l.getD j d := by
  rw [List.getD_eq_getElem?_getD, List.getD_eq_getElem?_getD, List.getElem?_set, if_neg h]

theorem getD_set_self {α : Type} (l : List α) (i : Nat) (a d : α) (h : i < l.length) :
    (l.set i a).getD i d = a := by
  rw [List.getD_eq_getElem?_getD, List.getElem?_set, if_pos rfl, if_pos h]; rfl

theorem getD_of_getElem? {α : Type} (l : List α) (i : Nat) (a d : α) (h : l[i]? = some a) :
    l.getD i d = a := by
  rw [List.getD_eq_getElem?_getD, h]; rfl

theorem backStackInv_of_finish (P : Nat) (mem : MenuPtr → Option Menu) (root : MenuPtr)
    (hsize : ∀ p menu, mem p = some menu → menu.items.length < 2147483648)
    (t s1 : ShowState) (exit : Bool)
    (h1 : t.previousMenus.length = 0x80) (h2 : t.previousSelectedItems.length = 0x80)
    (h3 : t.nbPreviousMenus ≤ 0x80)
    (h4 : ∀ i, i < t.nbPreviousMenus → ∃ menu n, mem (t.previousMenus.getD i 0) = some menu ∧
      menuCountItems menu = some n ∧ t.previousSelectedItems.getD i 0 < n)
    (h5 : (if t.nbPreviousMenus = 0 then t.currentMenu else t.previousMenus.getD 0 0) = root)
    (hf : finishIteration P mem t exit = Outcome.running s1) :
    BackStackInv mem root s1 ∧ backStack s1 = backStack t := by
  obtain ⟨menu, n, hm, hc, _, e1, e2, e3, e4, e5, e6⟩ := finishIteration_running P mem t s1 exit hf
  have hn : n < 2147483648 := by
    have := menuCountItems_lt_length menu n hc
    have := hsize _ _ hm
    omega
  rw [toS32_small n hn] at e5 e6
  refine ⟨⟨by rw [e3]; exact h1, by rw [e4]; exact h2, by rw [e2]; exact h3, ?_, ?_, ?_⟩,
    backStack_congr t s1 e2 e3 e4⟩
  · refine ⟨menu, n, by rw [e1]; exact hm, hc, e5, ?_⟩
    rw [e6]
    exact clamp_in_range t.selectedItem n
  · intro i hi
    rw [e2] at hi
    rw [e3, e4]
    exact h4 i hi
  · rw [e1, e2, e3]; exact h5

theorem backStack_pushed (s : ShowState) (target : MenuPtr)
    (h1 : s.previousMenus.length = 0x80) (h2 : s.previousSelectedItems.length = 0x80)
    (h3 : s.nbPreviousMenus < 0x80) (h0 : 0 ≤ s.selectedItem)
    (hlt : s.selectedItem < 2147483648) :
    backStack (pushed s target) = backStack s ++ [(s.currentMenu, s.selectedItem)] := by
  unfold backStack pushed
  simp only
  rw [List.range_succ, List.map_append, List.map_singleton]
  congr 1
  · apply List.map_congr_left
    intro i hi
    have hi' : i < s.nbPreviousMenus := List.mem_range.mp hi
    rw [getD_set_ne _ _ _ _ _ (by omega), getD_set_ne _ _ _ _ _ (by omega)]
  · rw [getD_set_self _ _ _ _ (by omega), getD_set_self _ _ _ _ (by omega),
      toS32_toU32 _ h0 hlt]
theorem backStackInv_afterComboTest (mem : MenuPtr → Option Menu) (root : MenuPtr)
    (menuCombo : Nat) (s : ShowState) (input : LoopInput) (h : BackStackInv mem root s) :
    BackStackInv mem root (afterComboTest menuCombo s input) := by
  obtain ⟨f1, f2, f3, _, f5, f6, f7⟩ := afterComboTest_fields menuCombo s input
  refine ⟨by rw [f6]; exact h.menusLength, by rw [f7]; exact h.selectedLength,
    by rw [f5]; exact h.depth, ?_, ?_, ?_⟩
  · rw [f1, f2, f3]; exact h.current
  · rw [f5, f6, f7]; exact h.entries
  · rw [f1, f5, f6]; exact h.bottom

theorem dispatchKey_A (P : Nat) (menu : Menu) (s : ShowState) (input : LoopInput)
    (hA : keyTest input.pressed KEY_A = true) :
    dispatchKey P (some menu) s input = keyA menu s := by
  unfold dispatchKey
  simp [hA]

theorem dispatchKey_B (P : Nat) (menu? : Option Menu) (s : ShowState) (input : LoopInput)
    (hA : keyTest input.pressed KEY_A = false) (hB : keyTest input.pressed KEY_B = true) :
    dispatchKey P menu? s input = keyB s input.heldKeysB := by
  unfold dispatchKey
  simp [hA, hB]

/-- The selected item of a state that satisfies the invariant, when it is a
submenu item, lies within the current menu. -/
theorem submenu_selection_in_range (mem : MenuPtr → Option Menu) (root : MenuPtr)
    (s : ShowState) (menu : Menu) (item : MenuItem) (h : BackStackInv mem root s)
    (hm : mem s.currentMenu = some menu) (hi : itemAt menu s.selectedItem = some item)
    (ht : item.action_type = MenuItemAction.MENU) :
    ∃ n, menuCountItems menu = some n ∧ 0 ≤ s.selectedItem ∧ s.selectedItem < (n : Int) := by
  obtain ⟨menu', n, hm', hc, _, hr⟩ := h.current
  rw [hm] at hm'
  have hmm : menu = menu' := Option.some.inj hm'
  subst hmm
  refine ⟨n, hc, ?_⟩
  rcases hr with hr | ⟨hn, hr⟩
  · exact hr
  · subst hn
    rcases hr with hr | hr
    · rw [hr] at hi
      have hitem : menu.items[0]? = some item := by simpa [itemAt] using hi
      have := first_item_of_empty_menu menu item hc hitem
      rw [ht] at this; cases this
    · rw [hr] at hi
      simp [itemAt] at hi

theorem step_push (P : Nat) (mem : MenuPtr → Option Menu) (root : MenuPtr) (menuCombo : Nat)
    (hsize : ∀ p menu, mem p = some menu → menu.items.length < 2147483648)
    (s s1 : ShowState) (input : LoopInput) (hP : 0 < P) (hinv : BackStackInv mem root s)
    (hA : keyTest input.pressed KEY_A = true) (hsub : selectedIsSubmenu mem s = true)
    (hstep : menuShowStep P mem menuCombo s input = Outcome.running s1) :
    BackStackInv mem root s1 ∧
      backStack s1 = backStack s ++ [(s.currentMenu, s.selectedItem)] ∧
      s1.selectedItem = 0 ∧
      ∃ menu item, mem s.currentMenu = some menu ∧ itemAt menu s.selectedItem = some item ∧
        item.action_type = MenuItemAction.MENU ∧ s1.currentMenu = item.menu := by
  obtain ⟨f1, f2, f3, _, f5, f6, f7⟩ := afterComboTest_fields menuCombo s input
  have hinv0 := backStackInv_afterComboTest mem root menuCombo s input hinv
  obtain ⟨t, hd, hf⟩ := menuShowStep_running P mem menuCombo s s1 input hP hstep
  obtain ⟨menu, n0, hm, _, _, _⟩ := hinv.current
  rw [hm, dispatchKey_A P menu _ input hA] at hd
  obtain ⟨item, hi, hcase⟩ := keyA_running menu _ t hd
  have hi' : itemAt menu s.selectedItem = some item := by rw [← f2]; exact hi
  have htype : item.action_type = MenuItemAction.MENU := by
    unfold selectedIsSubmenu at hsub
    rw [hm] at hsub
    simp only [hi'] at hsub
    simpa using hsub
  rcases hcase with ⟨hmeth, _⟩ | ⟨_, hnb, ht⟩
  · rw [htype] at hmeth; cases hmeth
  · obtain ⟨n, hc, h0, hlt⟩ := submenu_selection_in_range mem root s menu item hinv hm hi' htype
    have hn : n < 2147483648 := by
      have := menuCountItems_lt_length menu n hc
      have := hsize _ _ hm
      omega
    have hlen1 := hinv0.menusLength
    have hlen2 := hinv0.selectedLength
    have h0' : 0 ≤ (afterComboTest menuCombo s input).selectedItem := by rw [f2]; exact h0
    have hlt' : (afterComboTest menuCombo s input).selectedItem < 2147483648 := by
      rw [f2]; omega
    have hstack := backStack_pushed (afterComboTest menuCombo s input) item.menu hlen1 hlen2
      hnb h0' hlt'
    rw [← ht] at hstack
    have hres := backStackInv_of_finish P mem root hsize t s1 input.menuShouldExit
      (by rw [ht]; simp [pushed, hlen1]) (by rw [ht]; simp [pushed, hlen2])
      (by rw [ht]; simp only [pushed]; omega)
      (by
        intro i hi
        rw [ht] at hi ⊢
        simp only [pushed] at hi ⊢
        by_cases hlast : i = (afterComboTest menuCombo s input).nbPreviousMenus
        · subst hlast
          rw [getD_set_self _ _ _ _ (by omega), getD_set_self _ _ _ _ (by omega), f1, f2]
          refine ⟨menu, n, hm, hc, ?_⟩
          unfold toU32
          omega
        · rw [getD_set_ne _ _ _ _ _ (fun e => hlast e.symm),
            getD_set_ne _ _ _ _ _ (fun e => hlast e.symm)]
          exact hinv0.entries i (by omega))
      (by
        rw [ht]
        simp only [pushed]
        rw [if_neg (by omega)]
        have hb := hinv0.bottom
        by_cases hz : (afterComboTest menuCombo s input).nbPreviousMenus = 0
        · rw [if_pos hz] at hb
          rw [hz, getD_set_self _ _ _ _ (by omega)]
          exact hb
        · rw [if_neg hz] at hb
          rw [getD_set_ne _ _ _ _ _ hz]
          exact hb)
      hf
    obtain ⟨_, _, _, _, _, e1, _, _, _, _, e6⟩ :=
      finishIteration_running P mem t s1 input.menuShouldExit hf
    refine ⟨hres.1, ?_, ?_, menu, item, hm, hi', htype, ?_⟩
    · rw [hres.2, hstack, f1, f2, backStack_congr s _ f5 f6 f7]
    · rw [e6, ht]
      simp only [pushed]
      split
      · omega
      · split <;> rfl
    · rw [e1, ht]; rfl
theorem step_pop (P : Nat) (mem : MenuPtr → Option Menu) (root : MenuPtr) (menuCombo : Nat)
    (hsize : ∀ p menu, mem p = some menu → menu.items.length < 2147483648)
    (s s1 : ShowState) (input : LoopInput) (hP : 0 < P) (hinv : BackStackInv mem root s)
    (hA : keyTest input.pressed KEY_A = false) (hB : keyTest input.pressed KEY_B = true)
    (hstep : menuShowStep P mem menuCombo s input = Outcome.running s1) :
    BackStackInv mem root s1 ∧
      backStack s = backStack s1 ++ [(s1.currentMenu, s1.selectedItem)] := by
  obtain ⟨_, _, _, _, f5, f6, f7⟩ := afterComboTest_fields menuCombo s input
  have hinv0 := backStackInv_afterComboTest mem root menuCombo s input hinv
  obtain ⟨t, hd, hf⟩ := menuShowStep_running P mem menuCombo s s1 input hP hstep
  rw [dispatchKey_B P _ _ input hA hB] at hd
  obtain ⟨hpos, m, k, hm, hk, ht⟩ := keyB_running _ t _ hd
  generalize afterComboTest menuCombo s input = s0 at *
  have hmD : s0.previousMenus.getD (s0.nbPreviousMenus - 1) 0 = m := getD_of_getElem? _ _ _ _ hm
  have hkD : s0.previousSelectedItems.getD (s0.nbPreviousMenus - 1) 0 = k :=
    getD_of_getElem? _ _ _ _ hk
  obtain ⟨menuE, nE, hmE, hcE, hkE⟩ := hinv0.entries (s0.nbPreviousMenus - 1) (by omega)
  rw [hmD] at hmE
  rw [hkD] at hkE
  have hnE : nE < 2147483648 := by
    have := menuCountItems_lt_length menuE nE hcE
    have := hsize _ _ hmE
    omega
  have hres := backStackInv_of_finish P mem root hsize t s1 input.menuShouldExit
    (by rw [ht]; exact hinv0.menusLength) (by rw [ht]; exact hinv0.selectedLength)
    (by rw [ht]; simp only; have := hinv0.depth; omega)
    (by
      intro i hi
      rw [ht] at hi ⊢
      simp only at hi ⊢
      exact hinv0.entries i (by omega))
    (by
      rw [ht]
      simp only
      have hb := hinv0.bottom
      rw [if_neg (by omega)] at hb
      by_cases hz : s0.nbPreviousMenus - 1 = 0
      · rw [if_pos hz, ← hmD, hz]; exact hb
      · rw [if_neg hz]; exact hb)
    hf
  obtain ⟨menuF, nF, hmF, hcF, _, e1, _, _, _, _, e6⟩ :=
    finishIteration_running P mem t s1 input.menuShouldExit hf
  have hcur : t.currentMenu = m := by rw [ht]
  rw [hcur, hmE] at hmF
  have hmenu : menuE = menuF := Option.some.inj hmF
  subst hmenu
  rw [hcE] at hcF
  have hnn : nE = nF := Option.some.inj hcF
  subst hnn
  have hsel : s1.selectedItem = toS32 k := by
    rw [e6, ht]
    simp only
    rw [toS32_small nE hnE, toS32_small k (by omega)]
    rw [if_neg (by omega), if_neg (by omega)]
  refine ⟨hres.1, ?_⟩
  rw [← backStack_congr s s0 f5 f6 f7, hres.2, e1, hcur, hsel]
  unfold backStack
  rw [ht]
  simp only
  obtain ⟨d, hd'⟩ : ∃ d, s0.nbPreviousMenus = d + 1 := ⟨s0.nbPreviousMenus - 1, by omega⟩
  rw [hd'] at hmD hkD ⊢
  simp only [Nat.add_sub_cancel] at hmD hkD ⊢
  rw [List.range_succ, List.map_append, List.map_singleton, hmD, hkD]

theorem step_same (P : Nat) (mem : MenuPtr → Option Menu) (root : MenuPtr) (menuCombo : Nat)
    (hsize : ∀ p menu, mem p = some menu → menu.items.length < 2147483648)
    (s s1 : ShowState) (input : LoopInput) (hP : 0 < P) (hinv : BackStackInv mem root s)
    (hA : keyTest input.pressed KEY_A = true → selectedIsSubmenu mem s = false)
    (hB : keyTest input.pressed KEY_A = false → keyTest input.pressed KEY_B = false)
    (hstep : menuShowStep P mem menuCombo s input = Outcome.running s1) :
    BackStackInv mem root s1 ∧ backStack s1 = backStack s := by
  obtain ⟨f1, f2, f3, _, f5, f6, f7⟩ := afterComboTest_fields menuCombo s input
  have hinv0 := backStackInv_afterComboTest mem root menuCombo s input hinv
  obtain ⟨t, hd, hf⟩ := menuShowStep_running P mem menuCombo s s1 input hP hstep
  have hfields : t.currentMenu = (afterComboTest menuCombo s input).currentMenu ∧
      t.nbPreviousMenus = (afterComboTest menuCombo s input).nbPreviousMenus ∧
      t.previousMenus = (afterComboTest menuCombo s input).previousMenus ∧
      t.previousSelectedItems = (afterComboTest menuCombo s input).previousSelectedItems := by
    by_cases hAp : keyTest input.pressed KEY_A = true
    · obtain ⟨menu, n0, hm, _, _, _⟩ := hinv.current
      rw [hm, dispatchKey_A P menu _ input hAp] at hd
      obtain ⟨item, hi, hcase⟩ := keyA_running menu _ t hd
      rcases hcase with ⟨_, ht⟩ | ⟨htype, _, _⟩
      · rw [ht]; exact ⟨rfl, rfl, rfl, rfl⟩
      · have hns := hA hAp
        unfold selectedIsSubmenu at hns
        rw [hm] at hns
        rw [f2] at hi
        simp only [hi] at hns
        rw [htype] at hns
        simp at hns
    · have hAf : keyTest input.pressed KEY_A = false := by simpa using hAp
      exact dispatchKey_other_running P _ _ t input hAf (hB hAf) hd
  obtain ⟨g1, g2, g3, g4⟩ := hfields
  have hres := backStackInv_of_finish P mem root hsize t s1 input.menuShouldExit
    (by rw [g3]; exact hinv0.menusLength) (by rw [g4]; exact hinv0.selectedLength)
    (by rw [g2]; exact hinv0.depth)
    (by rw [g2, g3, g4]; exact hinv0.entries)
    (by rw [g1, g2, g3]; exact hinv0.bottom)
    hf
  refine ⟨hres.1, ?_⟩
  rw [hres.2, backStack_congr _ t g2 g3 g4, backStack_congr s _ f5 f6 f7]

theorem step_back_runs (P : Nat) (mem : MenuPtr → Option Menu) (root : MenuPtr)
    (menuCombo : Nat) (hsize : ∀ p menu, mem p = some menu → menu.items.length < 2147483648)
    (s : ShowState) (input : LoopInput) (hP : 0 < P)
    (hinv : BackStackInv mem root s) (hpos : 0 < s.nbPreviousMenus) (hback : IsBack input) :
    ∃ s1, menuShowStep P mem menuCombo s input = Outcome.running s1 := by
  obtain ⟨hA, hB, hexit⟩ := hback
  have hinv0 := backStackInv_afterComboTest mem root menuCombo s input hinv
  obtain ⟨_, _, _, _, f5, _, _⟩ := afterComboTest_fields menuCombo s input
  rw [menuShowStep_eq P mem menuCombo s input hP, dispatchKey_B P _ _ input hA hB]
  generalize afterComboTest menuCombo s input = s0 at *
  have hpos0 : 0 < s0.nbPreviousMenus := by omega
  have hd := hinv0.depth
  have hl1 : s0.nbPreviousMenus - 1 < s0.previousMenus.length := by
    rw [hinv0.menusLength]; omega
  have hl2 : s0.nbPreviousMenus - 1 < s0.previousSelectedItems.length := by
    rw [hinv0.selectedLength]; omega
  obtain ⟨menuE, nE, hmE, hcE, hselE⟩ := hinv0.entries (s0.nbPreviousMenus - 1) (by omega)
  rw [List.getD_eq_getElem?_getD, List.getElem?_eq_getElem hl1] at hmE
  rw [List.getD_eq_getElem?_getD, List.getElem?_eq_getElem hl2] at hselE
  simp only [Option.getD_some] at hmE hselE
  have hnE : nE < 2147483648 := by
    have := menuCountItems_lt_length menuE nE hcE
    have := hsize _ _ hmE
    omega
  unfold keyB
  rw [if_neg (by omega), if_pos hpos0]
  simp only [List.getElem?_eq_getElem hl1, List.getElem?_eq_getElem hl2]
  rw [hexit]
  refine finishIteration_runs P mem _ menuE nE hmE hcE hnE ?_
  simp only
  rw [toS32_small _ (by omega)]
  omega

theorem step_back_leaves (P : Nat) (mem : MenuPtr → Option Menu) (menuCombo : Nat)
    (s : ShowState) (input : LoopInput) (hP : 0 < P) (hzero : s.nbPreviousMenus = 0)
    (hA : keyTest input.pressed KEY_A = false) (hB : keyTest input.pressed KEY_B = true)
    (hreleased : keyBReleased input.heldKeysB = true) :
    menuShowStep P mem menuCombo s input = Outcome.left (afterComboTest menuCombo s input) := by
  obtain ⟨_, _, _, _, f5, _, _⟩ := afterComboTest_fields menuCombo s input
  rw [menuShowStep_eq P mem menuCombo s input hP, dispatchKey_B P _ _ input hA hB]
  unfold keyB
  rw [if_neg (by rw [hreleased]; simp), if_neg (by omega)]
theorem backStack_length (s : ShowState) : (backStack s).length = s.nbPreviousMenus := by
  simp [backStack]

theorem backStackInv_init (mem : MenuPtr → Option Menu) (root : MenuPtr) (s0 : ShowState)
    (hsize : ∀ p menu, mem p = some menu → menu.items.length < 2147483648)
    (hinit : menuShowInit mem root = some s0) :
    BackStackInv mem root s0 ∧ s0.nbPreviousMenus = 0 := by
  unfold menuShowInit at hinit
  cases hm : mem root with
  | none => rw [hm] at hinit; simp at hinit
  | some menu =>
    rw [hm] at hinit
    simp only at hinit
    cases hc : menuCountItems menu with
    | none => rw [hc] at hinit; simp at hinit
    | some n =>
      cases hfirst : itemAt menu 0 with
      | none => rw [hc, hfirst] at hinit; simp at hinit
      | some first =>
        rw [hc, hfirst] at hinit
        simp only at hinit
        have hn : n < 2147483648 := by
          have := menuCountItems_lt_length menu n hc
          have := hsize _ _ hm
          omega
        rw [toS32_small n hn] at hinit
        have hsel : ∀ sel : Int,
            (if menuItemIsHidden first = true then advanceSelected 0 (n : Int) 1 else some 0) =
              some sel →
            (0 ≤ sel ∧ sel < (n : Int)) ∨ (n = 0 ∧ (sel = 0 ∨ sel = -1)) := by
          intro sel hs
          by_cases hn0 : n = 0
          · subst hn0
            split at hs
            · simp [advanceSelected, menuAdvanceCursor, toU32] at hs
            · right; exact ⟨rfl, Or.inl (Option.some.inj hs).symm⟩
          · left
            split at hs
            · have h1 := advanceSelected_eq n 0 true (by omega) hn (by omega)
              simp only [if_true, Nat.cast_zero] at h1
              rw [h1] at hs
              have := cursorNext_lt n true 0 (by omega)
              have hs' := Option.some.inj hs
              omega
            · have hs' := Option.some.inj hs
              omega
        cases hsome : (if menuItemIsHidden first = true then advanceSelected 0 (n : Int) 1
            else some 0) with
        | none => rw [hsome] at hinit; simp at hinit
        | some sel =>
          rw [hsome] at hinit
          simp only [Option.some_bind] at hinit
          cases hdraw : menuDraw menu sel with
          | none => rw [hdraw] at hinit; simp at hinit
          | some u =>
            rw [hdraw] at hinit
            simp only [Option.map_some', Option.some.injEq] at hinit
            subst hinit
            refine ⟨⟨by simp, by simp, by simp, ⟨menu, n, hm, hc, rfl, hsel sel hsome⟩, ?_, ?_⟩,
              rfl⟩
            · intro i hi; simp at hi
            · simp

theorem menuShowLoop_cons_running (P : Nat) (mem : MenuPtr → Option Menu) (menuCombo : Nat)
    (s s' : ShowState) (input : LoopInput) (rest : List LoopInput)
    (h : menuShowLoop P mem menuCombo s (input :: rest) = Outcome.running s') :
    ∃ s1, menuShowStep P mem menuCombo s input = Outcome.running s1 ∧
      menuShowLoop P mem menuCombo s1 rest = Outcome.running s' := by
  unfold menuShowLoop at h
  cases hs : menuShowStep P mem menuCombo s input with
  | running s1 => rw [hs] at h; exact ⟨s1, rfl, h⟩
  | left t => rw [hs] at h; simp at h
  | fault => rw [hs] at h; simp at h
  | hangs => rw [hs] at h; simp at h

theorem step_levels (P : Nat) (mem : MenuPtr → Option Menu) (root : MenuPtr) (menuCombo : Nat)
    (hsize : ∀ p menu, mem p = some menu → menu.items.length < 2147483648)
    (s s1 : ShowState) (input : LoopInput) (hP : 0 < P) (hinv : BackStackInv mem root s)
    (hstep : menuShowStep P mem menuCombo s input = Outcome.running s1) :
    BackStackInv mem root s1 ∧ backStack s1 = levelsAfter mem s input (backStack s) := by
  unfold levelsAfter
  by_cases hA : keyTest input.pressed KEY_A = true
  · rw [if_pos hA]
    by_cases hsub : selectedIsSubmenu mem s = true
    · rw [if_pos hsub]
      have := step_push P mem root menuCombo hsize s s1 input hP hinv hA hsub hstep
      exact ⟨this.1, this.2.1⟩
    · rw [if_neg hsub]
      exact step_same P mem root menuCombo hsize s s1 input hP hinv
        (fun _ => by simpa using hsub) (fun h => by rw [h] at hA; cases hA) hstep
  · have hAf : keyTest input.pressed KEY_A = false := by simpa using hA
    rw [if_neg hA]
    by_cases hB : keyTest input.pressed KEY_B = true
    · rw [if_pos hB]
      have := step_pop P mem root menuCombo hsize s s1 input hP hinv hAf hB hstep
      refine ⟨this.1, ?_⟩
      rw [this.2, List.dropLast_concat]
    · rw [if_neg hB]
      exact step_same P mem root menuCombo hsize s s1 input hP hinv
        (fun h => by rw [h] at hA; exact absurd rfl hA) (fun _ => by simpa using hB) hstep

theorem run_levels (P : Nat) (mem : MenuPtr → Option Menu) (root : MenuPtr) (menuCombo : Nat)
    (hsize : ∀ p menu, mem p = some menu → menu.items.length < 2147483648) (hP : 0 < P)
    (inputs : List LoopInput) :
    ∀ (s s' : ShowState), BackStackInv mem root s →
      menuShowLoop P mem menuCombo s inputs = Outcome.running s' →
      BackStackInv mem root s' ∧
        levelsLeft P mem menuCombo s inputs (backStack s) = backStack s' := by
  induction inputs with
  | nil =>
    intro s s' hinv h
    simp only [menuShowLoop, Outcome.running.injEq] at h
    subst h
    exact ⟨hinv, rfl⟩
  | cons input rest ih =>
    intro s s' hinv h
    obtain ⟨s1, hstep, hrest⟩ := menuShowLoop_cons_running P mem menuCombo s s' input rest h
    obtain ⟨hinv1, hlev⟩ := step_levels P mem root menuCombo hsize s s1 input hP hinv hstep
    unfold levelsLeft
    rw [hstep]
    simp only
    rw [← hlev]
    exact ih s1 s' hinv1 hrest

theorem run_backs (P : Nat) (mem : MenuPtr → Option Menu) (root : MenuPtr) (menuCombo : Nat)
    (hsize : ∀ p menu, mem p = some menu → menu.items.length < 2147483648) (hP : 0 < P)
    (backs : List LoopInput) :
    ∀ (s : ShowState), BackStackInv mem root s → backs.length = s.nbPreviousMenus →
      (∀ b ∈ backs, IsBack b) →
      ∃ s', menuShowLoop P mem menuCombo s backs = Outcome.running s' ∧
        BackStackInv mem root s' ∧ s'.nbPreviousMenus = 0 ∧
        menuShowTrace P mem menuCombo s backs = (backStack s).reverse := by
  induction backs with
  | nil =>
    intro s hinv hlen _
    refine ⟨s, rfl, hinv, by simpa using hlen.symm, ?_⟩
    have : backStack s = [] := by
      apply List.eq_nil_of_length_eq_zero
      rw [backStack_length]; simpa using hlen.symm
    rw [this]; rfl
  | cons b rest ih =>
    intro s hinv hlen hall
    have hb : IsBack b := hall b (List.mem_cons_self _ _)
    have hpos : 0 < s.nbPreviousMenus := by rw [← hlen]; simp
    obtain ⟨s1, hstep⟩ := step_back_runs P mem root menuCombo hsize s b hP hinv hpos hb
    obtain ⟨hinv1, hstack⟩ := step_pop P mem root menuCombo hsize s s1 b hP hinv hb.1 hb.2.1 hstep
    have hlen1 : rest.length = s1.nbPreviousMenus := by
      have h1 := congrArg List.length hstack
      rw [List.length_append, backStack_length, backStack_length] at h1
      simp only [List.length_cons, List.length_nil] at h1 hlen
      omega
    obtain ⟨s', hrun, hinv', hzero, htrace⟩ :=
      ih s1 hinv1 hlen1 (fun x hx => hall x (List.mem_cons_of_mem _ hx))
    refine ⟨s', ?_, hinv', hzero, ?_⟩
    · unfold menuShowLoop; rw [hstep]; exact hrun
    · unfold menuShowTrace
      rw [hstep]
      simp only
      rw [htrace, hstack, List.reverse_concat]
theorem step_push_runs (P : Nat) (mem : MenuPtr → Option Menu)
    (menuCombo : Nat) (s : ShowState) (input : LoopInput) (menu sub : Menu) (item : MenuItem)
    (n : Nat) (hP : 0 < P)
    (hA : keyTest input.pressed KEY_A = true) (hexit : input.menuShouldExit = false)
    (hm : mem s.currentMenu = some menu) (hi : itemAt menu s.selectedItem = some item)
    (ht : item.action_type = MenuItemAction.MENU) (hdepth : s.nbPreviousMenus < 0x80)
    (hsub : mem item.menu = some sub) (hc : menuCountItems sub = some n)
    (hn : n < 2147483648) :
    ∃ s1, menuShowStep P mem menuCombo s input = Outcome.running s1 := by
  obtain ⟨_, f2, _, _, f5, _, _⟩ := afterComboTest_fields menuCombo s input
  rw [menuShowStep_eq P mem menuCombo s input hP, hm, dispatchKey_A P menu _ input hA]
  unfold keyA
  rw [f2, hi]
  simp only [ht]
  rw [if_pos (by omega), hexit]
  exact finishIteration_runs P mem _ sub n hsub hc hn (le_refl _)

theorem menusMem_size (menus : List Menu)
    (h : ∀ m ∈ menus, m.items.length < 2147483648) :
    ∀ p menu, menusMem menus p = some menu → menu.items.length < 2147483648 := by
  intro p menu hp
  unfold menusMem at hp
  exact h menu (List.mem_iff_getElem?.mpr ⟨p, hp⟩)

/-! ## Claims -/

/-! ### C1: Overlay trigger -/

/-- Claim C1: with HID initialised and no shutdown requested, one polling
iteration of `menuThreadMain` on the held-key sample `h` enters `menuShow` (once)
if and only if `(h & menuCombo) == menuCombo` and `g_blockMenuOpen` is `0`, and
otherwise does not enter it; with the combo `{A, B}` the samples `{A}`, `{A, B}`,
`{A, B, X}` open the overlay on the second and on the third sample and not on
the first. -/
theorem menuThreadIteration_opens_iff (g : Globals) (h : Nat) (allocOk : Bool)
    (hHid : g.isHidInitialized = true) (hExit : g.menuShouldExit = false) :
    ((menuThreadIteration g h allocOk).overlaysShown = g.overlaysShown + 1 ↔
        (h &&& g.menuCombo = g.menuCombo ∧ g.g_blockMenuOpen = 0)) ∧
      (¬ (h &&& g.menuCombo = g.menuCombo ∧ g.g_blockMenuOpen = 0) →
        (menuThreadIteration g h allocOk).overlaysShown = g.overlaysShown) ∧
      (menuThreadRun (initialGlobals (KEY_A ||| KEY_B) 0) allocOk [KEY_A]).overlaysShown = 0 ∧
      (menuThreadRun (initialGlobals (KEY_A ||| KEY_B) 0) allocOk
        [KEY_A, KEY_A ||| KEY_B]).overlaysShown = 1 ∧
      (menuThreadRun (initialGlobals (KEY_A ||| KEY_B) 0) allocOk
        [KEY_A, KEY_A ||| KEY_B, KEY_A ||| KEY_B ||| KEY_X]).overlaysShown = 2 := by
  have key : (menuThreadIteration g h allocOk).overlaysShown =
      g.overlaysShown + (if (h &&& g.menuCombo = g.menuCombo ∧ g.g_blockMenuOpen = 0)
        then 1 else 0) := by
    unfold menuThreadIteration
    simp only [hExit, Bool.false_eq_true, if_false]
    by_cases hc : (h &&& g.menuCombo = g.menuCombo ∧ g.g_blockMenuOpen = 0)
    · have : ((scanHeldKeys (g.record Call.Cheat_ApplyCheats) h &&&
          (g.record Call.Cheat_ApplyCheats).menuCombo) ==
          (g.record Call.Cheat_ApplyCheats).menuCombo
          && (g.record Call.Cheat_ApplyCheats).g_blockMenuOpen == 0) = true := by
        simp [scanHeldKeys, Globals.record, hHid, hExit, convertHidKeys, hc.1, hc.2]
      simp only [this, if_true, overlaySession_overlaysShown, record_overlaysShown, hc]
      simp
    · have : ((scanHeldKeys (g.record Call.Cheat_ApplyCheats) h &&&
          (g.record Call.Cheat_ApplyCheats).menuCombo) ==
          (g.record Call.Cheat_ApplyCheats).menuCombo
          && (g.record Call.Cheat_ApplyCheats).g_blockMenuOpen == 0) = false := by
        simp [scanHeldKeys, Globals.record, hHid, hExit, convertHidKeys]
        simpa using hc
      simp [this, record_overlaysShown, hc]
  refine ⟨?_, ?_, ?_, ?_, ?_⟩
  · rw [key]; by_cases hc : (h &&& g.menuCombo = g.menuCombo ∧ g.g_blockMenuOpen = 0) <;> simp [hc]
  · intro hc; rw [key]; simp [hc]
  · cases allocOk <;> decide
  · cases allocOk <;> decide
  · cases allocOk <;> decide

/-- Claim C1 at a concrete state: combo `A | B`, sample `A | B | SELECT`. -/
theorem menuThreadIteration_opens_iff_witness :
    (initialGlobals 3 0).isHidInitialized = true ∧ (initialGlobals 3 0).menuShouldExit = false ∧
    ((menuThreadIteration (initialGlobals 3 0) 7 true).overlaysShown
        = (initialGlobals 3 0).overlaysShown + 1 ↔
        (7 &&& (initialGlobals 3 0).menuCombo = (initialGlobals 3 0).menuCombo ∧
          (initialGlobals 3 0).g_blockMenuOpen = 0)) :=
  ⟨rfl, rfl, (menuThreadIteration_opens_iff (initialGlobals 3 0) 7 true rfl rfl).1⟩

/-! ### C2: Balanced acquire and release -/

/-- Claim C2 evaluated on the code: starting from a lease count of zero, two
calls of `menuEnter` (both allocations able to succeed) leave `menuRefCount` at
`1`, the first `menuLeave` already restores the framebuffer, and after the
second `menuLeave` the count is `-1`, not zero; a single failed `menuEnter`
followed by its `menuLeave` also ends at `-1`. -/
theorem menuEnter_menuLeave_unbalanced :
    (enterTimes (initialGlobals 0 0) [true, true] 2).menuRefCount = 1 ∧
    (leaveTimes (enterTimes (initialGlobals 0 0) [true, true] 2) 1).framebufferSetup = false ∧
    (leaveTimes (enterTimes (initialGlobals 0 0) [true, true] 2) 2).menuRefCount = -1 ∧
    (leaveTimes (enterTimes (initialGlobals 0 0) [false] 1) 1).menuRefCount = -1 := by
  decide

/-! ### C3: Sign of the lease count -/

/-- Claim C3 evaluated on the code: one overlay session whose framebuffer
allocation fails leaves `menuRefCount` at `-1`, a following session with a
successful allocation leaves it at `-2`, and a session entered with the
shutdown flag set leaves it at `-1`. -/
theorem menuRefCount_negative_after_failed_session :
    (overlaySessions (initialGlobals 0 0) [(false, false)]).menuRefCount = -1 ∧
    (overlaySessions (initialGlobals 0 0) [(false, false), (false, true)]).menuRefCount = -2 ∧
    (overlaySessions (initialGlobals 0 0) [(true, true)]).menuRefCount = -1 := by
  decide

/-! ### C4: Failed framebuffer allocation -/

/-- Claim C4 evaluated on the code: when the allocation inside `menuEnter`
fails the lease count is back at its value before the call, yet the polling
iteration of `menuThreadMain` goes on to call `menuShow` (and `menuLeave`, which
takes the count to `-1`). -/
theorem menuShow_runs_after_failed_allocation :
    (menuEnter (initialGlobals 3 0) false).menuRefCount = (initialGlobals 3 0).menuRefCount ∧
    (menuThreadIteration (initialGlobals 3 0) 3 false).calls =
      [Call.Cheat_ApplyCheats, Call.svcKernelSetState, Call.Draw_AllocateFramebufferCache false,
        Call.svcKernelSetState, Call.PluginLoader__UpdateMenu, Call.menuShow] ∧
    (menuThreadIteration (initialGlobals 3 0) 3 false).menuRefCount = -1 := by
  decide

/-! ### C5: Single steps and hidden items -/

/-- Claim C5, as the code has it: for a terminated menu with `n` items in which
no two circularly adjacent items are both hidden, and an in-range selection, a
`KEY_DOWN` or `KEY_UP` iteration of `menuShow` ends with an in-range selection
on a non-hidden item. -/
theorem moveNext_movePrevious_selects_visible (P : Nat) (mem : MenuPtr → Option Menu)
    (menuCombo : Nat) (s : ShowState) (input : LoopInput) (menu : Menu) (n k : Nat)
    (hP : 0 < P) (hmem : mem s.currentMenu = some menu)
    (hcount : menuCountItems menu = some n) (hn : n < 2147483648)
    (hnum : s.numItems = (n : Int)) (hsel : s.selectedItem = (k : Int)) (hk : k < n)
    (hA : keyTest input.pressed KEY_A = false) (hB : keyTest input.pressed KEY_B = false)
    (hkey : keyTest input.pressed KEY_DOWN = true ∨ keyTest input.pressed KEY_UP = true)
    (hadj : ∀ i, i < n → hiddenAt menu i = true → hiddenAt menu ((i + 1) % n) = false) :
    ∃ (s' : ShowState) (j : Nat), (menuShowStep P mem menuCombo s input).locals = some s' ∧
      s'.selectedItem = (j : Int) ∧ j < n ∧ hiddenAt menu j = false := by
  have hpos : 0 < n := by omega
  obtain ⟨_, f2, f3, _⟩ := afterComboTest_fields menuCombo s input
  by_cases hD : keyTest input.pressed KEY_DOWN = true
  · have hr : keyDown menu (afterComboTest menuCombo s input).numItems
        (afterComboTest menuCombo s input).selectedItem =
        some ((skipStep (hiddenAt menu) n true k : Nat) : Int) := by
      rw [f2, f3, hnum, hsel]
      exact moveSkipHidden_eq menu n k true hcount hn hk
    have hlt := skipStep_lt (hiddenAt menu) n true k hpos
    obtain ⟨s', h1, h2, _⟩ := menuShowStep_select P mem menuCombo s input menu n _ hP hmem
      hcount hn hlt (dispatchKey_down P menu _ input hA hB hD _ hr)
    exact ⟨s', _, h1, h2, hlt, skipStep_visible _ n k true hpos hadj⟩
  · have hD' : keyTest input.pressed KEY_DOWN = false := by simpa using hD
    have hU : keyTest input.pressed KEY_UP = true := by
      rcases hkey with h | h
      · exact absurd h hD
      · exact h
    have hr : keyUp menu (afterComboTest menuCombo s input).numItems
        (afterComboTest menuCombo s input).selectedItem =
        some ((skipStep (hiddenAt menu) n false k : Nat) : Int) := by
      rw [f2, f3, hnum, hsel]
      exact moveSkipHidden_eq menu n k false hcount hn hk
    have hlt := skipStep_lt (hiddenAt menu) n false k hpos
    obtain ⟨s', h1, h2, _⟩ := menuShowStep_select P mem menuCombo s input menu n _ hP hmem
      hcount hn hlt (dispatchKey_up P menu _ input hA hB hD' hU _ hr)
    exact ⟨s', _, h1, h2, hlt, skipStep_visible _ n k false hpos hadj⟩

/-- Claim C5 at a concrete menu: three items, the middle one hidden, `KEY_DOWN`
from item 0. -/
theorem moveNext_movePrevious_selects_visible_witness :
    (∀ i, i < 3 → hiddenAt (sampleMenu [false, true, false]) i = true →
      hiddenAt (sampleMenu [false, true, false]) ((i + 1) % 3) = false) ∧
    ∃ (s' : ShowState) (j : Nat),
      (menuShowStep 5 (sampleMem (sampleMenu [false, true, false])) 0 (sampleState 0 0 3)
        (pressedOnly KEY_DOWN)).locals = some s' ∧
      s'.selectedItem = (j : Int) ∧ j < 3 ∧
      hiddenAt (sampleMenu [false, true, false]) j = false :=
  ⟨by decide,
    moveNext_movePrevious_selects_visible 5 (sampleMem (sampleMenu [false, true, false])) 0
      (sampleState 0 0 3) (pressedOnly KEY_DOWN) (sampleMenu [false, true, false]) 3 0
      (by decide) rfl (by decide) (by decide) rfl rfl (by decide) (by decide) (by decide)
      (Or.inl (by decide)) (by decide)⟩

set_option maxRecDepth 100000 in
/-- Claim C5 fails as stated: in the terminated menu of four items whose items
1 and 2 are hidden, `KEY_DOWN` from item 0 selects the hidden item 2 and `KEY_UP`
from item 3 selects the hidden item 1. -/
theorem moveNext_lands_on_hidden_item :
    menuCountItems (sampleMenu [false, true, true, false]) = some 4 ∧
    hiddenAt (sampleMenu [false, true, true, false]) 0 = false ∧
    (menuShowStep 5 (sampleMem (sampleMenu [false, true, true, false])) 0 (sampleState 0 0 4)
      (pressedOnly KEY_DOWN)).selected = some 2 ∧
    hiddenAt (sampleMenu [false, true, true, false]) 2 = true ∧
    (menuShowStep 5 (sampleMem (sampleMenu [false, true, true, false])) 0 (sampleState 3 0 4)
      (pressedOnly KEY_UP)).selected = some 1 ∧
    hiddenAt (sampleMenu [false, true, true, false]) 1 = true := by
  decide

/-! ### C6: Circular cursor arithmetic -/

/-- Claim C6, as the code has it: for every item count `0 < n ≤ 2^31` (every
count an `s32` can hold) and every `pos < n`, `menuAdvanceCursor(pos, n, 1)` is
`(pos + 1) mod n` and `menuAdvanceCursor(pos, n, -1)` is `(pos + n - 1) mod n`;
both are below `n`, a step forward followed by a step back returns `pos`, and `n`
steps in either direction return `pos`. -/
theorem menuAdvanceCursor_circular (n pos : Nat) (hn : 0 < n) (hle : n ≤ 2147483648)
    (hpos : pos < n) :
    menuAdvanceCursor pos n 1 = some ((pos + 1) % n) ∧
    menuAdvanceCursor pos n (-1) = some ((pos + n - 1) % n) ∧
    (pos + 1) % n < n ∧ (pos + n - 1) % n < n ∧
    (menuAdvanceCursor pos n 1).bind (fun next => menuAdvanceCursor next n (-1)) = some pos ∧
    advanceTimes n 1 n pos = some pos ∧
    advanceTimes n (-1) n pos = some pos := by
  refine ⟨menuAdvanceCursor_forward pos n hn hle hpos,
    menuAdvanceCursor_backward pos n hn hle hpos, Nat.mod_lt _ hn, Nat.mod_lt _ hn, ?_, ?_, ?_⟩
  · rw [menuAdvanceCursor_forward pos n hn hle hpos, Option.some_bind,
      menuAdvanceCursor_backward _ n hn hle (Nat.mod_lt _ hn)]
    by_cases h : pos + 1 = n
    · rw [h, Nat.mod_self, Nat.zero_add, Nat.mod_eq_of_lt (by omega : n - 1 < n)]
      congr 1; omega
    · rw [Nat.mod_eq_of_lt (by omega : pos + 1 < n),
        show pos + 1 + n - 1 = pos + n by omega, Nat.add_mod_right, Nat.mod_eq_of_lt hpos]
  · rw [advanceTimes_forward n n pos hn hle hpos, Nat.add_mod_right, Nat.mod_eq_of_lt hpos]
  · rw [advanceTimes_backward n n pos hn hle hpos, Nat.add_mul_mod_self_left,
      Nat.mod_eq_of_lt hpos]

/-- Claim C6 at `n = 10`, `pos = 9`. -/
theorem menuAdvanceCursor_circular_witness :
    menuAdvanceCursor 9 10 1 = some ((9 + 1) % 10) ∧
    menuAdvanceCursor 9 10 (-1) = some ((9 + 10 - 1) % 10) ∧
    (9 + 1) % 10 < 10 ∧ (9 + 10 - 1) % 10 < 10 ∧
    (menuAdvanceCursor 9 10 1).bind (fun next => menuAdvanceCursor next 10 (-1)) = some 9 ∧
    advanceTimes 10 1 10 9 = some 9 ∧
    advanceTimes 10 (-1) 10 9 = some 9 :=
  menuAdvanceCursor_circular 10 9 (by decide) (by decide) (by decide)

/-- Claim C6 fails as stated for item counts above `2^31`: with
`n = 2^31 + 1` and `pos = 2^31` the `u32` sum `pos + n + 1` wraps and
`menuAdvanceCursor(pos, n, 1)` is `2`, while `(pos + 1) mod n` is `0`. -/
theorem menuAdvanceCursor_not_exact_above_2_pow_31 :
    (2147483648 : Nat) < 2147483649 ∧ (2147483649 : Nat) < 4294967296 ∧
    menuAdvanceCursor 2147483648 2147483649 1 = some 2 ∧
    (2147483648 + 1) % 2147483649 = 0 ∧
    menuAdvanceCursor 2147483648 2147483649 1 ≠ some ((2147483648 + 1) % 2147483649) := by
  refine ⟨by decide, by decide, ?_, by decide, ?_⟩ <;> decide

/-! ### C7: Counting visible items -/

/-- Claim C7: for a terminated menu, `menuCountItemsWithoutHidden` returns the
number of items before the first `MENU_END` whose visibility predicate is
absent or returns true, which is `menuCountItems` minus the number of hidden
items; for 10 items of which 2 are hidden it returns 8. -/
theorem menuCountItemsWithoutHidden_counts_visible (menu : Menu) (h : Terminated menu) :
    menuCountItemsWithoutHidden menu =
      some ((liveItems menu).filter fun item =>
        decide (item.visibility = none ∨ item.visibility = some true)).length ∧
    menuCountItems menu = some (liveItems menu).length ∧
    menuCountItemsWithoutHidden menu =
      some ((liveItems menu).length - ((liveItems menu).filter menuItemIsHidden).length) ∧
    ((liveItems menu).length = 10 → ((liveItems menu).filter menuItemIsHidden).length = 2 →
      menuCountItemsWithoutHidden menu = some 8) := by
  have hsplit := List.length_eq_length_filter_add (l := liveItems menu) menuItemIsHidden
  have hvis := menuCountItemsWithoutHidden_eq_filter menu h
  have hfun : (fun item : MenuItem =>
      decide (item.visibility = none ∨ item.visibility = some true)) =
      fun item => !menuItemIsHidden item := funext visible_iff_not_hidden
  have hsub : ((liveItems menu).filter fun item => !menuItemIsHidden item).length =
      (liveItems menu).length - ((liveItems menu).filter menuItemIsHidden).length := by
    omega
  refine ⟨?_, menuCountItems_eq menu h, ?_, ?_⟩
  · rw [hfun]; exact hvis
  · rw [hvis, hsub]
  · intro h10 h2
    rw [hvis, hsub, h10, h2]

/-- Claim C7 at a menu of 10 items with items 3 and 7 hidden. -/
theorem menuCountItemsWithoutHidden_counts_visible_witness :
    Terminated
        (sampleMenu [false, false, false, true, false, false, false, true, false, false]) ∧
    menuCountItemsWithoutHidden
        (sampleMenu [false, false, false, true, false, false, false, true, false, false]) =
      some 8 :=
  ⟨⟨endItem, by decide, rfl⟩,
    (menuCountItemsWithoutHidden_counts_visible
      (sampleMenu [false, false, false, true, false, false, false, true, false, false])
      ⟨endItem, by decide, rfl⟩).2.2.2 (by decide) (by decide)⟩

/-! ### C8: Page forward from the first item -/

/-- Claim C8, as the code has it: for a menu of 10 items of which exactly 2,
other than item 0, are hidden, and page size 5, a `KEY_RIGHT` iteration of
`menuShow` from item 0 on page 0 ends on page 1 with the selection at the index
`j` that five forward steps reach from item 0, each step going to the next item
and one item further when that item is hidden; `j` lies between 5 and 7; when no
two hidden items are adjacent, `j` is the sixth non-hidden item of the menu; when
the hidden items are `h` and `h + 1`, `j` is 6 for `h ≤ 5` and 5 otherwise; the
selected item is hidden exactly when the hidden items are items 5 and 6; and
when items 1 to 4 are not hidden and items 5 and 6 are not both hidden, every
item of page 1 before the selection is hidden, so the selection is the first
non-hidden item of page 1. -/
theorem pageForward_from_first_item (mem : MenuPtr → Option Menu) (menuCombo : Nat)
    (s : ShowState) (input : LoopInput) (menu : Menu)
    (hmem : mem s.currentMenu = some menu) (hcount : menuCountItems menu = some 10)
    (hhid : (hiddenFlags menu).count true = 2) (h0 : hiddenAt menu 0 = false)
    (hnum : s.numItems = 10) (hsel : s.selectedItem = 0) (hpage : s.page = 0)
    (hA : keyTest input.pressed KEY_A = false) (hB : keyTest input.pressed KEY_B = false)
    (hD : keyTest input.pressed KEY_DOWN = false) (hU : keyTest input.pressed KEY_UP = false)
    (hL : keyTest input.pressed KEY_LEFT = false)
    (hR : keyTest input.pressed KEY_RIGHT = true) :
    ∃ (s' : ShowState) (j : Nat), (menuShowStep 5 mem menuCombo s input).locals = some s' ∧
      s'.selectedItem = (j : Int) ∧ s'.page = 1 ∧
      j = Nat.iterate (fun p => if hiddenAt menu (p + 1) = true then p + 2 else p + 1) 5 0 ∧
      5 ≤ j ∧ j ≤ 7 ∧
      ((∀ i, i < 9 → ¬ (hiddenAt menu i = true ∧ hiddenAt menu (i + 1) = true)) →
        ((List.range 10).filter fun i => !hiddenAt menu i)[5]? = some j) ∧
      (∀ h, h < 9 → hiddenAt menu h = true → hiddenAt menu (h + 1) = true →
        j = if h ≤ 5 then 6 else 5) ∧
      (hiddenAt menu j = true ↔ (hiddenAt menu 5 = true ∧ hiddenAt menu 6 = true)) ∧
      (hiddenAt menu 1 = false → hiddenAt menu 2 = false → hiddenAt menu 3 = false →
        hiddenAt menu 4 = false → ¬ (hiddenAt menu 5 = true ∧ hiddenAt menu 6 = true) →
        ∀ i, i < j → 5 ≤ i → hiddenAt menu i = true) := by
  obtain ⟨_, f2, f3, f4, _⟩ := afterComboTest_fields menuCombo s input
  have hv := visibleCount_eq menu 10 hcount
  rw [hhid] at hv
  have hmt := moveTimes_eq menu 10 true 5 0 hcount (by decide) (by decide)
  simp only [if_true] at hmt
  have hr : keyRight 5 menu (afterComboTest menuCombo s input).numItems
      (afterComboTest menuCombo s input).selectedItem (afterComboTest menuCombo s input).page =
      some ((skipSteps (hiddenAt menu) 10 true 5 0 : Nat) : Int) := by
    rw [f2, f3, f4, hnum, hsel, hpage]
    unfold keyRight
    rw [hv]
    exact hmt
  have hlt := skipSteps_lt (hiddenAt menu) 10 true 5 0 (by decide)
  obtain ⟨s', h1, h2, h3, _⟩ := menuShowStep_select 5 mem menuCombo s input menu 10 _
    (by decide) hmem hcount (by decide) hlt
    (dispatchKey_right 5 menu _ input hA hB hD hU hL hR _ hr)
  have hcongr := skipSteps_congr (hiddenAt menu) (flagAt (hiddenFlags menu)) 10 5 0 true
    (by decide) (fun i hi => hiddenAt_eq_flagAt menu 10 i hcount hi)
  have hat : ∀ i, i < 10 → hiddenAt menu i = flagAt (hiddenFlags menu) i :=
    fun i hi => hiddenAt_eq_flagAt menu 10 i hcount hi
  have hiter := skipForward_congr (hiddenAt menu) (flagAt (hiddenFlags menu)) 10 hat 5 0
    (by decide)
  have hfilter : ((List.range 10).filter fun i => !hiddenAt menu i) =
      ((List.range 10).filter fun i => !flagAt (hiddenFlags menu) i) := by
    apply List.filter_congr
    intro i hi
    rw [hat i (List.mem_range.mp hi)]
  obtain ⟨b0, b1, b2, b3, b4, b5, b6, b7, b8, b9, hfl⟩ :=
    list_of_length_ten (hiddenFlags menu) (hiddenFlags_length menu 10 hcount)
  have hb0 : b0 = false := by
    have := hat 0 (by decide)
    rw [h0, hfl] at this
    exact this.symm
  subst hb0
  rw [hfl] at hhid hcongr hat hiter hfilter
  obtain ⟨p1, p2, p3, p4⟩ := pageForward_flags b1 b2 b3 b4 b5 b6 b7 b8 b9 hhid
  obtain ⟨q1, q2, q3⟩ := pageForward_flags_exact b1 b2 b3 b4 b5 b6 b7 b8 b9 hhid
  rw [← hcongr] at p1 p2 p3 p4 q1 q2 q3
  refine ⟨s', _, h1, h2, ?_, ?_, p1, p2, ?_, ?_, ?_, ?_⟩
  · rw [h3]
    generalize skipSteps (hiddenAt menu) 10 true 5 0 = j at p1 p2
    interval_cases j <;> rfl
  · rw [hiter]; exact q1
  · intro hadj
    rw [hfilter]
    apply q2
    intro i hi
    rw [← hat i (by omega), ← hat (i + 1) (by omega)]
    exact hadj i hi
  · intro h hh e1 e2
    rw [hat h (by omega)] at e1
    rw [hat (h + 1) (by omega)] at e2
    exact q3 h hh e1 e2
  · rw [hat _ hlt, hat 5 (by decide), hat 6 (by decide)]
    exact p3
  · intro q1 q2 q3 q4 q56 i hi h5
    rw [hat 1 (by decide)] at q1
    rw [hat 2 (by decide)] at q2
    rw [hat 3 (by decide)] at q3
    rw [hat 4 (by decide)] at q4
    rw [hat 5 (by decide), hat 6 (by decide)] at q56
    rw [hat i (by omega)]
    exact p4 q1 q2 q3 q4 q56 i hi h5

set_option maxRecDepth 100000 in
/-- Claim C8 at a concrete menu: 10 items, items 1 and 8 hidden; the five steps
pass over item 1 and end on item 6, the sixth non-hidden item. -/
theorem pageForward_from_first_item_witness :
    menuCountItems (sampleMenu [false, true, false, false, false, false, false, false, true,
      false]) = some 10 ∧
    (hiddenFlags (sampleMenu [false, true, false, false, false, false, false, false, true,
      false])).count true = 2 ∧
    ∃ s' : ShowState,
      (menuShowStep 5 (sampleMem (sampleMenu [false, true, false, false, false, false, false,
        false, true, false])) 0 (sampleState 0 0 10) (pressedOnly KEY_RIGHT)).locals = some s' ∧
      s'.selectedItem = 6 ∧ s'.page = 1 ∧
      ((List.range 10).filter fun i => !hiddenAt (sampleMenu [false, true, false, false, false,
        false, false, false, true, false]) i)[5]? = some 6 := by
  obtain ⟨s', j, h1, h2, h3, h4, _, _, h7, _⟩ :=
    pageForward_from_first_item (sampleMem (sampleMenu [false, true, false, false, false,
      false, false, false, true, false])) 0 (sampleState 0 0 10) (pressedOnly KEY_RIGHT)
      (sampleMenu [false, true, false, false, false, false, false, false, true, false])
      rfl (by decide) (by decide) (by decide) rfl rfl rfl (by decide) (by decide) (by decide)
      (by decide) (by decide) (by decide)
  have hj : j = 6 := h4.trans (by decide)
  subst hj
  exact ⟨by decide, by decide, s', h1, h2, h3, h7 (by decide)⟩

set_option maxRecDepth 100000 in
/-- Claim C8 fails as stated: with items 5 and 6 hidden `KEY_RIGHT` from item 0
selects the hidden item 6, and with items 1 and 2 hidden it selects item 6
although item 5, the first item of the next page, is not hidden. -/
theorem pageForward_lands_on_hidden_item :
    menuCountItems (sampleMenu [false, false, false, false, false, true, true, false, false,
      false]) = some 10 ∧
    menuCountItemsWithoutHidden (sampleMenu [false, false, false, false, false, true, true,
      false, false, false]) = some 8 ∧
    (menuShowStep 5 (sampleMem (sampleMenu [false, false, false, false, false, true, true,
      false, false, false])) 0 (sampleState 0 0 10) (pressedOnly KEY_RIGHT)).selected = some 6 ∧
    hiddenAt (sampleMenu [false, false, false, false, false, true, true, false, false,
      false]) 6 = true ∧
    (menuShowStep 5 (sampleMem (sampleMenu [false, true, true, false, false, false, false,
      false, false, false])) 0 (sampleState 0 0 10) (pressedOnly KEY_RIGHT)).selected = some 6 ∧
    hiddenAt (sampleMenu [false, true, true, false, false, false, false, false, false,
      false]) 5 = false := by
  decide

/-! ### C9: Page forward on the last page -/

/-- Claim C11: in every state `s` that the loop of `menuShow` reaches from the
root menu, the back-stack holds at most `0x80` levels, one for each submenu
descent not yet returned from, and an Activate on a submenu item at a depth
below `0x80` keeps the loop running; issuing Back once per level keeps the loop
running, shows after each Back the menu and the selected index that were
current when that level was left, latest level first, and ends on the root menu
with the back-stack empty; a further Back, once `KEY_B` is sampled as released,
leaves the loop. -/
theorem backStack_round_trip (P : Nat) (mem : MenuPtr → Option Menu) (menuCombo : Nat)
    (root : MenuPtr) (s0 s : ShowState) (inputs backs : List LoopInput) (hP : 0 < P)
    (hsize : ∀ p menu, mem p = some menu → menu.items.length < 2147483648)
    (hinit : menuShowInit mem root = some s0)
    (hrun : menuShowLoop P mem menuCombo s0 inputs = Outcome.running s)
    (hlen : backs.length = s.nbPreviousMenus) (hbacks : ∀ b ∈ backs, IsBack b) :
    s.nbPreviousMenus ≤ 0x80 ∧
    (levelsLeft P mem menuCombo s0 inputs []).length = s.nbPreviousMenus ∧
    (∀ (input : LoopInput) (menu sub : Menu) (item : MenuItem) (n : Nat),
      keyTest input.pressed KEY_A = true → input.menuShouldExit = false →
      mem s.currentMenu = some menu → itemAt menu s.selectedItem = some item →
      item.action_type = MenuItemAction.MENU → s.nbPreviousMenus < 0x80 →
      mem item.menu = some sub → menuCountItems sub = some n →
      ∃ s1, menuShowStep P mem menuCombo s input = Outcome.running s1 ∧
        s1.currentMenu = item.menu ∧ s1.nbPreviousMenus = s.nbPreviousMenus + 1) ∧
    ∃ s', menuShowLoop P mem menuCombo s backs = Outcome.running s' ∧
      menuShowTrace P mem menuCombo s backs =
        (levelsLeft P mem menuCombo s0 inputs []).reverse ∧
      s'.currentMenu = root ∧ s'.nbPreviousMenus = 0 ∧
      ∀ final : LoopInput, keyTest final.pressed KEY_A = false →
        keyTest final.pressed KEY_B = true → keyBReleased final.heldKeysB = true →
        ∃ t, menuShowStep P mem menuCombo s' final = Outcome.left t ∧ t.currentMenu = root := by
  obtain ⟨hinv0, hzero0⟩ := backStackInv_init mem root s0 hsize hinit
  have hempty : backStack s0 = [] := by
    apply List.eq_nil_of_length_eq_zero
    rw [backStack_length]; exact hzero0
  obtain ⟨hinv, hlev⟩ := run_levels P mem root menuCombo hsize hP inputs s0 s hinv0 hrun
  rw [hempty] at hlev
  obtain ⟨s', hrun', hinv', hzero', htrace⟩ :=
    run_backs P mem root menuCombo hsize hP backs s hinv hlen hbacks
  have hroot : s'.currentMenu = root := by
    have := hinv'.bottom
    rw [if_pos hzero'] at this
    exact this
  refine ⟨hinv.depth, by rw [hlev, backStack_length], ?_, s', hrun', by rw [htrace, hlev],
    hroot, hzero', ?_⟩
  · intro input menu sub item n hA hexit hm hi ht hdepth hsub hc
    have hn : n < 2147483648 := by
      have := menuCountItems_lt_length sub n hc
      have := hsize _ _ hsub
      omega
    obtain ⟨s1, hstep⟩ := step_push_runs P mem menuCombo s input menu sub item n hP
      hA hexit hm hi ht hdepth hsub hc hn
    have hissub : selectedIsSubmenu mem s = true := by
      unfold selectedIsSubmenu
      rw [hm]; simp only [hi]; simpa using ht
    obtain ⟨_, hstack, _, menu', item', hm', hi', _, hcur⟩ :=
      step_push P mem root menuCombo hsize s s1 input hP hinv hA hissub hstep
    rw [hm] at hm'
    have e1 : menu = menu' := Option.some.inj hm'
    subst e1
    rw [hi] at hi'
    have e2 : item = item' := Option.some.inj hi'
    subst e2
    refine ⟨s1, hstep, hcur, ?_⟩
    have := congrArg List.length hstack
    rw [List.length_append, backStack_length, backStack_length] at this
    simpa using this
  · intro final hA hB hrel
    refine ⟨_, step_back_leaves P mem menuCombo s' final hP hzero' hA hB hrel, ?_⟩
    rw [(afterComboTest_fields menuCombo s' final).1]
    exact hroot

set_option maxRecDepth 100000 in
/-- Claim C11 on the chain root → `S1` → `S2` → `S3`: the levels are left at
the selections 1, 2 and 0, three Backs show `(S2, 0)`, `(S1, 2)`, `(root, 1)`
and a fourth Back leaves the loop. -/
theorem backStack_round_trip_witness :
    menuShowInit chainMem 0 = some chainStart ∧
    menuShowLoop 5 chainMem 0 chainStart chainInputs = Outcome.running chainDescended ∧
    chainDescended.currentMenu = 3 ∧
    levelsLeft 5 chainMem 0 chainStart chainInputs [] = [(0, 1), (1, 2), (2, 0)] ∧
    menuShowTrace 5 chainMem 0 chainDescended [backInput, backInput, backInput] =
      [(2, 0), (1, 2), (0, 1)] ∧
    ∃ s', menuShowLoop 5 chainMem 0 chainDescended [backInput, backInput, backInput] =
        Outcome.running s' ∧
      s'.currentMenu = 0 ∧ s'.nbPreviousMenus = 0 ∧
      ∃ t, menuShowStep 5 chainMem 0 s' backInput = Outcome.left t ∧ t.currentMenu = 0 := by
  have h := backStack_round_trip 5 chainMem 0 0 chainStart chainDescended chainInputs
    [backInput, backInput, backInput] (by decide)
    (menusMem_size _ (by decide)) (by decide) (by decide) (by decide) (by decide)
  obtain ⟨_, _, _, s', h1, _, h3, h4, h5⟩ := h
  exact ⟨by decide, by decide, by decide, by decide, by decide, s', h1, h3, h4,
    h5 backInput (by decide) (by decide) (by decide)⟩

/-! ### C12: Activate on a submenu item -/

set_option maxRecDepth 100000 in
/-- Claim C12 evaluated on the code: Activate on the submenu item of the root
makes the submenu the current menu and stores the pair (root, 0) in entry 0 of
the back-stack, but leaves the selection on item 0 of the submenu, which is
hidden, although item 1 is not; the prologue of `menuShow`, run on the same
submenu, selects item 1. -/
theorem activate_selects_hidden_first_item :
    (menuShowInit hiddenFirstMem 0).map (fun s => (s.currentMenu, s.selectedItem)) =
      some (0, 0) ∧
    (((menuShowInit hiddenFirstMem 0).map fun s =>
      menuShowStep 5 hiddenFirstMem 0 s (pressedOnly KEY_A)).bind fun o => o.locals).map
      (fun s => (s.currentMenu, s.selectedItem, backStack s)) = some (1, 0, [(0, 0)]) ∧
    hiddenAt hiddenFirstSub 0 = true ∧ hiddenAt hiddenFirstSub 1 = false ∧
    (menuShowInit hiddenFirstMem 1).map (fun s => s.selectedItem) = some 1 := by
  decide

/-! ### C13: Combo strings -/

/-- Claim C13: for every 32-bit mask `c` with no bit whose table entry is `"?"`,
`MiscellaneousMenu_ConvertComboToString` yields the table names of the set bits
of `c`, bit 31 first, joined by `'+'` (the empty string for `c = 0`), and
splitting that string on `'+'` and looking each name up in the table gives back
`c`. -/
theorem convertCombo_round_trip (c : Nat) (hc : c < 4294967296)
    (hnamed : c &&& unnamedKeys = 0) :
    MiscellaneousMenu_ConvertComboToString c =
      ['+'].intercalate ((setBitsDescending c).map keyName) ∧
    (c = 0 → MiscellaneousMenu_ConvertComboToString c = []) ∧
    decodeComboString (MiscellaneousMenu_ConvertComboToString c) = c := by
  have hfold : (((setBitsDescending c).map fun i => 1 <<< i).foldl
      (fun m b => m ||| b) 0) = c := by
    unfold setBitsDescending
    rw [foldl_or_bits c 32]
    exact Nat.mod_eq_of_lt hc
  refine ⟨convertCombo_eq_intercalate c, ?_, ?_⟩
  · intro h0; subst h0; rfl
  · rw [convertCombo_eq_intercalate]
    unfold decodeComboString
    by_cases hnil : setBitsDescending c = []
    · rw [hnil] at hfold ⊢
      rw [← hfold]; rfl
    · have hplus : ∀ l ∈ (setBitsDescending c).map keyName, '+' ∉ l := by
        intro l hl
        obtain ⟨i, hi, rfl⟩ := List.mem_map.mp hl
        exact keyName_no_plus i ((mem_setBitsDescending c i).mp hi).1
      rw [List.splitOn_intercalate _ '+' hplus (by simpa using hnil), List.map_map]
      have hmap : (setBitsDescending c).map (lookupKey ∘ keyName) =
          (setBitsDescending c).map fun i => 1 <<< i := by
        apply List.map_congr_left
        intro i hi
        obtain ⟨hlt, hbit⟩ := (mem_setBitsDescending c i).mp hi
        have hu : unnamedKeys.testBit i = false := by
          have := Nat.testBit_and c unnamedKeys i
          rw [hnamed, Nat.zero_testBit, hbit] at this
          simpa using this.symm
        exact lookupKey_keyName i hlt hu
      rw [hmap, hfold]

/-- Claim C13 at the mask `CPad Down | X | B | A`. -/
theorem convertCombo_round_trip_witness :
    (0x80000403 : Nat) &&& unnamedKeys = 0 ∧
    MiscellaneousMenu_ConvertComboToString 0x80000403 = "CPad Down+X+B+A".data ∧
    decodeComboString (MiscellaneousMenu_ConvertComboToString 0x80000403) = 0x80000403 :=
  ⟨by decide, by decide,
    (convertCombo_round_trip 0x80000403 (by decide) (by decide)).2.2⟩

/-! ### C14: Result of the combo wait -/

/-- Claim C14, as the code has it: when the wait for release ends because the
shutdown flag is set, HID is not initialised or the timeout is exhausted,
`waitComboWithTimeout` returns `0`.  Once in the capture loop it returns the
variable `keys`, whatever ends the loop (all keys released, shutdown flag set,
timeout exhausted): the candidate of the last iteration whose candidate was
read back unchanged in all `0x10000` read-backs, and `0` when no iteration
accepted its candidate.  So it returns `0` when no non-zero candidate was
accepted, and when the last iteration accepted a candidate it returns that
candidate, also on a timeout with the keys still held.  Every result of the
function arises in one of these two ways. -/
theorem waitComboWithTimeout_returns_last_accepted (msec : Int) :
    (∀ (hid : Bool) (samples : List HeldSample) (n : Int) (exit : Bool)
        (rest : List HeldSample),
      releaseWait hid msec 0 samples = some (n, exit, rest) →
      (exit = true ∨ hid = false ∨ ¬ (msec < 0 ∨ n < msec)) →
      waitComboWithTimeout hid msec samples = some 0) ∧
    (∀ (held : List HeldSample) (stop : HeldSample) (rest : List HeldSample),
      (∀ s ∈ held, scanSample true s ≠ 0) → (msec < 0 ∨ (held.length : Int) ≤ msec) →
      (stop.menuShouldExit = true ∨ ¬ (msec < 0 ∨ (held.length : Int) < msec)) →
      waitComboWithTimeout true msec (held ++ stop :: rest) = some 0) ∧
    (∀ (held : List HeldSample) (free candidate : HeldSample) (window : List HeldSample)
        (last : HeldSample) (rest : List HeldSample),
      (∀ s ∈ held, scanSample true s ≠ 0) → scanSample true free = 0 →
      free.menuShouldExit = false → (msec < 0 ∨ (held.length : Int) < msec) →
      window.length = 0x10000 →
      (∀ s ∈ window, scanSample true s = scanSample true candidate) →
      scanSample true candidate ≠ 0 →
      (scanSample true last = 0 ∨ last.menuShouldExit = true ∨
        ¬ (msec < 0 ∨ (held.length : Int) + 1 < msec)) →
      waitComboWithTimeout true msec (held ++ free :: candidate :: (window ++ last :: rest)) =
        some (scanSample true candidate)) ∧
    (∀ (held : List HeldSample) (free candidate : HeldSample) (same : List HeldSample)
        (bad : HeldSample) (rest : List HeldSample),
      (∀ s ∈ held, scanSample true s ≠ 0) → scanSample true free = 0 →
      free.menuShouldExit = false → (msec < 0 ∨ (held.length : Int) < msec) →
      same.length < 0x10000 →
      (∀ s ∈ same, scanSample true s = scanSample true candidate) →
      scanSample true bad ≠ scanSample true candidate →
      (bad.menuShouldExit = true ∨ ¬ (msec < 0 ∨ (held.length : Int) + 1 < msec)) →
      waitComboWithTimeout true msec (held ++ free :: candidate :: (same ++ bad :: rest)) =
        some 0) ∧
    (∀ c : ComboCall, c.Valid msec →
      waitComboWithTimeout true msec c.samples = some (lastAccepted c.iterations)) ∧
    (∀ c : ComboCall, c.Valid msec →
      (∀ it ∈ c.iterations, it.accepted = true → scanSample true it.candidate = 0) →
      waitComboWithTimeout true msec c.samples = some 0) ∧
    (∀ (c : ComboCall) (it : CaptureIteration), c.Valid msec →
      c.iterations.getLast? = some it → it.accepted = true →
      waitComboWithTimeout true msec c.samples = some (scanSample true it.candidate)) ∧
    (∀ (samples : List HeldSample) (v : Nat),
      waitComboWithTimeout true msec samples = some v →
      (v = 0 ∧ ∃ (held : List HeldSample) (stop : HeldSample) (rest : List HeldSample),
        samples = held ++ stop :: rest ∧ (∀ s ∈ held, scanSample true s ≠ 0) ∧
        (stop.menuShouldExit = true ∨ ¬ (msec < 0 ∨ (held.length : Int) < msec))) ∨
      (∃ c : ComboCall, c.samples = samples ∧ c.Valid msec ∧
        v = lastAccepted c.iterations)) := by
  refine ⟨?_, ?_, ?_, ?_, ?_, ?_, ?_, ?_⟩
  · intro hid samples n exit rest hr hstop
    unfold waitComboWithTimeout
    rw [hr]
    simp only
    have : (exit || !hid || !(decide (msec < 0) || decide (n < msec))) = true := by
      rcases hstop with h | h | h
      · simp [h]
      · simp [h]
      · have h1 : ¬ (msec < 0) := fun h' => h (Or.inl h')
        have h2 : ¬ (n < msec) := fun h' => h (Or.inr h')
        simp [h1, h2]
    rw [if_pos this]
  · intro held stop rest hheld htime hstop
    have hr := releaseWait_held msec held stop rest 0 hheld
      (by rcases htime with h | h
          · exact Or.inl h
          · exact Or.inr (by omega))
      (by rcases hstop with h | h
          · left
            simp [scanSample, scanHeldKeysWith, h]
          · right
            simpa using h)
    unfold waitComboWithTimeout
    rw [hr]
    simp only [zero_add]
    have : (stop.menuShouldExit || !true ||
        !(decide (msec < 0) || decide ((held.length : Int) < msec))) = true := by
      rcases hstop with h | h
      · simp [h]
      · have h1 : ¬ (msec < 0) := fun h' => h (Or.inl h')
        have h2 : ¬ ((held.length : Int) < msec) := fun h' => h (Or.inr h')
        simp [h1, h2]
    rw [if_pos this]
  · intro held free candidate window last rest hheld hfree hexit htime hlen hall hne hstop
    have hacc : (CaptureIteration.mk candidate window (some last)).accepted = true :=
      (accepted_iff _).mpr ⟨hlen, hall⟩
    have hkeys : (CaptureIteration.mk candidate window (some last)).keysAfter 0 =
        scanSample true candidate := by
      unfold CaptureIteration.keysAfter
      rw [if_pos hacc]
    have hvalid : (ComboCall.mk held free [CaptureIteration.mk candidate window (some last)]
        rest).Valid msec := by
      refine ⟨hheld, hfree, hexit, htime, Or.inl hacc, ?_, ?_⟩
      · rw [hkeys]
        simp [hne]
      · unfold CaptureIteration.continues CaptureIteration.shutdown
        simp only
        rcases hstop with h | h | h
        · simp [h]
        · simp [h]
        · have h1 : ¬ (msec < 0) := fun h' => h (Or.inl h')
          have h2 : ¬ ((held.length : Int) + 1 < msec) := fun h' => h (Or.inr h')
          simp [h1, h2]
    have hcall := waitComboWithTimeout_call msec _ hvalid
    rw [lastAccepted_of_last [CaptureIteration.mk candidate window (some last)]
      (CaptureIteration.mk candidate window (some last)) rfl hacc] at hcall
    simpa [ComboCall.samples, CaptureIteration.samples] using hcall
  · intro held free candidate same bad rest hheld hfree hexit htime hlen hall hbad hstop
    have hrej : (CaptureIteration.mk candidate (same ++ [bad]) none).Rejected :=
      ⟨same, bad, rfl, hlen, hall, hbad⟩
    have hkeys : (CaptureIteration.mk candidate (same ++ [bad]) none).keysAfter 0 = 0 := by
      unfold CaptureIteration.keysAfter
      rw [rejected_not_accepted _ hrej]
      simp
    have hvalid : (ComboCall.mk held free [CaptureIteration.mk candidate (same ++ [bad]) none]
        rest).Valid msec := by
      refine ⟨hheld, hfree, hexit, htime, Or.inr hrej, ?_, ?_⟩
      · rw [hkeys]
        simp
      · unfold CaptureIteration.continues CaptureIteration.shutdown
        simp only [List.getLast?_concat, Bool.true_and]
        rcases hstop with h | h
        · simp [h]
        · have h1 : ¬ (msec < 0) := fun h' => h (Or.inl h')
          have h2 : ¬ ((held.length : Int) + 1 < msec) := fun h' => h (Or.inr h')
          simp [h1, h2]
    have hcall := waitComboWithTimeout_call msec _ hvalid
    rw [lastAccepted_of_none [CaptureIteration.mk candidate (same ++ [bad]) none] (by
      intro it hit hacc
      rw [List.mem_singleton.mp hit, rejected_not_accepted _ hrej] at hacc
      exact absurd hacc (by simp))] at hcall
    simpa [ComboCall.samples, CaptureIteration.samples] using hcall
  · intro c hc
    exact waitComboWithTimeout_call msec c hc
  · intro c hc hnone
    rw [waitComboWithTimeout_call msec c hc, lastAccepted_of_none c.iterations hnone]
  · intro c it hc hlast hacc
    rw [waitComboWithTimeout_call msec c hc, lastAccepted_of_last c.iterations it hlast hacc]
  · intro samples v h
    exact waitComboWithTimeout_cases msec samples v h

/-- Claim C14 on a call with a timeout of two iterations: `KEY_A` is released
after the first sample, `A | B` is accepted, and the budget is exhausted while
`A | B` is still held; the function returns `A | B`. -/
theorem waitComboWithTimeout_returns_last_accepted_witness :
    timeoutCall.Valid 2 ∧
    timeoutCall.iterations.getLast? =
      some (CaptureIteration.mk (heldSample 3) (List.replicate 0x10000 (heldSample 3))
        (some (heldSample 3))) ∧
    waitComboWithTimeout true 2 timeoutCall.samples = some 3 :=
  ⟨timeoutCall_valid, rfl,
    (waitComboWithTimeout_returns_last_accepted 2).2.2.2.2.2.2.1 timeoutCall
      (CaptureIteration.mk (heldSample 3) (List.replicate 0x10000 (heldSample 3))
        (some (heldSample 3)))
      timeoutCall_valid rfl (accepted_replicate _ _)⟩

/-- Claim C14 fails as stated: with a timeout of one iteration, the keys `A | B`
pressed after the release wait and held through the `0x10000` read-backs and
beyond, the loop stops on the exhausted timeout (the keys are still held, the
shutdown flag is clear) and `waitComboWithTimeout` returns `A | B`, not `0`. -/
theorem waitComboWithTimeout_nonzero_on_timeout :
    waitComboWithTimeout true 1
      (heldSample 0 :: heldSample 3 :: (List.replicate 0x10000 (heldSample 3) ++ [heldSample 3]))
      = some 3 ∧
    scanSample true (heldSample 3) ≠ 0 := by
  exact ⟨waitComboWithTimeout_after_window (List.replicate 0x10000 (heldSample 3))
    (heldSample 3)
    (stableFor_accept_pos true 3 (heldSample 3) (by decide) 0x10000 (by decide) 0 false
      [heldSample 3]), by decide⟩

/-! ### C15: Debounce window -/

/-- Claim C15: every non-zero value `waitComboWithTimeout` returns was sampled
and then read back unchanged in `0x10000` further consecutive samples; and a
candidate that differs from a sample of its window of `0x10000` read-backs
leaves the variable `keys` as it was. -/
theorem waitComboWithTimeout_debounced (hid : Bool) (msec : Int) (samples : List HeldSample) :
    (∀ v, waitComboWithTimeout hid msec samples = some v → v ≠ 0 →
      ∃ (before : List HeldSample) (first : HeldSample) (window after : List HeldSample),
        samples = before ++ first :: (window ++ after) ∧ window.length = 0x10000 ∧
        scanSample hid first = v ∧ ∀ s ∈ window, scanSample hid s = v) ∧
    (∀ (candidate keys : Nat) (exit : Bool) (window rest : List HeldSample),
      window.length = 0x10000 → (∃ s ∈ window, scanSample hid s ≠ candidate) →
      ∃ exit1 rest1,
        stableFor hid candidate 0x10000 keys exit (window ++ rest) = some (keys, exit1, rest1)) := by
  constructor
  · intro v hv hne
    exact waitComboWithTimeout_stable hid msec samples v hv hne
  · intro candidate keys exit window rest hlen hdiff
    have := stableFor_reject hid candidate window keys exit rest hdiff
    rw [hlen] at this
    exact this

/-- Claim C15 on the samples of a combo `A | B` held through the window and
then released. -/
theorem waitComboWithTimeout_debounced_witness :
    waitComboWithTimeout true 1
      (heldSample 0 :: heldSample 3 :: (List.replicate 0x10000 (heldSample 3) ++ [heldSample 0]))
      = some 3 ∧
    ∃ (before : List HeldSample) (first : HeldSample) (window after : List HeldSample),
      heldSample 0 :: heldSample 3 :: (List.replicate 0x10000 (heldSample 3) ++ [heldSample 0])
        = before ++ first :: (window ++ after) ∧ window.length = 0x10000 ∧
      scanSample true first = 3 ∧ ∀ s ∈ window, scanSample true s = 3 := by
  have hval : waitComboWithTimeout true 1
      (heldSample 0 :: heldSample 3 :: (List.replicate 0x10000 (heldSample 3) ++ [heldSample 0]))
      = some 3 := by
    exact waitComboWithTimeout_after_window (List.replicate 0x10000 (heldSample 3))
      (heldSample 0)
      (stableFor_accept_pos true 3 (heldSample 3) (by decide) 0x10000 (by decide) 0 false
        [heldSample 0])
  exact ⟨hval, (waitComboWithTimeout_debounced true 1 _).1 3 hval (by decide)⟩

/-! ### C16: Input wait -/

/-- Claim C16: while HID is initialised and the shutdown flag stays clear,
`waitInputWithTimeout(msec)` with `msec ≥ 1` returns the first non-empty value
of `keysDown | (keysDownRepeat & DIRECTIONAL_KEYS)` among the first `msec`
samples, as soon as it is read, and `0` when none of the `msec` samples is
non-empty; with `msec < 0` it returns the first non-empty value however late it
comes and keeps waiting otherwise; when HID is not initialised or the shutdown
flag is set, at the first iteration or after samples that were all empty, it
returns `0` whatever the key values of the sample are, and `scanHeldKeys`
returns `0` as well. -/
theorem waitInputWithTimeout_first_nonEmpty (DIRECTIONAL_KEYS : Nat) (msec : Int)
    (samples : List InputSample) (hclear : ∀ s ∈ samples, s.menuShouldExit = false) :
    (1 ≤ msec → msec.toNat ≤ samples.length →
      waitInputWithTimeout DIRECTIONAL_KEYS true msec samples =
        some ((((samples.take msec.toNat).map fun s =>
          s.keysDown ||| (s.keysDownRepeat &&& DIRECTIONAL_KEYS)).find?
            fun keys => keys != 0).getD 0)) ∧
    (1 ≤ msec → ∀ v,
      (((samples.take msec.toNat).map fun s =>
        s.keysDown ||| (s.keysDownRepeat &&& DIRECTIONAL_KEYS)).find?
          fun keys => keys != 0) = some v →
      waitInputWithTimeout DIRECTIONAL_KEYS true msec samples = some v) ∧
    (msec < 0 →
      waitInputWithTimeout DIRECTIONAL_KEYS true msec samples =
        (samples.map fun s => s.keysDown ||| (s.keysDownRepeat &&& DIRECTIONAL_KEYS)).find?
          fun keys => keys != 0) ∧
    (∀ others : List InputSample,
      waitInputWithTimeout DIRECTIONAL_KEYS false msec others = some 0) ∧
    (∀ (s : InputSample) (rest : List InputSample), s.menuShouldExit = true →
      (∀ t ∈ samples, t.keysDown ||| (t.keysDownRepeat &&& DIRECTIONAL_KEYS) = 0) →
      (msec < 0 ∨ (samples.length : Int) < msec) →
      waitInputWithTimeout DIRECTIONAL_KEYS true msec (samples ++ s :: rest) = some 0) ∧
    (∀ (g : Globals) (held : Nat), g.isHidInitialized = false ∨ g.menuShouldExit = true →
      scanHeldKeys g held = 0) := by
  refine ⟨?_, ?_, ?_, ?_, ?_, ?_⟩
  · intro h1 hlen
    have := waitInputLoop_bounded DIRECTIONAL_KEYS msec samples 0 hclear (by omega) (by omega)
      (by simpa using hlen)
    simpa [waitInputWithTimeout, firstNonEmpty, inputValue_eq] using this
  · intro h1 v hv
    have := waitInputLoop_found DIRECTIONAL_KEYS msec samples 0 hclear (by omega) (by omega) v
      (by simpa [firstNonEmpty, inputValue_eq] using hv)
    exact this
  · intro hneg
    have := waitInputLoop_unbounded DIRECTIONAL_KEYS msec samples 0 hclear hneg
    simpa [waitInputWithTimeout, firstNonEmpty, inputValue_eq] using this
  · intro others
    cases others <;> simp [waitInputWithTimeout, waitInputLoop]
  · intro s rest hs hzero htime
    exact waitInputLoop_shutdown DIRECTIONAL_KEYS msec samples s rest 0
      (fun t ht => ⟨hclear t ht, hzero t ht⟩) (by simpa using htime) hs
  · intro g held h
    unfold scanHeldKeys
    rcases h with h | h <;> simp [h]

set_option maxRecDepth 100000 in
/-- Claim C16 at a timeout of 3 samples: the first sample reports only a repeat
of `KEY_A`, which is not a directional key and counts as empty; the second
reports `KEY_B` down and a repeat of `KEY_DOWN` and `KEY_A`, and the result is
`KEY_B | KEY_DOWN`. -/
theorem waitInputWithTimeout_first_nonEmpty_witness :
    (∀ s ∈ [InputSample.mk false 0 KEY_A, InputSample.mk false KEY_B (KEY_DOWN ||| KEY_A),
        InputSample.mk false KEY_X 0],
      s.menuShouldExit = false) ∧
    waitInputWithTimeout (KEY_DOWN ||| KEY_UP ||| KEY_LEFT ||| KEY_RIGHT) true 3
      [InputSample.mk false 0 KEY_A, InputSample.mk false KEY_B (KEY_DOWN ||| KEY_A),
        InputSample.mk false KEY_X 0] =
      some (KEY_B ||| KEY_DOWN) :=
  ⟨by decide,
    ((waitInputWithTimeout_first_nonEmpty (KEY_DOWN ||| KEY_UP ||| KEY_LEFT ||| KEY_RIGHT) 3
      [InputSample.mk false 0 KEY_A, InputSample.mk false KEY_B (KEY_DOWN ||| KEY_A),
        InputSample.mk false KEY_X 0]
      (by decide)).1 (by decide) (by decide)).trans (by decide)⟩

/-! ### C17: NTP offset -/

/-- Claim C17 evaluated on the code: five presses of `KEY_LEFT` and thirty of
`KEY_UP` select `utcOffset = 7`, `utcOffsetMinute = 30`; the screen shows
`-0530`, which stands for `-19800000` ms, while the timestamp is moved by
`-16200000` ms (the minutes are added to a negative hour offset instead of
being subtracted). -/
theorem ntp_offset_differs_from_shown :
    utcOffsetSelect (List.replicate 5 KEY_LEFT ++ List.replicate 30 KEY_UP) = (7, 30) ∧
    shownUtcOffset 7 30 = ('-', 5, 30) ∧
    shownOffsetMs (shownUtcOffset 7 30) = -19800000 ∧
    ntpAdjustedTime 3900000000000 7 30 = 3900000000000 - 16200000 ∧
    ntpAdjustedTime 0 7 30 = toU64 (-16200000) ∧
    ntpAdjustedTime 0 7 30 ≠ toU64 (shownOffsetMs (shownUtcOffset 7 30)) := by
  decide

/-! ### C18: Combo string buffer -/

set_option maxRecDepth 100000 in
/-- Claim C18 evaluated on the code: for the mask `0xFFFFFFFF` the loop of
`MiscellaneousMenu_ConvertComboToString` stores 160 bytes, and the string has
159 characters before its NUL, in a buffer of 128 bytes; the mask of all
named bits already needs 142 bytes. -/
theorem convertCombo_exceeds_buffer :
    convertComboBytes 0xFFFFFFFF = 160 ∧
    (MiscellaneousMenu_ConvertComboToString 0xFFFFFFFF).length = 159 ∧
    comboStrSize = 128 ∧
    (0xFFFFFFFF - unnamedKeys) &&& unnamedKeys = 0 ∧
    convertComboBytes (0xFFFFFFFF - unnamedKeys) = 142 := by
  decide

end Rosalina
